import Mathlib

/-!
The pagination engine of vim-print.

A shallow embedding of `src/backend/cairo/print.c`, and of the functions of
`src/backend/pangocairo/print.c` that differ from it, in the namespace `Pango`.

Conventions of the embedding.

* A C string is the list of its bytes before the terminating NUL; a byte is a
  natural number.  A `char *` that may be `NULL` is an `Option`.
* A `double` is an exact rational; rounding is outside the model.  Where a
  property would hold by exact cancellation only, the expressions of the code
  are also evaluated with every operation rounded (`round_double`).
* The counters `pc.pagenum` and `pc.linenum` are unbounded integers.  The sum
  `1 + options.header_extraline` in `newpage` is taken in the 32 bits of an
  `int` (`int_add`), as the compiled program does.
* The process-wide variables `options`, `pc` and `cr` are the three fields of
  `World`.  The cairo context is the font selection in force and the list of
  the drawing calls issued so far.
* `error(...)` ends the process: a function that can reach it returns `Except`.
  Undefined behaviour (a write past a fixed array, a read past a terminator,
  a `NULL` string) is reported the same way, by its own error value.
* `newpage`, `print_header` and `print_text` call each other.  The recursion is
  cut by a budget on the nesting depth of `newpage`; `Err.fuel` says that the
  budget was used up, it is not a result of the program.
-/

namespace VimPrint

/-! ## Data model -/

/-- The macro LINENR_MARGIN. -/
def LINENR_MARGIN : ℚ := 10

/-- Size of the arrays `left` and `right` in `print_header`. -/
def HEADER_BUFSIZE : Nat := 1024

/-- Size of the arrays `fmt` and `buf` in `print_number`. -/
def NUMBER_BUFSIZE : Nat := 256

/-- Bytes of an ASCII string literal. -/
def ascii (s : String) : List Nat := s.toList.map Char.toNat

/-- The ways a run can stop early. -/
inductive Err where
  | unknown_header_item (c : Nat)
  | invalid_utf8
  | file_type
  | ttf_not_supported
  | ft_new_face
  | null_string
  | buffer_overflow
  | read_past_end
  | fuel
  | unexpected_eof
  | unexpected_character (c : Nat)
  | read_color
deriving DecidableEq, Repr

deriving instance DecidableEq for Except

/-- The struct Options. -/
structure Options where
  paper_width : ℚ
  paper_height : ℚ
  margin_left : ℚ
  margin_top : ℚ
  margin_right : ℚ
  margin_bottom : ℚ
  header_format : Option (List Nat)
  header_extraline : Int
  number_width : Int
  linespace : ℚ
  font_name : Option (List Nat)
  font_size : ℚ
deriving DecidableEq, Repr

/-- The struct Color. -/
structure Color where
  r : ℚ
  g : ℚ
  b : ℚ
deriving DecidableEq, Repr

/-- The struct Highlight. -/
structure Highlight where
  name : Option (List Nat)
  fg : Color
  bg : Color
  sp : Color
  bold : Int
  italic : Int
  underline : Int
  undercurl : Int
deriving DecidableEq, Repr

/-- The struct PrintContext. -/
structure PrintContext where
  pagenum : Int
  linenum : Int
  font_height : ℚ
  font_descent : ℚ
  numberwidth : ℚ
  y : ℚ
  x : ℚ
  hi : Highlight
deriving DecidableEq, Repr

/-- Font selected in the cairo context: a toy font chosen by family, slant and
weight, or a FreeType face loaded from a file. -/
inductive FontSel where
  | unset
  | toy (family : List Nat) (size : ℚ) (italic : Bool) (bold : Bool)
  | ft (file : List Nat) (size : ℚ)
deriving DecidableEq, Repr

/-- Kind of output surface. -/
inductive Surface where
  | ps
  | pdf
deriving DecidableEq, Repr

/-- A call on the cairo context that leaves a mark in the output.
`show_text` is `cairo_show_text` in the cairo backend and
`pango_cairo_show_layout_line` in the pangocairo backend; its first argument
is the value of `pc.pagenum` at the time of the call: cairo does not receive
it, the embedding records it next to the call. -/
inductive Op where
  | show_page
  | set_source_rgb (r g b : ℚ)
  | rectangle (x y w h : ℚ)
  | fill
  | move_to (x y : ℚ)
  | show_text (pagenum : Int) (s : List Nat)
deriving DecidableEq, Repr

/-- The cairo context `cr` together with its surface. -/
structure Cairo where
  surface : Option Surface
  font : FontSel
  ops : List Op
deriving DecidableEq, Repr

/-- The text measurement and font services of the graphics library. -/
structure Backend where
  /-- The field `te.x_advance` of `cairo_text_extents` for a string in a font. -/
  x_advance : FontSel → List Nat → ℚ
  /-- The field `fe.height` of `cairo_font_extents`. -/
  fe_height : FontSel → ℚ
  /-- The field `fe.descent` of `cairo_font_extents`. -/
  fe_descent : FontSel → ℚ
  /-- Whether the build has CAIRO_HAS_FT_FONT. -/
  has_ft_font : Bool
  /-- Whether `FT_New_Face` succeeds for a file, given the library handle that
  `set_font` passes to it. -/
  ft_new_face : List Nat → Bool

/-- The process-wide variables. -/
structure World where
  options : Options
  pc : PrintContext
  cr : Cairo
deriving DecidableEq, Repr

/-- Zero-initialised statics, as at the start of `main`. -/
def World.init : World :=
  { options :=
      { paper_width := 0, paper_height := 0, margin_left := 0, margin_top := 0,
        margin_right := 0, margin_bottom := 0, header_format := none,
        header_extraline := 0, number_width := 0, linespace := 0,
        font_name := none, font_size := 0 },
    pc :=
      { pagenum := 0, linenum := 0, font_height := 0, font_descent := 0,
        numberwidth := 0, y := 0, x := 0,
        hi := { name := none, fg := ⟨0, 0, 0⟩, bg := ⟨0, 0, 0⟩, sp := ⟨0, 0, 0⟩,
                bold := 0, italic := 0, underline := 0, undercurl := 0 } },
    cr := { surface := none, font := FontSel.unset, ops := [] } }

/-- Append a drawing call to the context. -/
def World.emit (w : World) (op : Op) : World :=
  { w with cr := { w.cr with ops := w.cr.ops ++ [op] } }

/-- Number of `cairo_show_page` calls issued so far. -/
def World.flushes (w : World) : Nat := w.cr.ops.count Op.show_page

/-! ## String helpers -/

/-- Loop of `endswith`: `a` and `b` are the offsets of the two pointers in
their strings; the result is the final offset `b`. -/
def endswith_loop (haystack needle : List Nat) : Nat → Int → Int → Int
  | 0, _, b => b
  | k + 1, a, b =>
    if 0 ≤ a ∧ 0 ≤ b ∧ haystack.getD a.toNat 0 = needle.getD b.toNat 0 then
      endswith_loop haystack needle k (a - 1) (b - 1)
    else b

/-- The function `endswith`. -/
def endswith (haystack needle : List Nat) : Bool :=
  decide (endswith_loop haystack needle (haystack.length + 1)
    ((haystack.length : Int) - 1) ((needle.length : Int) - 1) < 0)

/-- The function `utf8len`, on the first byte of its argument. -/
def utf8len (b : Nat) : Except Err Nat :=
  let c := b % 256
  if c &&& 0x80 = 0 then .ok 1
  else if c &&& 0xE0 = 0xC0 then .ok 2
  else if c &&& 0xF0 = 0xE0 then .ok 3
  else if c &&& 0xF8 = 0xF0 then .ok 4
  else if c &&& 0xFC = 0xF8 then .ok 5
  else if c &&& 0xFE = 0xFC then .ok 6
  else .error Err.invalid_utf8

/-- Output of the conversion `%d`. -/
def decimal (n : Int) : List Nat :=
  if n < 0 then 45 :: (Nat.toDigits 10 n.natAbs).map Char.toNat
  else (Nat.toDigits 10 n.natAbs).map Char.toNat

/-- Output of the conversion `%<width>d` for a positive width: the decimal
number, padded on the left with blanks up to the width. -/
def decimal_field (width : Nat) (n : Int) : List Nat :=
  List.replicate (width - (decimal n).length) 32 ++ decimal n

/-- The function `is_white`. -/
def is_white (color : Color) : Bool :=
  decide (color.r = 1 ∧ color.g = 1 ∧ color.b = 1)

/-! ## Header template -/

/-- The arrays `left` and `right` of `print_header` and the pointer `out`:
`out_right` tells which array it points into, `out` is its offset there. -/
structure HeaderBuf where
  left : List Nat
  right : List Nat
  out_right : Bool
  out : Nat
deriving DecidableEq, Repr

/-- State before the loop: both arrays empty, `out = left`. -/
def HeaderBuf.start : HeaderBuf := { left := [], right := [], out_right := false, out := 0 }

/-- One round of writing through `out`: the bytes are stored from `out` on
(`*out++ = c`, or `out += sprintf(out, ...)`), then `*out = 0` ends the
string behind them.  The terminator has to lie inside the array. -/
def header_put (hb : HeaderBuf) (bytes : List Nat) : Except Err HeaderBuf :=
  if hb.out + bytes.length < HEADER_BUFSIZE then
    if hb.out_right then
      .ok { hb with right := hb.right.take hb.out ++ bytes, out := hb.out + bytes.length }
    else
      .ok { hb with left := hb.left.take hb.out ++ bytes, out := hb.out + bytes.length }
  else .error Err.buffer_overflow

/-- The loop of `print_header` over the format. -/
def header_scan (pagenum : Int) : List Nat → HeaderBuf → Except Err HeaderBuf
  | [], hb => .ok hb
  | c :: rest, hb =>
    if c = 37 then
      match rest with
      | [] => .error (Err.unknown_header_item 0)
      | d :: rest2 =>
        if d = 37 then
          (header_put hb [37]).bind (header_scan pagenum rest2)
        else if d = 78 then
          (header_put hb (decimal pagenum)).bind (header_scan pagenum rest2)
        else if d = 61 then
          (header_put { hb with out_right := true, out := 0 } []).bind (header_scan pagenum rest2)
        else .error (Err.unknown_header_item d)
    else
      (header_put hb [c]).bind (header_scan pagenum rest)

/-- Left and right text of the header for a format and a page number. -/
def header_expand (format : List Nat) (pagenum : Int) : Except Err (List Nat × List Nat) :=
  (header_scan pagenum format HeaderBuf.start).map (fun hb => (hb.left, hb.right))

/-! ## Fonts -/

/-- The font that `set_font` selects.  In the FreeType branch the static
`prev_name` is never written, so it differs from every name that ends in
`.ttf`, and the static `library` is never initialised; whether `FT_New_Face`
then succeeds is left to the backend. -/
def select_font (be : Backend) (name : Option (List Nat)) (size : ℚ) (bold italic : Int) :
    Except Err FontSel :=
  match name with
  | none => .error Err.null_string
  | some nm =>
    if endswith nm (ascii ".ttf") then
      if be.has_ft_font then
        if be.ft_new_face nm then .ok (FontSel.ft nm size)
        else .error Err.ft_new_face
      else .error Err.ttf_not_supported
    else .ok (FontSel.toy nm size (decide (italic ≠ 0)) (decide (bold ≠ 0)))

/-- The function `set_font`. -/
def set_font (be : Backend) (name : Option (List Nat)) (size : ℚ) (bold italic : Int)
    (cr : Cairo) : Except Err Cairo :=
  (select_font be name size bold italic).map fun f => { cr with font := f }

/-! ## Text -/

/-- The fixed style that `print_header` and `print_number` draw in. -/
def fixed_highlight (name : String) : Highlight :=
  { name := some (ascii name), fg := ⟨0, 0, 0⟩, bg := ⟨1, 1, 1⟩, sp := ⟨0, 0, 0⟩,
    bold := 0, italic := 0, underline := 0, undercurl := 0 }

/-- The wrap test of `print_text` for a character of advance `adv`; `np` is
the call of `newpage`. -/
def print_text_wrap (np : World → Except Err World) (adv : ℚ) (w : World) : Except Err World :=
  if w.pc.x + adv > w.options.paper_width - w.options.margin_right then
    let w1 := { w with pc := { w.pc with y := w.pc.y + w.pc.font_height } }
    (if w1.pc.y + w1.pc.font_height > w1.options.paper_height - w1.options.margin_bottom then
        np w1
      else .ok w1).map
      fun w2 => { w2 with pc := { w2.pc with x := w2.options.margin_left + w2.pc.numberwidth } }
  else .ok w

/-- The drawing calls of `print_text` for one character: the background
rectangle unless the background is white, then the glyph. -/
def print_text_draw (hi : Highlight) (buf : List Nat) (adv : ℚ) (w : World) : World :=
  let w1 :=
    if is_white hi.bg then w
    else
      ((w.emit (Op.set_source_rgb hi.bg.r hi.bg.g hi.bg.b)).emit
        (Op.rectangle w.pc.x w.pc.y adv w.pc.font_height)).emit Op.fill
  ((w1.emit (Op.set_source_rgb hi.fg.r hi.fg.g hi.fg.b)).emit
    (Op.move_to w.pc.x (w.pc.y + w.pc.font_height - w.pc.font_descent))).emit
    (Op.show_text w.pc.pagenum buf)

/-- The loop of `print_text` over the bytes from `p` on.  The first argument
bounds the number of rounds; every round consumes at least one byte, so the
length of the text is enough. -/
def print_text_loop (be : Backend) (np : World → Except Err World) (hi : Highlight) :
    Nat → List Nat → World → Except Err World
  | _, [], w => .ok w
  | 0, _ :: _, _ => .error Err.fuel
  | n + 1, c :: rest, w =>
    (utf8len c).bind fun len =>
    let buf := (c :: rest).take len
    let adv := be.x_advance w.cr.font buf
    (print_text_wrap np adv w).bind fun w1 =>
    let w2 := print_text_draw hi buf adv w1
    let w3 := { w2 with pc := { w2.pc with x := w2.pc.x + adv } }
    if len ≤ (c :: rest).length then
      print_text_loop be np hi n ((c :: rest).drop len) w3
    else .error Err.read_past_end

/-- The function `print_text`; `np` is the call of `newpage`. -/
def print_text (be : Backend) (np : World → Except Err World) (text : List Nat)
    (hi : Highlight) (w : World) : Except Err World :=
  (set_font be w.options.font_name w.options.font_size hi.bold hi.italic w.cr).bind fun cr =>
  print_text_loop be np hi text.length text { w with cr := cr }

/-- The function `print_header`; `np` is the call of `newpage`. -/
def print_header (be : Backend) (np : World → Except Err World) (w : World) :
    Except Err World :=
  match w.options.header_format with
  | none => .ok w
  | some format =>
    if format = [] then .ok w
    else
      (header_expand format w.pc.pagenum).bind fun lr =>
      let hi := fixed_highlight "PageHeader"
      let w1 := { w with pc := { w.pc with x := w.options.margin_left, y := w.options.margin_top } }
      (print_text be np lr.1 hi w1).bind fun w2 =>
      let te := be.x_advance w2.cr.font lr.2
      let w3 := { w2 with pc := { w2.pc with
                    x := w2.options.paper_width - w2.options.margin_right - te,
                    y := w2.options.margin_top } }
      print_text be np lr.2 hi w3

/-- Addition in the type `int` of the machine, as in `1 + options.header_extraline`:
the sum is kept to the 32 bits of an `int` in two's complement.  C leaves an
overflow of `int` undefined; the compiled program wraps. -/
def int_add (a b : Int) : Int := (a + b + 2 ^ 31) % 2 ^ 32 - 2 ^ 31

/-- The function `newpage`.  The first argument bounds the depth to which
`newpage` calls itself through `print_header` and `print_text`. -/
def newpage (be : Backend) : Nat → World → Except Err World
  | 0, _ => .error Err.fuel
  | fuel + 1, w =>
    let w1 := if w.pc.pagenum ≠ 0 then w.emit Op.show_page else w
    let w2 := { w1 with pc := { w1.pc with pagenum := w1.pc.pagenum + 1 } }
    (print_header be (newpage be fuel) w2).map fun w3 =>
      { w3 with pc := { w3.pc with
          x := w3.options.margin_left + w3.pc.numberwidth,
          y := w3.options.margin_top + w3.pc.font_height * (int_add 1 w3.options.header_extraline) } }

/-- The function `print_number`; `np` is the call of `newpage`. -/
def print_number (be : Backend) (np : World → Except Err World) (w : World) :
    Except Err World :=
  if w.options.number_width ≤ 0 then .ok w
  else
    let buf := decimal_field w.options.number_width.toNat w.pc.linenum
    if buf.length < NUMBER_BUFSIZE then
      let te := be.x_advance w.cr.font buf
      let w1 := { w with pc := { w.pc with
                    x := w.options.margin_left + w.pc.numberwidth - LINENR_MARGIN - te } }
      print_text be np buf (fixed_highlight "LineNr") w1
    else .error Err.buffer_overflow

/-- The function `newline`. -/
def newline (be : Backend) (fuel : Nat) (w : World) : Except Err World :=
  (if w.pc.linenum = 0 then newpage be fuel w
   else
     let w1 := { w with pc := { w.pc with y := w.pc.y + w.pc.font_height } }
     if w1.pc.y + w1.pc.font_height > w1.options.paper_height - w1.options.margin_bottom then
       newpage be fuel w1
     else .ok w1).bind fun w2 =>
  let w3 := { w2 with pc := { w2.pc with linenum := w2.pc.linenum + 1 } }
  (print_number be (newpage be fuel) w3).map fun w4 =>
    { w4 with pc := { w4.pc with x := w4.options.margin_left + w4.pc.numberwidth } }

/-! ## Directives -/

/-- The function `command_start`, for the output file name `outfile`. -/
def command_start (be : Backend) (outfile : List Nat) (w : World) : Except Err World :=
  (if endswith outfile (ascii ".ps") then Except.ok Surface.ps
   else if endswith outfile (ascii ".pdf") then Except.ok Surface.pdf
   else Except.error Err.file_type).bind fun kind =>
  let cr0 : Cairo := { surface := some kind, font := FontSel.unset, ops := [] }
  let pc0 := { w.pc with pagenum := 0, linenum := 0 }
  (set_font be w.options.font_name w.options.font_size 0 0 cr0).map fun cr =>
  let pc1 := { pc0 with
    font_height := be.fe_height cr.font + w.options.linespace,
    font_descent := be.fe_descent cr.font + w.options.linespace / 2 }
  let pc2 :=
    if w.options.number_width > 0 then
      { pc1 with numberwidth :=
          w.options.number_width * be.x_advance cr.font (ascii "0") + LINENR_MARGIN }
    else { pc1 with numberwidth := 0 }
  { w with pc := pc2, cr := cr }

/-- The function `command_end`. -/
def command_end (w : World) : World :=
  let w1 := w.emit Op.show_page
  { w1 with cr := { w1.cr with surface := none } }

/-- A directive of the input stream with its arguments already read. -/
inductive Directive where
  | PAPER (width height : ℚ)
  | MARGIN (left top right bottom : ℚ)
  | HEADER (format : List Nat) (extraline : Int)
  | NUMBER (width : Int)
  | LINESPACE (amount : ℚ)
  | FONT (name : List Nat) (size : ℚ)
  | HIGHLIGHT (hi : Highlight)
  | TEXT (text : List Nat)
  | LINE
  | START
  | END
deriving DecidableEq, Repr

/-- One round of the loop of `print`: the command function of a directive. -/
def exec (be : Backend) (outfile : List Nat) (fuel : Nat) :
    Directive → World → Except Err World
  | .PAPER pw ph, w =>
    .ok { w with options := { w.options with paper_width := pw, paper_height := ph } }
  | .MARGIN l t r b, w =>
    .ok { w with options := { w.options with
            margin_left := l, margin_top := t, margin_right := r, margin_bottom := b } }
  | .HEADER format extraline, w =>
    .ok { w with options := { w.options with
            header_format := some format, header_extraline := extraline } }
  | .NUMBER width, w => .ok { w with options := { w.options with number_width := width } }
  | .LINESPACE amount, w => .ok { w with options := { w.options with linespace := amount } }
  | .FONT name size, w =>
    .ok { w with options := { w.options with font_name := some name, font_size := size } }
  | .HIGHLIGHT hi, w => .ok { w with pc := { w.pc with hi := hi } }
  | .TEXT text, w => print_text be (newpage be fuel) text w.pc.hi w
  | .LINE, w => newline be fuel w
  | .START, w => command_start be outfile w
  | .END, w => .ok (command_end w)

/-- The function `print` on a stream of directives. -/
def print (be : Backend) (outfile : List Nat) (fuel : Nat) :
    List Directive → World → Except Err World
  | [], w => .ok w
  | d :: ds, w => (exec be outfile fuel d w).bind (print be outfile fuel ds)

/-! ## Reading the directive stream

The stream `in` is the list of the bytes not yet read; a reading function
returns what it read together with the rest of the stream. -/

/-- The characters that `skip_space` skips: blank, tab, carriage return and
line feed. -/
def is_space (c : Nat) : Bool := decide (c = 32 ∨ c = 9 ∨ c = 13 ∨ c = 10)

/-- The function `skip_space`: the stream behind the longest run of the
characters of the scan set. -/
def skip_space (input : List Nat) : List Nat := input.dropWhile is_space

/-- The function `read_char`. -/
def read_char : List Nat → Except Err (Nat × List Nat)
  | [] => .error Err.unexpected_eof
  | c :: rest => .ok (c, rest)

/-- The loop of `read_string`; `buf` holds the bytes stored so far.  Each
round reads one character with `read_char`, and one more behind a backslash.
The value is the C string in the buffer, which ends at its first NUL. -/
def read_string_loop : List Nat → List Nat → Except Err (List Nat × List Nat)
  | [], _ => .error Err.unexpected_eof
  | c :: rest, buf =>
    if c = 34 then .ok (buf.takeWhile (· ≠ 0), rest)
    else if c = 92 then
      match rest with
      | [] => .error Err.unexpected_eof
      | d :: rest2 => read_string_loop rest2 (buf ++ [d])
    else read_string_loop rest (buf ++ [c])

/-- The function `read_string`. -/
def read_string (input : List Nat) : Except Err (List Nat × List Nat) :=
  (read_char (skip_space input)).bind fun cr =>
    if cr.1 ≠ 34 then .error (Err.unexpected_character cr.1)
    else read_string_loop cr.2 []

/-- Value of a hexadecimal digit. -/
def hex_value (c : Nat) : Option Nat :=
  if 48 ≤ c ∧ c ≤ 57 then some (c - 48)
  else if 97 ≤ c ∧ c ≤ 102 then some (c - 87)
  else if 65 ≤ c ∧ c ≤ 70 then some (c - 55)
  else none

/-- The characters that a conversion of `fscanf` skips before a number. -/
def is_c_space (c : Nat) : Bool := decide (c = 32 ∨ (9 ≤ c ∧ c ≤ 13))

/-- The conversion `%2x` of `fscanf`, as the C standard describes it: white
space is skipped, then the longest run of at most two characters that begins
an optionally signed hexadecimal number, with an optional prefix `0x`, is
read; if that run is not such a number itself, the conversion fails.  The
value is stored in an `int`. -/
def scan_hex2 (input : List Nat) : Option (Int × List Nat) :=
  match input.dropWhile is_c_space with
  | [] => none
  | c :: rest =>
    if c = 43 ∨ c = 45 then
      match rest with
      | [] => none
      | d :: rest2 =>
        (hex_value d).map fun v => (if c = 45 then -(v : Int) else (v : Int), rest2)
    else
      match hex_value c with
      | none => none
      | some v =>
        match rest with
        | [] => some ((v : Int), [])
        | d :: rest2 =>
          if c = 48 ∧ (d = 120 ∨ d = 88) then none
          else
            match hex_value d with
            | some v2 => some ((16 * v + v2 : Nat), rest2)
            | none => some ((v : Int), rest)

/-- The function `read_color`: `fscanf` with the format `#%2x%2x%2x` has to
assign all three numbers. -/
def read_color (input : List Nat) : Except Err (Color × List Nat) :=
  match skip_space input with
  | [] => .error Err.read_color
  | c :: rest =>
    if c = 35 then
      match scan_hex2 rest with
      | none => .error Err.read_color
      | some (r, rest1) =>
        match scan_hex2 rest1 with
        | none => .error Err.read_color
        | some (g, rest2) =>
          match scan_hex2 rest2 with
          | none => .error Err.read_color
          | some (b, rest3) => .ok (⟨r / 255, g / 255, b / 255⟩, rest3)
    else .error Err.read_color

/-! ## The pangocairo backend

`src/backend/pangocairo/print.c` has the same data model, the same header
loop and the same text of `newline` and `newpage`; it measures with
`textsize` and draws whole lines of a Pango layout.  The field `linespace`
of the options and the fields `hi` of the print context and `font` of the
cairo context are not used by it. -/

/-- The layout services of Pango for the font description made of
`options.font_name` and `options.font_size`. -/
structure PangoBackend where
  /-- The lines of the layout of a text with a width and PANGO_WRAP_CHAR. -/
  lines : Option (List Nat) → ℚ → ℚ → List Nat → List (List Nat)
  /-- The width that `pango_layout_get_size` gives for a text, without a layout width. -/
  width : Option (List Nat) → ℚ → List Nat → ℚ
  /-- The height that `pango_layout_get_size` gives for a text, without a layout width. -/
  height : Option (List Nat) → ℚ → List Nat → ℚ
  /-- The value of `pango_layout_get_baseline` for a text. -/
  baseline : Option (List Nat) → ℚ → List Nat → ℚ

namespace Pango

/-- The loop of `print_text` over the lines of the layout, from line `i` on;
`np` is the call of `newpage`. -/
def print_text_lines (np : World → Except Err World) :
    Nat → List (List Nat) → World → Except Err World
  | _, [], w => .ok w
  | i, line :: rest, w =>
    let w1 := if i ≠ 0 then { w with pc := { w.pc with y := w.pc.y + w.pc.font_height } } else w
    (if w1.pc.y + w1.pc.font_height > w1.options.paper_height - w1.options.margin_bottom then
        np w1
      else .ok w1).bind fun w2 =>
    let w3 :=
      (w2.emit (Op.move_to w2.pc.x (w2.pc.y + w2.pc.font_height - w2.pc.font_descent))).emit
        (Op.show_text w2.pc.pagenum line)
    print_text_lines np (i + 1) rest w3

/-- The function `print_text`; `np` is the call of `newpage`. -/
def print_text (be : PangoBackend) (np : World → Except Err World) (text : List Nat)
    (w : World) : Except Err World :=
  print_text_lines np 0
    (be.lines w.options.font_name w.options.font_size
      (w.options.paper_width - w.options.margin_left - w.options.margin_right
        - w.pc.numberwidth) text) w

/-- The function `print_header`; `np` is the call of `newpage`. -/
def print_header (be : PangoBackend) (np : World → Except Err World) (w : World) :
    Except Err World :=
  match w.options.header_format with
  | none => .ok w
  | some format =>
    if format = [] then .ok w
    else
      (header_expand format w.pc.pagenum).bind fun lr =>
      let w1 := { w with pc := { w.pc with x := w.options.margin_left, y := w.options.margin_top } }
      (print_text be np lr.1 w1).bind fun w2 =>
      let width := be.width w2.options.font_name w2.options.font_size lr.2
      let w3 := { w2 with pc := { w2.pc with
                    x := w2.options.paper_width - w2.options.margin_right - width,
                    y := w2.options.margin_top } }
      print_text be np lr.2 w3

/-- The function `newpage`.  The first argument bounds the depth to which
`newpage` calls itself through `print_header` and `print_text`. -/
def newpage (be : PangoBackend) : Nat → World → Except Err World
  | 0, _ => .error Err.fuel
  | fuel + 1, w =>
    let w1 := if w.pc.pagenum ≠ 0 then w.emit Op.show_page else w
    let w2 := { w1 with pc := { w1.pc with pagenum := w1.pc.pagenum + 1 } }
    (print_header be (newpage be fuel) w2).map fun w3 =>
      { w3 with pc := { w3.pc with
          x := w3.options.margin_left + w3.pc.numberwidth,
          y := w3.options.margin_top + w3.pc.font_height * (int_add 1 w3.options.header_extraline) } }

/-- The function `print_number`; `np` is the call of `newpage`. -/
def print_number (be : PangoBackend) (np : World → Except Err World) (w : World) :
    Except Err World :=
  if w.options.number_width ≤ 0 then .ok w
  else
    let buf := decimal_field w.options.number_width.toNat w.pc.linenum
    if buf.length < NUMBER_BUFSIZE then
      let width := be.width w.options.font_name w.options.font_size buf
      let w1 := { w with pc := { w.pc with
                    x := w.options.margin_left + w.pc.numberwidth - LINENR_MARGIN - width } }
      print_text be np buf w1
    else .error Err.buffer_overflow

/-- The function `newline`. -/
def newline (be : PangoBackend) (fuel : Nat) (w : World) : Except Err World :=
  (if w.pc.linenum = 0 then newpage be fuel w
   else
     let w1 := { w with pc := { w.pc with y := w.pc.y + w.pc.font_height } }
     if w1.pc.y + w1.pc.font_height > w1.options.paper_height - w1.options.margin_bottom then
       newpage be fuel w1
     else .ok w1).bind fun w2 =>
  let w3 := { w2 with pc := { w2.pc with linenum := w2.pc.linenum + 1 } }
  (print_number be (newpage be fuel) w3).map fun w4 =>
    { w4 with pc := { w4.pc with x := w4.options.margin_left + w4.pc.numberwidth } }

/-- The function `command_line` for the text read from the stream. -/
def command_line (be : PangoBackend) (fuel : Nat) (text : List Nat) (w : World) :
    Except Err World :=
  (newline be fuel w).bind (print_text be (newpage be fuel) text)

/-- The function `command_start`, for the output file name `outfile`. -/
def command_start (be : PangoBackend) (outfile : List Nat) (w : World) : Except Err World :=
  (if endswith outfile (ascii ".ps") then Except.ok Surface.ps
   else if endswith outfile (ascii ".pdf") then Except.ok Surface.pdf
   else Except.error Err.file_type).map fun kind =>
  let cr0 : Cairo := { surface := some kind, font := FontSel.unset, ops := [] }
  let pc0 := { w.pc with pagenum := 0, linenum := 0 }
  let width := be.width w.options.font_name w.options.font_size (ascii "MW") / 2
  let pc1 := { pc0 with
    font_height := be.height w.options.font_name w.options.font_size (ascii "MW"),
    font_descent := be.baseline w.options.font_name w.options.font_size (ascii "MW") }
  let pc2 :=
    if w.options.number_width > 0 then
      { pc1 with numberwidth := w.options.number_width * width + LINENR_MARGIN }
    else { pc1 with numberwidth := 0 }
  { w with pc := pc2, cr := cr0 }

/-- A directive of the input stream with its arguments already read. -/
inductive Directive where
  | PAPER (width height : ℚ)
  | MARGIN (left top right bottom : ℚ)
  | HEADER (format : List Nat) (extraline : Int)
  | NUMBER (width : Int)
  | FONT (name : List Nat) (size : ℚ)
  | LINE (text : List Nat)
  | START
  | END
deriving DecidableEq, Repr

/-- One round of the loop of `print`: the command function of a directive. -/
def exec (be : PangoBackend) (outfile : List Nat) (fuel : Nat) :
    Directive → World → Except Err World
  | .PAPER pw ph, w =>
    .ok { w with options := { w.options with paper_width := pw, paper_height := ph } }
  | .MARGIN l t r b, w =>
    .ok { w with options := { w.options with
            margin_left := l, margin_top := t, margin_right := r, margin_bottom := b } }
  | .HEADER format extraline, w =>
    .ok { w with options := { w.options with
            header_format := some format, header_extraline := extraline } }
  | .NUMBER width, w => .ok { w with options := { w.options with number_width := width } }
  | .FONT name size, w =>
    .ok { w with options := { w.options with font_name := some name, font_size := size } }
  | .LINE text, w => command_line be fuel text w
  | .START, w => command_start be outfile w
  | .END, w => .ok (command_end w)

/-- The function `print` on a stream of directives. -/
def print (be : PangoBackend) (outfile : List Nat) (fuel : Nat) :
    List Directive → World → Except Err World
  | [], w => .ok w
  | d :: ds, w => (exec be outfile fuel d w).bind (print be outfile fuel ds)

end Pango

/-! ## Vocabulary of the properties -/

/-- An item of a header format. -/
inductive Item where
  | lit (c : Nat)
  | percent
  | pagenum
  | split
deriving DecidableEq, Repr

/-- The items of a format read from left to right; `none` if some `%` is not
followed by `%`, `N` or `=`. -/
def items : List Nat → Option (List Item)
  | [] => some []
  | c :: rest =>
    if c = 37 then
      match rest with
      | [] => none
      | d :: rest2 =>
        if d = 37 then (items rest2).map (Item.percent :: ·)
        else if d = 78 then (items rest2).map (Item.pagenum :: ·)
        else if d = 61 then (items rest2).map (Item.split :: ·)
        else none
    else (items rest).map (Item.lit c :: ·)

/-- The text an item stands for on a page. -/
def Item.text (pagenum : Int) : Item → List Nat
  | .lit c => [c]
  | .percent => [37]
  | .pagenum => decimal pagenum
  | .split => []

/-- The text a list of items stands for. -/
def render (pagenum : Int) (its : List Item) : List Nat :=
  (its.map (Item.text pagenum)).flatten

/-- The items before the first `%=`. -/
def before_first_split (its : List Item) : List Item :=
  its.takeWhile (· ≠ Item.split)

/-- The items after the last `%=`; none if there is no `%=`. -/
def after_last_split : List Item → List Item
  | [] => []
  | it :: its =>
    if Item.split ∈ its then after_last_split its
    else if it = Item.split then its else []

/-- The array that `out` points into. -/
def HeaderBuf.target (hb : HeaderBuf) : List Nat := if hb.out_right then hb.right else hb.left

/-- The state of the arrays after the items `its` have been written, starting
from `hb`, when nothing overflows. -/
def HeaderBuf.after (p : Int) (hb : HeaderBuf) (its : List Item) : HeaderBuf :=
  if Item.split ∈ its then
    { left := if hb.out_right then hb.left else hb.left ++ render p (before_first_split its),
      right := render p (after_last_split its),
      out_right := true,
      out := (render p (after_last_split its)).length }
  else if hb.out_right then
    { hb with right := hb.right ++ render p its, out := hb.out + (render p its).length }
  else
    { hb with left := hb.left ++ render p its, out := hb.out + (render p its).length }

/-- A text drawn from `x` on in a font never meets the wrap test of
`print_text`: every byte starts a character, the characters are complete, and
each one ends at or before `limit`. -/
def fits (be : Backend) (font : FontSel) (limit : ℚ) : Nat → List Nat → ℚ → Bool
  | _, [], _ => true
  | 0, _ :: _, _ => false
  | n + 1, c :: rest, x =>
    match utf8len c with
    | .error _ => false
    | .ok len =>
      let adv := be.x_advance font ((c :: rest).take len)
      decide (x + adv ≤ limit) && decide (len ≤ (c :: rest).length) &&
        fits be font limit n ((c :: rest).drop len) (x + adv)

/-- The header of a page is drawn without wrapping: both texts exist, the font
can be selected, the left text fits from the left margin and the right text
fits from the place where `print_header` starts it. -/
def header_fits (be : Backend) (o : Options) (pagenum : Int) : Bool :=
  match o.header_format with
  | none => true
  | some format =>
    if format = [] then true
    else
      match header_expand format pagenum, select_font be o.font_name o.font_size 0 0 with
      | .ok lr, .ok f =>
        fits be f (o.paper_width - o.margin_right) lr.1.length lr.1 o.margin_left &&
        fits be f (o.paper_width - o.margin_right) lr.2.length lr.2
          (o.paper_width - o.margin_right - be.x_advance f lr.2)
      | _, _ => false

/-- The line number of the state is drawn without wrapping, or not at all. -/
def number_fits (be : Backend) (w : World) : Bool :=
  if w.options.number_width ≤ 0 then true
  else
    let buf := decimal_field w.options.number_width.toNat w.pc.linenum
    decide (buf.length < NUMBER_BUFSIZE) &&
    match select_font be w.options.font_name w.options.font_size 0 0 with
    | .ok f =>
      fits be f (w.options.paper_width - w.options.margin_right) buf.length buf
        (w.options.margin_left + w.pc.numberwidth - LINENR_MARGIN - be.x_advance w.cr.font buf)
    | .error _ => false

/-- The stream consists of LINE and TEXT directives only. -/
def lines_and_texts (ds : List Directive) : Bool :=
  ds.all fun d => match d with
    | .LINE => true
    | .TEXT _ => true
    | _ => false

/-- The part of the state that drawing a glyph or moving the cursor leaves
alone: everything but the cursor, the font in force and the drawing calls that
are not page flushes. -/
def same_core (w w2 : World) : Prop :=
  w2.options = w.options ∧ w2.pc.pagenum = w.pc.pagenum ∧ w2.pc.linenum = w.pc.linenum ∧
  w2.pc.font_height = w.pc.font_height ∧ w2.pc.font_descent = w.pc.font_descent ∧
  w2.pc.numberwidth = w.pc.numberwidth ∧ w2.pc.hi = w.pc.hi ∧
  w2.cr.surface = w.cr.surface ∧ w2.flushes = w.flushes

/-- A property of states that only looks at the part kept by `same_core`. -/
def Stable (I : World → Prop) : Prop := ∀ w w2, same_core w w2 → I w → I w2

/-- The first two steps of `newpage`: flush the open page, count the new one. -/
def World.turn (w : World) : World :=
  let w1 := if w.pc.pagenum ≠ 0 then w.emit Op.show_page else w
  { w1 with pc := { w1.pc with pagenum := w1.pc.pagenum + 1 } }

/-- The step `pc.linenum += 1` of `newline`. -/
def World.bump (w : World) : World :=
  { w with pc := { w.pc with linenum := w.pc.linenum + 1 } }

/-- The step `pc.y += pc.font_height` of `newline` and `print_text`. -/
def World.down (w : World) : World :=
  { w with pc := { w.pc with y := w.pc.y + w.pc.font_height } }

/-- The vertical-fit test: the line at the cursor does not end above the
bottom margin. -/
def World.overflows (w : World) : Prop :=
  w.pc.y + w.pc.font_height > w.options.paper_height - w.options.margin_bottom

instance (w : World) : Decidable w.overflows := by
  unfold World.overflows
  infer_instance

/-- The strings passed to `cairo_show_text`, in order. -/
def drawn_text : List Op → List (List Nat)
  | [] => []
  | Op.show_text _ s :: ops => s :: drawn_text ops
  | _ :: ops => drawn_text ops

/-- The page counter values recorded with the `cairo_show_text` calls. -/
def drawn_pages : List Op → List Int
  | [] => []
  | Op.show_text p _ :: ops => p :: drawn_pages ops
  | _ :: ops => drawn_pages ops

/-- Every `cairo_show_text` call issued between the states `w` and `w2` was
made while `pc.pagenum` was `p`. -/
def drawn_on (p : Int) (w w2 : World) : Prop :=
  ∃ added, w2.cr.ops = w.cr.ops ++ added ∧ ∀ q ∈ drawn_pages added, q = p

/-- The page counter is not negative, and the pages flushed so far are the
pages opened before the current one. -/
def pages_counted (w : World) : Prop :=
  0 ≤ w.pc.pagenum ∧ (w.flushes : Int) = max (w.pc.pagenum - 1) 0

/-- In the pangocairo backend, a text is drawn in place from the state `w`:
its layout has at most one line, and that line does not meet the vertical-fit
test, so that `print_text` neither moves down nor turns the page. -/
def Pango.one_line (be : PangoBackend) (w : World) (text : List Nat) : Bool :=
  match be.lines w.options.font_name w.options.font_size
      (w.options.paper_width - w.options.margin_left - w.options.margin_right
        - w.pc.numberwidth) text with
  | [] => true
  | [_] => !decide w.overflows
  | _ :: _ :: _ => false

/-- In the pangocairo backend, the header of the page that is open in the
state `w` is drawn in place. -/
def Pango.header_fits (be : PangoBackend) (w : World) : Bool :=
  match w.options.header_format with
  | none => true
  | some format =>
    if format = [] then true
    else
      match header_expand format w.pc.pagenum with
      | .ok lr =>
        Pango.one_line be
          { w with pc := { w.pc with x := w.options.margin_left, y := w.options.margin_top } }
          lr.1 &&
        Pango.one_line be
          { w with pc := { w.pc with x := w.options.margin_left, y := w.options.margin_top } }
          lr.2
      | .error _ => false

/-- In the pangocairo backend, the line number of the state is drawn in place,
or not at all. -/
def Pango.number_fits (be : PangoBackend) (w : World) : Bool :=
  if w.options.number_width ≤ 0 then true
  else
    decide ((decimal_field w.options.number_width.toNat w.pc.linenum).length < NUMBER_BUFSIZE) &&
    Pango.one_line be w (decimal_field w.options.number_width.toNat w.pc.linenum)

/-- The stream of the pangocairo backend consists of LINE directives only. -/
def Pango.lines_only (ds : List Pango.Directive) : Bool :=
  ds.all fun d => match d with
    | .LINE _ => true
    | _ => false

/-- A string literal body for `s`: every double quote and every backslash of
`s` is preceded by a backslash. -/
def escape (s : List Nat) : List Nat :=
  s.flatMap fun c => if c = 34 ∨ c = 92 then [92, c] else [c]

/-- Whether the text behind an opening double quote holds a closing double
quote that no backslash makes literal. -/
def closes : List Nat → Bool
  | [] => false
  | c :: rest =>
    if c = 34 then true
    else if c = 92 then
      match rest with
      | [] => false
      | _ :: rest2 => closes rest2
    else closes rest

/-- The rectangles passed to `cairo_rectangle`, in order. -/
def rectangles : List Op → List (ℚ × ℚ × ℚ × ℚ)
  | [] => []
  | Op.rectangle x y w h :: ops => (x, y, w, h) :: rectangles ops
  | _ :: ops => rectangles ops

/-! ## Sample configurations -/

/-- A backend with a fixed advance of 7 per byte, line height 12 and descent 3. -/
def mono : Backend :=
  { x_advance := fun _ s => 7 * s.length,
    fe_height := fun _ => 12,
    fe_descent := fun _ => 3,
    has_ft_font := false,
    ft_new_face := fun _ => false }

/-- A backend with a proportional font in which the digit 1 is 30 wide and
every other byte 5, line height 12 and descent 3. -/
def wide_one : Backend :=
  { x_advance := fun _ s => (s.map fun c => if c = 49 then (30 : ℚ) else 5).sum,
    fe_height := fun _ => 12,
    fe_descent := fun _ => 3,
    has_ft_font := false,
    ft_new_face := fun _ => false }

/-- The options after PAPER 200 200, MARGIN 10 10 10 10 and FONT "Mono" 10. -/
def sample_options : Options :=
  { paper_width := 200, paper_height := 200, margin_left := 10, margin_top := 10,
    margin_right := 10, margin_bottom := 10, header_format := none,
    header_extraline := 0, number_width := 0, linespace := 0,
    font_name := some (ascii "Mono"), font_size := 10 }

/-- A state in the middle of a document: page 1 is open, four lines are
numbered, the header is "p%N%=x" with two extra lines, the gutter holds three
digits. -/
def sample_open_page : World :=
  { options :=
      { sample_options with
        header_format := some (ascii "p%N%=x"), header_extraline := 2, number_width := 3 },
    pc :=
      { pagenum := 1, linenum := 4, font_height := 12, font_descent := 3,
        numberwidth := 31, y := 70, x := 41, hi := World.init.pc.hi },
    cr := { surface := some Surface.pdf, font := FontSel.toy (ascii "Mono") 10 false false,
            ops := [] } }

/-- The state that START leaves for the options of `sample_open_page` without
extra header lines. -/
def sample_started : World :=
  { options :=
      { sample_options with header_format := some (ascii "p%N%=x"), number_width := 3 },
    pc :=
      { pagenum := 0, linenum := 0, font_height := 12, font_descent := 3,
        numberwidth := 31, y := 0, x := 0, hi := World.init.pc.hi },
    cr := { surface := some Surface.pdf, font := FontSel.toy (ascii "Mono") 10 false false,
            ops := [] } }

/-- A Pango backend with a fixed advance of 7 per byte and lines of height 12
that breaks a text into lines of as many whole bytes as the width holds. -/
def pango_mono : PangoBackend :=
  { lines := fun _ _ width text =>
      if text = [] then [[]]
      else text.toChunks (max 1 (Int.toNat ⌊width / 7⌋)),
    width := fun _ _ text => 7 * text.length,
    height := fun _ _ _ => 12,
    baseline := fun _ _ _ => 9 }

/-! ## Vocabulary of the text loop -/

/-- One round of the loop of `print_text` behind the wrap test: the drawing
calls for the character `buf` at the cursor, then `pc.x += te.x_advance`. -/
def World.glyph (w : World) (hi : Highlight) (buf : List Nat) (adv : ℚ) : World :=
  let w2 := print_text_draw hi buf adv w
  { w2 with pc := { w2.pc with x := w2.pc.x + adv } }

/-- The step of `print_text` behind a wrap: `pc.x = options.margin_left + pc.numberwidth`. -/
def World.to_line_start (w : World) : World :=
  { w with pc := { w.pc with x := w.options.margin_left + w.pc.numberwidth } }

/-- The characters that the loop of `print_text` takes from a text one after
the other, as long as `utf8len` accepts the lead byte and the text holds the
whole character. -/
def characters : Nat → List Nat → List (List Nat)
  | _, [] => []
  | 0, _ :: _ => []
  | n + 1, c :: rest =>
    match utf8len c with
    | .error _ => []
    | .ok len =>
      if len ≤ (c :: rest).length then
        (c :: rest).take len :: characters n ((c :: rest).drop len)
      else []

/-- The loop of `print_text` can take the text apart: `utf8len` accepts every
lead byte it meets and the text holds every character to its end. -/
def well_formed : Nat → List Nat → Bool
  | _, [] => true
  | 0, _ :: _ => false
  | n + 1, c :: rest =>
    match utf8len c with
    | .error _ => false
    | .ok len =>
      decide (len ≤ (c :: rest).length) && well_formed n ((c :: rest).drop len)

/-- Sum of the advances of the characters of a text in a font. -/
def run_advance (be : Backend) (font : FontSel) (text : List Nat) : ℚ :=
  ((characters text.length text).map (be.x_advance font)).sum

/-- The state after a row of characters has been drawn one behind the other,
none of them wrapped. -/
def run_glyphs (be : Backend) (hi : Highlight) : List (List Nat) → World → World
  | [], w => w
  | buf :: rest, w => run_glyphs be hi rest (w.glyph hi buf (be.x_advance w.cr.font buf))

/-- Rectangles of one line height laid side by side from `x` on, one for each
character, as wide as the character's advance. -/
def boxes (adv : List Nat → ℚ) (y h : ℚ) : ℚ → List (List Nat) → List (ℚ × ℚ × ℚ × ℚ)
  | _, [] => []
  | x, buf :: rest => (x, y, adv buf, h) :: boxes adv y h (x + adv buf) rest

/-- Pen positions on one base line from `x` on, one for each character, each
behind the advance of the one before. -/
def pens (adv : List Nat → ℚ) (y : ℚ) : ℚ → List (List Nat) → List (ℚ × ℚ)
  | _, [] => []
  | x, buf :: rest => (x, y) :: pens adv y (x + adv buf) rest

/-- The positions passed to `cairo_move_to`, in order. -/
def pen_positions : List Op → List (ℚ × ℚ)
  | [] => []
  | Op.move_to x y :: ops => (x, y) :: pen_positions ops
  | _ :: ops => pen_positions ops

/-- The state that START leaves for a paper of 20 by 20 without margins and
the header "abc": with an advance of 7 and a line height of 12 the header is
wider than the paper, and the paper holds no second line. -/
def sample_small_page : World :=
  { options :=
      { sample_options with
        paper_width := 20, paper_height := 20, margin_left := 0, margin_top := 0,
        margin_right := 0, margin_bottom := 0, header_format := some (ascii "abc") },
    pc :=
      { pagenum := 0, linenum := 0, font_height := 12, font_descent := 3,
        numberwidth := 0, y := 0, x := 0, hi := World.init.pc.hi },
    cr := { surface := some Surface.pdf, font := FontSel.toy (ascii "Mono") 10 false false,
            ops := [] } }

/-- The state that START of the cairo backend leaves for `sample_options`
with an advance of 7 and a line height of 12. -/
def sample_plain_started : World :=
  { options := sample_options,
    pc :=
      { pagenum := 0, linenum := 0, font_height := 12, font_descent := 3,
        numberwidth := 0, y := 0, x := 0, hi := World.init.pc.hi },
    cr := { surface := some Surface.pdf, font := FontSel.toy (ascii "Mono") 10 false false,
            ops := [] } }

/-- The state that START of the cairo backend leaves for `sample_options`
after LINESPACE 58: the line height is 70, so that the page of 200 by 200
holds one line and not a second. -/
def sample_tall_started : World :=
  { options := { sample_options with linespace := 58 },
    pc :=
      { pagenum := 0, linenum := 0, font_height := 70, font_descent := 32,
        numberwidth := 0, y := 0, x := 0, hi := World.init.pc.hi },
    cr := { surface := some Surface.pdf, font := FontSel.toy (ascii "Mono") 10 false false,
            ops := [] } }

/-- The state that START of the pangocairo backend leaves for options `o`
with `pango_mono`. -/
def pango_started (o : Options) : World :=
  { options := o,
    pc :=
      { pagenum := 0, linenum := 0, font_height := 12, font_descent := 9,
        numberwidth := 0, y := 0, x := 0, hi := World.init.pc.hi },
    cr := { surface := some Surface.pdf, font := FontSel.unset, ops := [] } }

/-! ## Vocabulary for the comparison of the two backends -/

/-- The loop of `print_text` told by characters: the wrap test and the
drawing of each character of a list, one after the other. -/
def wrap_run (be : Backend) (np : World → Except Err World) (hi : Highlight) :
    List (List Nat) → World → Except Err World
  | [], w => .ok w
  | buf :: rest, w =>
    (print_text_wrap np (be.x_advance w.cr.font buf) w).bind fun w1 =>
      wrap_run be np hi rest (w1.glyph hi buf (be.x_advance w.cr.font buf))

/-- What has been placed where: for every text drawn, the page counter at the
time, the base line the pen was moved to before, and the text.  The first
argument is the base line of the pen so far. -/
def placed : ℚ → List Op → List (Int × ℚ × List Nat)
  | _, [] => []
  | _, Op.move_to _ y :: ops => placed y ops
  | y, Op.show_text p s :: ops => (p, y, s) :: placed y ops
  | y, _ :: ops => placed y ops

/-- A character as the loop of `print_text` takes it: a lead byte that
`utf8len` accepts, and as many bytes as it says. -/
def valid_char (ch : List Nat) : Prop :=
  ∃ c tl, ch = c :: tl ∧ utf8len c = .ok ch.length

/-- The lines on which texts have been drawn: for every text drawn so far the
page counter at the time, the value of `pc.y` of its line, and the text.  The
pen is moved to `pc.y + pc.font_height - pc.font_descent` before a text. -/
def on_lines (w : World) : List (Int × ℚ × List Nat) :=
  (placed 0 w.cr.ops).map fun e =>
    (e.1, e.2.1 - (w.pc.font_height - w.pc.font_descent), e.2.2)

/-- The state behind a page turn that draws no header. -/
def World.fresh (w : World) : World :=
  { w.turn with pc := { w.turn.pc with
      x := w.options.margin_left + w.pc.numberwidth,
      y := w.options.margin_top + w.pc.font_height * (int_add 1 w.options.header_extraline) } }

/-- Modelled from the spec, which speaks of the encoded code points of a
well-formed UTF-8 text: the UTF-8 encoding of a code point below 2^31, with
the lead bytes 0xxxxxxx, 110xxxxx, 1110xxxx, 11110xxx, 111110xx, 1111110x and
continuation bytes 10xxxxxx.  The encodings of the code points below 0x110000
have 1 to 4 bytes and are those of today's UTF-8. -/
def utf8_encode (cp : Nat) : List Nat :=
  if cp < 0x80 then [cp]
  else if cp < 0x800 then [0xC0 + cp / 64, 0x80 + cp % 64]
  else if cp < 0x10000 then [0xE0 + cp / 4096, 0x80 + cp / 64 % 64, 0x80 + cp % 64]
  else if cp < 0x200000 then
    [0xF0 + cp / 262144, 0x80 + cp / 4096 % 64, 0x80 + cp / 64 % 64, 0x80 + cp % 64]
  else if cp < 0x4000000 then
    [0xF8 + cp / 16777216, 0x80 + cp / 262144 % 64, 0x80 + cp / 4096 % 64,
     0x80 + cp / 64 % 64, 0x80 + cp % 64]
  else
    [0xFC + cp / 1073741824, 0x80 + cp / 16777216 % 64, 0x80 + cp / 262144 % 64,
     0x80 + cp / 4096 % 64, 0x80 + cp / 64 % 64, 0x80 + cp % 64]

/-! ## The arithmetic of the machine -/

theorem render_nil (p : Int) : render p [] = [] := rfl

theorem render_cons (p : Int) (it : Item) (its : List Item) :
    render p (it :: its) = it.text p ++ render p its := by
  simp [render]

theorem render_append (p : Int) (a b : List Item) :
    render p (a ++ b) = render p a ++ render p b := by
  simp [render]

theorem before_first_split_append (a b : List Item) (ha : Item.split ∉ a) :
    before_first_split (a ++ Item.split :: b) = a := by
  induction a with
  | nil => simp [before_first_split]
  | cons x xs ih =>
    have hx : x ≠ Item.split := fun h => ha (by simp [h])
    have hxs : Item.split ∉ xs := fun h => ha (by simp [h])
    have := ih hxs
    simp only [before_first_split] at this ⊢
    rw [List.cons_append, List.takeWhile_cons]
    simp only [ne_eq, hx, not_false_eq_true, decide_True, if_true]
    rw [this]

theorem after_last_split_append (a c : List Item) (hc : Item.split ∉ c) :
    after_last_split (a ++ Item.split :: c) = c := by
  induction a with
  | nil => simp [after_last_split, hc]
  | cons x xs ih =>
    simp [after_last_split, ih]

theorem header_put_ok (hb : HeaderBuf) (bytes : List Nat)
    (hwf : hb.out = hb.target.length)
    (hcap : hb.target.length + bytes.length < HEADER_BUFSIZE) :
    header_put hb bytes =
      .ok (if hb.out_right then
            { hb with right := hb.right ++ bytes, out := hb.out + bytes.length }
          else { hb with left := hb.left ++ bytes, out := hb.out + bytes.length }) := by
  unfold header_put
  rw [hwf]
  unfold HeaderBuf.target at hwf hcap ⊢
  cases h : hb.out_right
  · simp only [h] at hwf hcap ⊢
    simp at hcap
    simp [hcap]
  · simp only [h] at hwf hcap ⊢
    simp at hcap
    simp [hcap]

/-- The arrays after `bytes` have been stored through `out`. -/
theorem after_cons_text (p : Int) (hb : HeaderBuf) (it : Item) (its : List Item)
    (h : it ≠ Item.split) :
    hb.after p (it :: its) =
      HeaderBuf.after p
        (if hb.out_right then
            { hb with right := hb.right ++ it.text p, out := hb.out + (it.text p).length }
          else { hb with left := hb.left ++ it.text p, out := hb.out + (it.text p).length })
        its := by
  have h2 : ¬ Item.split = it := fun e => h e.symm
  have hb1 : before_first_split (it :: its) = it :: before_first_split its := by
    simp only [before_first_split]
    rw [List.takeWhile_cons]
    simp [h]
  unfold HeaderBuf.after
  by_cases hs : Item.split ∈ its
  · cases ho : hb.out_right <;>
      simp [hs, h2, ho, hb1, render_cons, after_last_split]
  · cases ho : hb.out_right <;>
      simp [hs, h2, ho, render_cons, Nat.add_assoc]

theorem after_cons_split (p : Int) (hb : HeaderBuf) (its : List Item) :
    hb.after p (Item.split :: its) =
      HeaderBuf.after p { left := hb.left, right := [], out_right := true, out := 0 } its := by
  unfold HeaderBuf.after
  by_cases hs : Item.split ∈ its
  · cases ho : hb.out_right <;>
      simp [hs, ho, before_first_split, after_last_split, render_nil]
  · cases ho : hb.out_right <;>
      simp [hs, ho, before_first_split, after_last_split, render_nil]

theorem after_nil (p : Int) (hb : HeaderBuf) : hb.after p [] = hb := by
  unfold HeaderBuf.after
  cases ho : hb.out_right <;> simp [render_nil, ← ho]

theorem header_scan_items (p : Int) (fmt : List Nat) :
    ∀ (its : List Item) (hb : HeaderBuf), items fmt = some its →
      hb.out = hb.target.length →
      hb.target.length + (render p its).length < HEADER_BUFSIZE →
      header_scan p fmt hb = .ok (hb.after p its) := by
  induction fmt using items.induct with
  | case1 =>
    intro its hb hi _ _
    simp [items] at hi
    subst hi
    simp [header_scan, after_nil]
  | case2 =>
    intro its hb hi
    simp [items] at hi
  | case3 rest2 ih =>
    intro its hb hi hwf hcap
    simp only [items, if_true, Option.map_eq_some'] at hi
    obtain ⟨its2, hi2, rfl⟩ := hi
    rw [render_cons] at hcap
    simp only [List.length_append] at hcap
    have hput := header_put_ok hb (Item.percent.text p) hwf (by omega)
    rw [after_cons_text p hb Item.percent its2 (by decide)]
    simp only [header_scan, if_true]
    change (header_put hb (Item.percent.text p)).bind _ = _
    rw [hput]
    simp only [Except.bind]
    apply ih its2 _ hi2
    · cases ho : hb.out_right <;> simp [ho, HeaderBuf.target, hwf]
    · cases ho : hb.out_right <;> simp [ho, HeaderBuf.target] at hcap ⊢ <;> omega
  | case4 rest2 _ ih =>
    intro its hb hi hwf hcap
    simp only [items, if_true, Nat.reduceEqDiff, if_false, Option.map_eq_some'] at hi
    obtain ⟨its2, hi2, rfl⟩ := hi
    rw [render_cons] at hcap
    simp only [List.length_append] at hcap
    have hput := header_put_ok hb (Item.pagenum.text p) hwf (by omega)
    rw [after_cons_text p hb Item.pagenum its2 (by decide)]
    simp only [header_scan, if_true, Nat.reduceEqDiff, if_false]
    change (header_put hb (Item.pagenum.text p)).bind _ = _
    rw [hput]
    simp only [Except.bind]
    apply ih its2 _ hi2
    · cases ho : hb.out_right <;> simp [ho, HeaderBuf.target, hwf]
    · cases ho : hb.out_right <;> simp [ho, HeaderBuf.target] at hcap ⊢ <;> omega
  | case5 rest2 _ _ ih =>
    intro its hb hi hwf hcap
    simp only [items, if_true, Nat.reduceEqDiff, if_false, Option.map_eq_some'] at hi
    obtain ⟨its2, hi2, rfl⟩ := hi
    rw [render_cons] at hcap
    simp only [List.length_append] at hcap
    rw [after_cons_split]
    simp only [header_scan, if_true, Nat.reduceEqDiff, if_false]
    have hput : header_put { hb with out_right := true, out := 0 } [] =
        .ok { left := hb.left, right := [], out_right := true, out := 0 } := by
      simp [header_put, HEADER_BUFSIZE]
    rw [hput]
    simp only [Except.bind]
    apply ih its2 _ hi2
    · simp [HeaderBuf.target]
    · simp only [HeaderBuf.target, if_true, List.length_nil]
      omega
  | case6 d rest2 h1 h2 h3 =>
    intro its hb hi
    simp [items, h1, h2, h3] at hi
  | case7 d rest2 h1 ih =>
    intro its hb hi hwf hcap
    unfold items at hi
    simp only [h1, if_false, Option.map_eq_some'] at hi
    obtain ⟨its2, hi2, rfl⟩ := hi
    rw [render_cons] at hcap
    simp only [List.length_append] at hcap
    have hput := header_put_ok hb ((Item.lit d).text p) hwf (by omega)
    rw [after_cons_text p hb (Item.lit d) its2 (by simp)]
    unfold header_scan
    simp only [h1, if_false]
    change (header_put hb ((Item.lit d).text p)).bind _ = _
    rw [hput]
    simp only [Except.bind]
    apply ih its2 _ hi2
    · cases ho : hb.out_right <;> simp [ho, HeaderBuf.target, hwf]
    · cases ho : hb.out_right <;> simp [ho, HeaderBuf.target] at hcap ⊢ <;> omega

/-- Within the capacity of the arrays, the left text of the header is the
text of the items before the first `%=` and the right text is the text of
the items after the last `%=`. -/
theorem header_expand_items (p : Int) (fmt : List Nat) (its : List Item)
    (hi : items fmt = some its) (hcap : (render p its).length < HEADER_BUFSIZE) :
    header_expand fmt p =
      .ok (render p (before_first_split its), render p (after_last_split its)) := by
  unfold header_expand
  rw [header_scan_items p fmt its HeaderBuf.start hi rfl (by simpa [HeaderBuf.target, HeaderBuf.start] using hcap)]
  unfold HeaderBuf.after
  by_cases hs : Item.split ∈ its
  · simp [hs, HeaderBuf.start, Except.map]
  · have h1 : before_first_split its = its := by
      unfold before_first_split
      rw [List.takeWhile_eq_self_iff]
      intro x hx
      simp
      rintro rfl
      exact hs hx
    have h2 : ∀ l : List Item, Item.split ∉ l → after_last_split l = [] := by
      intro l
      induction l with
      | nil => intro _; rfl
      | cons x xs ih =>
        intro h
        have hx : x ≠ Item.split := fun e => h (by simp [e])
        have hxs : Item.split ∉ xs := fun e => h (by simp [e])
        simp [after_last_split, hx, hxs]
    simp [hs, HeaderBuf.start, Except.map, h1, h2 its hs, render_nil]

/-! ## Frame lemmas -/

theorem flushes_emit (w : World) (op : Op) (h : op ≠ Op.show_page) :
    (w.emit op).flushes = w.flushes := by
  unfold World.flushes World.emit
  simp only [List.count_append]
  have : List.count Op.show_page [op] = 0 := by
    rw [List.count_eq_zero]
    simp
    exact fun e => h e.symm
  omega

theorem flushes_emit_show_page (w : World) :
    (w.emit Op.show_page).flushes = w.flushes + 1 := by
  unfold World.flushes World.emit
  simp [List.count_append]

theorem same_core_refl (w : World) : same_core w w := by
  simp [same_core]

theorem same_core_trans {a b c : World} (h1 : same_core a b) (h2 : same_core b c) :
    same_core a c := by
  obtain ⟨a1, a2, a3, a4, a5, a6, a7, a8, a9⟩ := h1
  obtain ⟨b1, b2, b3, b4, b5, b6, b7, b8, b9⟩ := h2
  exact ⟨b1.trans a1, b2.trans a2, b3.trans a3, b4.trans a4, b5.trans a5, b6.trans a6,
    b7.trans a7, b8.trans a8, b9.trans a9⟩

theorem same_core_emit (w : World) (op : Op) (h : op ≠ Op.show_page) :
    same_core w (w.emit op) := by
  refine ⟨rfl, rfl, rfl, rfl, rfl, rfl, rfl, rfl, flushes_emit w op h⟩

theorem same_core_xy (w : World) (x y : ℚ) :
    same_core w { w with pc := { w.pc with x := x, y := y } } := by
  simp [same_core, World.flushes]

theorem same_core_x (w : World) (x : ℚ) :
    same_core w { w with pc := { w.pc with x := x } } := by
  simp [same_core, World.flushes]

theorem same_core_down (w : World) : same_core w w.down := by
  simp [same_core, World.flushes, World.down]

theorem same_core_font (w : World) (f : FontSel) :
    same_core w { w with cr := { w.cr with font := f } } := by
  simp [same_core, World.flushes]

theorem same_core_emit_after {w w1 : World} (op : Op) (h1 : same_core w w1)
    (h : op ≠ Op.show_page) : same_core w (w1.emit op) :=
  same_core_trans h1 (same_core_emit w1 op h)

theorem same_core_draw (hi : Highlight) (buf : List Nat) (adv : ℚ) (w : World) :
    same_core w (print_text_draw hi buf adv w) := by
  unfold print_text_draw
  by_cases h : is_white hi.bg = true
  · simp only [h, if_true]
    refine same_core_emit_after _ (same_core_emit_after _ (same_core_emit_after _
      (same_core_refl w) ?_) ?_) ?_ <;> simp
  · simp only [h, if_false]
    refine same_core_emit_after _ (same_core_emit_after _ (same_core_emit_after _
      (same_core_emit_after _ (same_core_emit_after _ (same_core_emit_after _
      (same_core_refl w) ?_) ?_) ?_) ?_) ?_) ?_ <;> simp

/-! ## Properties kept by the text loop -/

theorem print_text_wrap_keeps (I : World → Prop) (hI : Stable I)
    (np : World → Except Err World) (hnp : ∀ w w2, I w → np w = .ok w2 → I w2)
    (adv : ℚ) (w w2 : World) (h0 : I w) (h : print_text_wrap np adv w = .ok w2) : I w2 := by
  unfold print_text_wrap at h
  by_cases hc : w.pc.x + adv > w.options.paper_width - w.options.margin_right
  · simp only [hc, if_true] at h
    have hd : I w.down := hI _ _ (same_core_down w) h0
    change Except.map _ (if w.down.overflows then np w.down else .ok w.down) = _ at h
    by_cases hv : w.down.overflows
    · simp only [hv, if_true] at h
      cases hr : np w.down with
      | error e => rw [hr] at h; simp [Except.map] at h
      | ok w3 =>
        rw [hr] at h
        simp only [Except.map, Except.ok.injEq] at h
        subst h
        exact hI _ _ (same_core_x w3 _) (hnp _ _ hd hr)
    · simp only [hv, if_false, Except.map, Except.ok.injEq] at h
      subst h
      exact hI _ _ (same_core_x _ _) hd
  · simp only [hc, if_false, Except.ok.injEq] at h
    subst h
    exact h0

theorem print_text_loop_keeps (I : World → Prop) (hI : Stable I) (be : Backend)
    (np : World → Except Err World) (hnp : ∀ w w2, I w → np w = .ok w2 → I w2)
    (hi : Highlight) :
    ∀ (n : Nat) (text : List Nat) (w w2 : World), I w →
      print_text_loop be np hi n text w = .ok w2 → I w2 := by
  intro n
  induction n with
  | zero =>
    intro text w w2 h0 h
    cases text with
    | nil => simp [print_text_loop] at h; subst h; exact h0
    | cons c rest => simp [print_text_loop] at h
  | succ n ih =>
    intro text w w2 h0 h
    cases text with
    | nil => simp [print_text_loop] at h; subst h; exact h0
    | cons c rest =>
      simp only [print_text_loop] at h
      cases hl : utf8len c with
      | error e => rw [hl] at h; simp [Except.bind] at h
      | ok len =>
        rw [hl] at h
        simp only [Except.bind] at h
        cases hw : print_text_wrap np (be.x_advance w.cr.font (List.take len (c :: rest))) w with
        | error e => rw [hw] at h; simp at h
        | ok w1 =>
          rw [hw] at h
          simp only at h
          have h1 : I w1 := print_text_wrap_keeps I hI np hnp _ w w1 h0 hw
          by_cases hlen : len ≤ (c :: rest).length
          · simp only [hlen, if_true] at h
            refine ih _ _ _ ?_ h
            exact hI _ _ (same_core_x _ _) (hI _ _ (same_core_draw _ _ _ _) h1)
          · simp only [hlen, if_false] at h
            cases h

theorem set_font_ok {be : Backend} {name : Option (List Nat)} {size : ℚ} {bold italic : Int}
    {cr cr2 : Cairo} (h : set_font be name size bold italic cr = .ok cr2) :
    ∃ f, select_font be name size bold italic = .ok f ∧ cr2 = { cr with font := f } := by
  unfold set_font at h
  cases hs : select_font be name size bold italic with
  | error e => rw [hs] at h; simp [Except.map] at h
  | ok f =>
    rw [hs] at h
    simp only [Except.map, Except.ok.injEq] at h
    exact ⟨f, rfl, h.symm⟩

theorem print_text_keeps (I : World → Prop) (hI : Stable I) (be : Backend)
    (np : World → Except Err World) (hnp : ∀ w w2, I w → np w = .ok w2 → I w2)
    (text : List Nat) (hi : Highlight) (w w2 : World) (h0 : I w)
    (h : print_text be np text hi w = .ok w2) : I w2 := by
  unfold print_text at h
  cases hf : set_font be w.options.font_name w.options.font_size hi.bold hi.italic w.cr with
  | error e => rw [hf] at h; simp [Except.bind] at h
  | ok cr =>
    rw [hf] at h
    simp only [Except.bind] at h
    obtain ⟨f, _, rfl⟩ := set_font_ok hf
    exact print_text_loop_keeps I hI be np hnp hi _ _ _ _ (hI _ _ (same_core_font w f) h0) h

theorem print_header_keeps (I : World → Prop) (hI : Stable I) (be : Backend)
    (np : World → Except Err World) (hnp : ∀ w w2, I w → np w = .ok w2 → I w2)
    (w w2 : World) (h0 : I w) (h : print_header be np w = .ok w2) : I w2 := by
  unfold print_header at h
  cases hfmt : w.options.header_format with
  | none => rw [hfmt] at h; simp at h; subst h; exact h0
  | some format =>
    rw [hfmt] at h
    simp only at h
    by_cases he : format = []
    · simp [he] at h; subst h; exact h0
    · simp only [he, if_false] at h
      cases hx : header_expand format w.pc.pagenum with
      | error e => rw [hx] at h; simp [Except.bind] at h
      | ok lr =>
        rw [hx] at h
        simp only [Except.bind] at h
        cases hl : print_text be np lr.1 (fixed_highlight "PageHeader")
            { w with pc := { w.pc with x := w.options.margin_left, y := w.options.margin_top } } with
        | error e => rw [hl] at h; simp at h
        | ok w3 =>
          rw [hl] at h
          simp only at h
          have h3 : I w3 := print_text_keeps I hI be np hnp _ _ _ _ (hI _ _ (same_core_xy w _ _) h0) hl
          exact print_text_keeps I hI be np hnp _ _ _ _ (hI _ _ (same_core_xy w3 _ _) h3) h

theorem newpage_keeps (I : World → Prop) (hI : Stable I) (hturn : ∀ w, I w → I w.turn)
    (be : Backend) :
    ∀ (fuel : Nat) (w w2 : World), I w → newpage be fuel w = .ok w2 → I w2 := by
  intro fuel
  induction fuel with
  | zero => intro w w2 _ h; simp [newpage] at h
  | succ fuel ih =>
    intro w w2 h0 h
    simp only [newpage] at h
    change Except.map _ (print_header be (newpage be fuel) w.turn) = _ at h
    cases hp : print_header be (newpage be fuel) w.turn with
    | error e => rw [hp] at h; simp [Except.map] at h
    | ok w3 =>
      rw [hp] at h
      simp only [Except.map, Except.ok.injEq] at h
      subst h
      exact hI _ _ (same_core_xy w3 _ _) (print_header_keeps I hI be _ ih _ _ (hturn w h0) hp)

theorem print_number_keeps (I : World → Prop) (hI : Stable I) (be : Backend)
    (np : World → Except Err World) (hnp : ∀ w w2, I w → np w = .ok w2 → I w2)
    (w w2 : World) (h0 : I w) (h : print_number be np w = .ok w2) : I w2 := by
  unfold print_number at h
  by_cases hn : w.options.number_width ≤ 0
  · simp [hn] at h; subst h; exact h0
  · simp only [hn, if_false] at h
    by_cases hb : (decimal_field w.options.number_width.toNat w.pc.linenum).length < NUMBER_BUFSIZE
    · simp only [hb, if_true] at h
      exact print_text_keeps I hI be np hnp _ _ _ _ (hI _ _ (same_core_x w _) h0) h
    · simp [hb] at h

/-- How a successful `newline` is put together. -/
theorem newline_ok {be : Backend} {fuel : Nat} {w w2 : World}
    (h : newline be fuel w = .ok w2) :
    ∃ w1 w3,
      (if w.pc.linenum = 0 then newpage be fuel w
       else if w.down.overflows then newpage be fuel w.down else .ok w.down) = .ok w1 ∧
      print_number be (newpage be fuel) w1.bump = .ok w3 ∧
      w2 = { w3 with pc := { w3.pc with x := w3.options.margin_left + w3.pc.numberwidth } } := by
  unfold newline at h
  change Except.bind (if w.pc.linenum = 0 then newpage be fuel w
       else if w.down.overflows then newpage be fuel w.down else .ok w.down) _ = _ at h
  cases h1 : (if w.pc.linenum = 0 then newpage be fuel w
       else if w.down.overflows then newpage be fuel w.down else .ok w.down) with
  | error e => rw [h1] at h; simp [Except.bind] at h
  | ok w1 =>
    rw [h1] at h
    simp only [Except.bind] at h
    change Except.map _ (print_number be (newpage be fuel) w1.bump) = _ at h
    cases h3 : print_number be (newpage be fuel) w1.bump with
    | error e => rw [h3] at h; simp [Except.map] at h
    | ok w3 =>
      rw [h3] at h
      simp only [Except.map, Except.ok.injEq] at h
      exact ⟨w1, w3, rfl, h3, h.symm⟩

/-! ## Text that fits -/

theorem drawn_pages_append (a b : List Op) :
    drawn_pages (a ++ b) = drawn_pages a ++ drawn_pages b := by
  induction a with
  | nil => rfl
  | cons op ops ih =>
    cases op <;> simp [drawn_pages, ih]

theorem drawn_on_refl (p : Int) (w : World) : drawn_on p w w :=
  ⟨[], by simp, by simp [drawn_pages]⟩

theorem drawn_on_of_ops_eq (p : Int) {w w2 : World} (h : w2.cr.ops = w.cr.ops) :
    drawn_on p w w2 :=
  ⟨[], by simp [h], by simp [drawn_pages]⟩

theorem drawn_on_trans {p : Int} {a b c : World} (h1 : drawn_on p a b) (h2 : drawn_on p b c) :
    drawn_on p a c := by
  obtain ⟨x, hx, hx2⟩ := h1
  obtain ⟨y, hy, hy2⟩ := h2
  refine ⟨x ++ y, by rw [hy, hx, List.append_assoc], ?_⟩
  intro q hq
  rw [drawn_pages_append, List.mem_append] at hq
  rcases hq with hq | hq
  · exact hx2 q hq
  · exact hy2 q hq

theorem drawn_on_emit (p : Int) (w : World) (op : Op)
    (h : ∀ q s, op = Op.show_text q s → q = p) : drawn_on p w (w.emit op) := by
  refine ⟨[op], rfl, ?_⟩
  intro q hq
  cases op <;> simp [drawn_pages] at hq
  case show_text q2 s => subst hq; exact h _ _ rfl

theorem drawn_on_emit_after {p : Int} {w w1 : World} (op : Op) (h1 : drawn_on p w w1)
    (h : ∀ q s, op = Op.show_text q s → q = p) : drawn_on p w (w1.emit op) :=
  drawn_on_trans h1 (drawn_on_emit p w1 op h)

theorem drawn_on_draw (hi : Highlight) (buf : List Nat) (adv : ℚ) (w : World) :
    drawn_on w.pc.pagenum w (print_text_draw hi buf adv w) := by
  unfold print_text_draw
  by_cases h : is_white hi.bg = true
  · simp only [h, if_true]
    refine drawn_on_emit_after _ (drawn_on_emit_after _ (drawn_on_emit_after _
      (drawn_on_refl _ w) ?_) ?_) ?_ <;> simp
  · simp only [h, if_false]
    refine drawn_on_emit_after _ (drawn_on_emit_after _ (drawn_on_emit_after _
      (drawn_on_emit_after _ (drawn_on_emit_after _ (drawn_on_emit_after _
      (drawn_on_refl _ w) ?_) ?_) ?_) ?_) ?_) ?_ <;> simp

theorem font_draw (hi : Highlight) (buf : List Nat) (adv : ℚ) (w : World) :
    (print_text_draw hi buf adv w).cr.font = w.cr.font ∧
    (print_text_draw hi buf adv w).pc = w.pc := by
  unfold print_text_draw
  by_cases h : is_white hi.bg = true <;> simp [h, World.emit]

/-- A text that fits is drawn in place: the loop returns, whatever `newpage`
would do, and only the horizontal position and the drawing calls change. -/
theorem print_text_loop_fits (be : Backend) (np : World → Except Err World) (hi : Highlight) :
    ∀ (n : Nat) (text : List Nat) (w : World),
      fits be w.cr.font (w.options.paper_width - w.options.margin_right) n text w.pc.x = true →
      ∃ w2, print_text_loop be np hi n text w = .ok w2 ∧ same_core w w2 ∧
        w2.pc.y = w.pc.y ∧ w2.cr.font = w.cr.font ∧ drawn_on w.pc.pagenum w w2 := by
  intro n
  induction n with
  | zero =>
    intro text w h
    cases text with
    | nil => exact ⟨w, by simp [print_text_loop], same_core_refl w, rfl, rfl, drawn_on_refl _ w⟩
    | cons c rest => simp [fits] at h
  | succ n ih =>
    intro text w h
    cases text with
    | nil => exact ⟨w, by simp [print_text_loop], same_core_refl w, rfl, rfl, drawn_on_refl _ w⟩
    | cons c rest =>
      simp only [fits] at h
      cases hl : utf8len c with
      | error e => rw [hl] at h; simp at h
      | ok len =>
        rw [hl] at h
        simp only [Bool.and_eq_true, decide_eq_true_eq] at h
        obtain ⟨⟨hx, hlen⟩, hrest⟩ := h
        simp only [print_text_loop, hl, Except.bind]
        have hw : print_text_wrap np (be.x_advance w.cr.font (List.take len (c :: rest))) w = .ok w := by
          unfold print_text_wrap
          rw [if_neg (not_lt.mpr hx)]
        rw [hw]
        simp only [hlen, if_true]
        obtain ⟨hf, hpc⟩ := font_draw hi (List.take len (c :: rest))
          (be.x_advance w.cr.font (List.take len (c :: rest))) w
        have hcore := same_core_draw hi (List.take len (c :: rest))
          (be.x_advance w.cr.font (List.take len (c :: rest))) w
        have hdr := drawn_on_draw hi (List.take len (c :: rest))
          (be.x_advance w.cr.font (List.take len (c :: rest))) w
        generalize print_text_draw hi (List.take len (c :: rest))
          (be.x_advance w.cr.font (List.take len (c :: rest))) w = wd at hf hpc hcore hdr ⊢
        obtain ⟨w2, h2, c2, y2, f2, d2⟩ := ih (List.drop len (c :: rest))
          { wd with pc := { wd.pc with x := wd.pc.x + be.x_advance w.cr.font (List.take len (c :: rest)) } }
          (by simpa [hf, hpc, hcore.1] using hrest)
        refine ⟨w2, h2, same_core_trans (same_core_trans hcore (same_core_x wd _)) c2, ?_, ?_, ?_⟩
        · rw [y2]; simp [hpc]
        · rw [f2]; simp [hf]
        · have e : wd.pc.pagenum = w.pc.pagenum := by rw [hpc]
          simp only [e] at d2
          exact drawn_on_trans (drawn_on_trans hdr (drawn_on_of_ops_eq _ rfl)) d2

theorem print_text_fits (be : Backend) (np : World → Except Err World) (text : List Nat)
    (hi : Highlight) (w : World) (f : FontSel)
    (hf : select_font be w.options.font_name w.options.font_size hi.bold hi.italic = .ok f)
    (h : fits be f (w.options.paper_width - w.options.margin_right) text.length text w.pc.x
      = true) :
    ∃ w2, print_text be np text hi w = .ok w2 ∧ same_core w w2 ∧ w2.pc.y = w.pc.y ∧
      w2.cr.font = f ∧ drawn_on w.pc.pagenum w w2 := by
  unfold print_text set_font
  rw [hf]
  simp only [Except.map, Except.bind]
  obtain ⟨w2, h2, c2, y2, f2, d2⟩ := print_text_loop_fits be np hi text.length text
    { w with cr := { w.cr with font := f } } (by simpa using h)
  exact ⟨w2, h2, same_core_trans (same_core_font w f) c2, y2, f2,
    drawn_on_trans (drawn_on_of_ops_eq _ rfl) d2⟩

theorem print_header_fits (be : Backend) (np : World → Except Err World) (w : World)
    (h : header_fits be w.options w.pc.pagenum = true) :
    ∃ w2, print_header be np w = .ok w2 ∧ same_core w w2 ∧ drawn_on w.pc.pagenum w w2 := by
  unfold header_fits at h
  unfold print_header
  cases hfmt : w.options.header_format with
  | none => exact ⟨w, rfl, same_core_refl w, drawn_on_refl _ w⟩
  | some format =>
    rw [hfmt] at h
    simp only at h ⊢
    by_cases he : format = []
    · simp only [he, if_true]
      exact ⟨w, rfl, same_core_refl w, drawn_on_refl _ w⟩
    · simp only [he, if_false] at h ⊢
      cases hx : header_expand format w.pc.pagenum with
      | error e => rw [hx] at h; simp at h
      | ok lr =>
        cases hs : select_font be w.options.font_name w.options.font_size 0 0 with
        | error e => rw [hx, hs] at h; simp at h
        | ok f =>
          rw [hx, hs] at h
          simp only [Bool.and_eq_true] at h
          obtain ⟨hl, hr⟩ := h
          simp only [Except.bind]
          obtain ⟨w1, h1, c1, _, f1, d1⟩ := print_text_fits be np lr.1 (fixed_highlight "PageHeader")
            { w with pc := { w.pc with x := w.options.margin_left, y := w.options.margin_top } }
            f (by simpa [fixed_highlight] using hs) (by simpa using hl)
          rw [h1]
          simp only
          have c01 : same_core w w1 := same_core_trans (same_core_xy w _ _) c1
          obtain ⟨w2, h2, c2, _, _, d2⟩ := print_text_fits be np lr.2 (fixed_highlight "PageHeader")
            { w1 with pc := { w1.pc with
                x := w1.options.paper_width - w1.options.margin_right - be.x_advance w1.cr.font lr.2,
                y := w1.options.margin_top } }
            f (by simpa [fixed_highlight, c01.1] using hs) (by simpa [c01.1, f1] using hr)
          refine ⟨w2, h2, same_core_trans c01 (same_core_trans (same_core_xy w1 _ _) c2), ?_⟩
          have e1 : w1.pc.pagenum = w.pc.pagenum := c01.2.1
          simp only [e1] at d2
          exact drawn_on_trans (drawn_on_trans (drawn_on_trans (drawn_on_of_ops_eq _ rfl) d1)
            (drawn_on_of_ops_eq _ rfl)) d2

theorem turn_pagenum (w : World) : w.turn.pc.pagenum = w.pc.pagenum + 1 := by
  unfold World.turn
  by_cases h : w.pc.pagenum ≠ 0 <;> simp [h, World.emit]

theorem turn_flushes (w : World) :
    w.turn.flushes = w.flushes + (if w.pc.pagenum ≠ 0 then 1 else 0) := by
  unfold World.turn
  by_cases h : w.pc.pagenum ≠ 0
  · simp only [if_pos h]
    exact flushes_emit_show_page w
  · simp only [if_neg h]
    rfl

theorem turn_rest (w : World) :
    w.turn.options = w.options ∧ w.turn.pc.linenum = w.pc.linenum ∧
    w.turn.pc.font_height = w.pc.font_height ∧ w.turn.pc.numberwidth = w.pc.numberwidth ∧
    w.turn.pc.font_descent = w.pc.font_descent ∧ w.turn.pc.hi = w.pc.hi ∧
    w.turn.cr.surface = w.cr.surface := by
  unfold World.turn
  by_cases h : w.pc.pagenum ≠ 0 <;> simp [h, World.emit]

theorem turn_drawn_on (p : Int) (w : World) : drawn_on p w w.turn := by
  unfold World.turn
  by_cases h : w.pc.pagenum ≠ 0
  · simp only [if_pos h]
    exact drawn_on_trans (drawn_on_emit p w Op.show_page (by simp)) (drawn_on_of_ops_eq _ rfl)
  · simp only [if_neg h]
    exact drawn_on_of_ops_eq _ rfl

/-- A page turn whose header fits: it returns after one header, whatever the budget. -/
theorem newpage_fits (be : Backend) (fuel : Nat) (w : World)
    (h : header_fits be w.options (w.pc.pagenum + 1) = true) :
    ∃ w2, newpage be (fuel + 1) w = .ok w2 ∧ same_core w.turn w2 ∧
      w2.pc.x = w.options.margin_left + w.pc.numberwidth ∧
      w2.pc.y = w.options.margin_top + w.pc.font_height * (int_add 1 w.options.header_extraline) ∧
      drawn_on (w.pc.pagenum + 1) w w2 := by
  obtain ⟨ho, hl, hfh, hnw, -, -, -⟩ := turn_rest w
  obtain ⟨w1, h1, c1, d1⟩ := print_header_fits be (newpage be fuel) w.turn
    (by rw [ho, turn_pagenum]; exact h)
  simp only [newpage]
  change ∃ w2, Except.map _ (print_header be (newpage be fuel) w.turn) = _ ∧ _
  rw [h1]
  simp only [Except.map]
  refine ⟨_, rfl, same_core_trans c1 (same_core_xy w1 _ _), ?_, ?_, ?_⟩
  · simp [c1.1, c1.2.2.2.2.2.1, ho, hnw]
  · simp [c1.1, c1.2.2.2.1, ho, hfh]
  · rw [turn_pagenum] at d1
    exact drawn_on_trans (drawn_on_trans (turn_drawn_on _ w) d1) (drawn_on_of_ops_eq _ rfl)

theorem print_number_fits (be : Backend) (np : World → Except Err World) (w : World)
    (h : number_fits be w = true) :
    ∃ w2, print_number be np w = .ok w2 ∧ same_core w w2 ∧ w2.pc.y = w.pc.y ∧
      drawn_on w.pc.pagenum w w2 := by
  unfold number_fits at h
  unfold print_number
  by_cases hn : w.options.number_width ≤ 0
  · simp only [hn, if_true]
    exact ⟨w, rfl, same_core_refl w, rfl, drawn_on_refl _ w⟩
  · simp only [hn, if_false, Bool.and_eq_true, decide_eq_true_eq] at h ⊢
    obtain ⟨hb, hfit⟩ := h
    simp only [hb, if_true]
    cases hs : select_font be w.options.font_name w.options.font_size 0 0 with
    | error e => rw [hs] at hfit; simp at hfit
    | ok f =>
      rw [hs] at hfit
      simp only at hfit
      obtain ⟨w2, h2, c2, y2, _, d2⟩ := print_text_fits be np
        (decimal_field w.options.number_width.toNat w.pc.linenum) (fixed_highlight "LineNr")
        { w with pc := { w.pc with
            x := w.options.margin_left + w.pc.numberwidth - LINENR_MARGIN -
              be.x_advance w.cr.font (decimal_field w.options.number_width.toNat w.pc.linenum) } }
        f (by simpa [fixed_highlight] using hs) (by simpa using hfit)
      exact ⟨w2, h2, same_core_trans (same_core_x w _) c2, y2,
        drawn_on_trans (drawn_on_of_ops_eq _ rfl) d2⟩

/-! ## Errors of the header loop -/

theorem header_put_cases (hb : HeaderBuf) (bytes : List Nat) :
    (∃ hb2, header_put hb bytes = .ok hb2) ∨ header_put hb bytes = .error Err.buffer_overflow := by
  unfold header_put
  by_cases h : hb.out + bytes.length < HEADER_BUFSIZE
  · left
    cases ho : hb.out_right <;> simp [h]
  · right
    simp [h]

/-- The loop over a format stops with `unknown header item` at the first `%`
that is not followed by `%`, `N` or `=`, unless an array overflows before;
a format without such a `%` is read to its end, unless an array overflows. -/
theorem header_scan_cases (p : Int) (fmt : List Nat) :
    ∀ hb : HeaderBuf,
      (items fmt = none →
        header_scan p fmt hb = .error Err.buffer_overflow ∨
        ∃ c, header_scan p fmt hb = .error (Err.unknown_header_item c)) ∧
      (items fmt ≠ none →
        header_scan p fmt hb = .error Err.buffer_overflow ∨
        ∃ hb2, header_scan p fmt hb = .ok hb2) := by
  induction fmt using items.induct with
  | case1 => intro hb; simp [items, header_scan]
  | case2 => intro hb; simp [items, header_scan]
  | case3 rest2 ih =>
    intro hb
    simp only [items, header_scan, if_true]
    rcases header_put_cases hb [37] with ⟨hb2, h⟩ | h
    · rw [h]
      simp only [Except.bind]
      have := ih hb2
      cases hi : items rest2 <;> simp [hi] at this ⊢ <;> exact this
    · rw [h]; simp [Except.bind]
  | case4 rest2 _ ih =>
    intro hb
    simp only [items, header_scan, if_true, Nat.reduceEqDiff, if_false]
    rcases header_put_cases hb (decimal p) with ⟨hb2, h⟩ | h
    · rw [h]
      simp only [Except.bind]
      have := ih hb2
      cases hi : items rest2 <;> simp [hi] at this ⊢ <;> exact this
    · rw [h]; simp [Except.bind]
  | case5 rest2 _ _ ih =>
    intro hb
    simp only [items, header_scan, if_true, Nat.reduceEqDiff, if_false]
    rcases header_put_cases { hb with out_right := true, out := 0 } [] with ⟨hb2, h⟩ | h
    · rw [h]
      simp only [Except.bind]
      have := ih hb2
      cases hi : items rest2 <;> simp [hi] at this ⊢ <;> exact this
    · rw [h]; simp [Except.bind]
  | case6 d rest2 h1 h2 h3 =>
    intro hb
    simp [items, header_scan, h1, h2, h3]
  | case7 d rest2 h1 ih =>
    intro hb
    unfold items header_scan
    simp only [h1, if_false]
    rcases header_put_cases hb [d] with ⟨hb2, h⟩ | h
    · rw [h]
      simp only [Except.bind]
      have := ih hb2
      cases hi : items rest2 <;> simp [hi] at this ⊢ <;> exact this
    · rw [h]; simp [Except.bind]

theorem header_expand_unknown {p : Int} {fmt : List Nat} {c : Nat}
    (h : header_expand fmt p = .error (Err.unknown_header_item c)) : items fmt = none := by
  by_contra hne
  unfold header_expand at h
  rcases (header_scan_cases p fmt HeaderBuf.start).2 hne with h2 | ⟨hb2, h2⟩ <;>
    rw [h2] at h <;> simp [Except.map] at h

theorem header_expand_of_bad {p : Int} {fmt : List Nat} (hbad : items fmt = none)
    (hcap : header_expand fmt p ≠ .error Err.buffer_overflow) :
    ∃ c, header_expand fmt p = .error (Err.unknown_header_item c) := by
  unfold header_expand at hcap ⊢
  rcases (header_scan_cases p fmt HeaderBuf.start).1 hbad with h2 | ⟨c, h2⟩
  · rw [h2] at hcap; simp [Except.map] at hcap
  · exact ⟨c, by rw [h2]; rfl⟩

theorem header_expand_of_good {p : Int} {fmt : List Nat} (hgood : items fmt ≠ none)
    (hcap : header_expand fmt p ≠ .error Err.buffer_overflow) :
    ∃ lr, header_expand fmt p = .ok lr := by
  unfold header_expand at hcap ⊢
  rcases (header_scan_cases p fmt HeaderBuf.start).2 hgood with h2 | ⟨hb2, h2⟩
  · rw [h2] at hcap; simp [Except.map] at hcap
  · exact ⟨_, by rw [h2]; rfl⟩

theorem utf8len_error {c : Nat} {e : Err} (h : utf8len c = .error e) : e = Err.invalid_utf8 := by
  unfold utf8len at h
  simp only at h
  split_ifs at h
  cases h
  rfl

theorem select_font_not_unknown {be : Backend} {name : Option (List Nat)} {size : ℚ}
    {bold italic : Int} {c : Nat} :
    select_font be name size bold italic ≠ .error (Err.unknown_header_item c) := by
  unfold select_font
  cases name with
  | none => simp
  | some nm =>
    simp only
    split_ifs <;> simp

theorem print_text_wrap_unknown (I : World → Prop) (hI : Stable I)
    (np : World → Except Err World) (adv : ℚ) (w : World) (c : Nat) (h0 : I w)
    (h : print_text_wrap np adv w = .error (Err.unknown_header_item c)) :
    ∃ w1, I w1 ∧ np w1 = .error (Err.unknown_header_item c) := by
  unfold print_text_wrap at h
  by_cases hc : w.pc.x + adv > w.options.paper_width - w.options.margin_right
  · simp only [hc, if_true] at h
    change Except.map _ (if w.down.overflows then np w.down else .ok w.down) = _ at h
    by_cases hv : w.down.overflows
    · simp only [hv, if_true] at h
      cases hr : np w.down with
      | error e =>
        rw [hr] at h
        simp only [Except.map, Except.error.injEq] at h
        subst h
        exact ⟨w.down, hI _ _ (same_core_down w) h0, hr⟩
      | ok w3 => rw [hr] at h; simp [Except.map] at h
    · simp [hv, Except.map] at h
  · simp [hc] at h

theorem print_text_loop_unknown (I : World → Prop) (hI : Stable I) (be : Backend)
    (np : World → Except Err World) (hnp : ∀ w w2, I w → np w = .ok w2 → I w2)
    (hi : Highlight) (c0 : Nat) :
    ∀ (n : Nat) (text : List Nat) (w : World), I w →
      print_text_loop be np hi n text w = .error (Err.unknown_header_item c0) →
      ∃ w1, I w1 ∧ np w1 = .error (Err.unknown_header_item c0) := by
  intro n
  induction n with
  | zero =>
    intro text w h0 h
    cases text <;> simp [print_text_loop] at h
  | succ n ih =>
    intro text w h0 h
    cases text with
    | nil => simp [print_text_loop] at h
    | cons c rest =>
      simp only [print_text_loop] at h
      cases hl : utf8len c with
      | error e =>
        rw [hl] at h
        simp only [Except.bind, Except.error.injEq] at h
        have := utf8len_error hl
        rw [h] at this
        cases this
      | ok len =>
        rw [hl] at h
        simp only [Except.bind] at h
        cases hw : print_text_wrap np (be.x_advance w.cr.font (List.take len (c :: rest))) w with
        | error e =>
          rw [hw] at h
          simp only [Except.error.injEq] at h
          subst h
          exact print_text_wrap_unknown I hI np _ w c0 h0 hw
        | ok w1 =>
          rw [hw] at h
          simp only at h
          have h1 : I w1 := print_text_wrap_keeps I hI np hnp _ w w1 h0 hw
          by_cases hlen : len ≤ (c :: rest).length
          · simp only [hlen, if_true] at h
            refine ih _ _ ?_ h
            exact hI _ _ (same_core_x _ _) (hI _ _ (same_core_draw _ _ _ _) h1)
          · simp only [hlen, if_false] at h
            cases h

theorem print_text_unknown (I : World → Prop) (hI : Stable I) (be : Backend)
    (np : World → Except Err World) (hnp : ∀ w w2, I w → np w = .ok w2 → I w2)
    (text : List Nat) (hi : Highlight) (w : World) (c0 : Nat) (h0 : I w)
    (h : print_text be np text hi w = .error (Err.unknown_header_item c0)) :
    ∃ w1, I w1 ∧ np w1 = .error (Err.unknown_header_item c0) := by
  unfold print_text set_font at h
  cases hs : select_font be w.options.font_name w.options.font_size hi.bold hi.italic with
  | error e =>
    rw [hs] at h
    simp only [Except.map, Except.bind, Except.error.injEq] at h
    subst h
    exact absurd hs select_font_not_unknown
  | ok f =>
    rw [hs] at h
    simp only [Except.map, Except.bind] at h
    exact print_text_loop_unknown I hI be np hnp hi c0 _ _ _ (hI _ _ (same_core_font w f) h0) h

theorem print_header_unknown (I : World → Prop) (hI : Stable I) (be : Backend)
    (np : World → Except Err World) (hnp : ∀ w w2, I w → np w = .ok w2 → I w2)
    (w : World) (c0 : Nat) (h0 : I w)
    (h : print_header be np w = .error (Err.unknown_header_item c0)) :
    (∃ fmt, w.options.header_format = some fmt ∧ fmt ≠ [] ∧
      header_expand fmt w.pc.pagenum = .error (Err.unknown_header_item c0)) ∨
    ∃ w1, I w1 ∧ np w1 = .error (Err.unknown_header_item c0) := by
  unfold print_header at h
  cases hfmt : w.options.header_format with
  | none => rw [hfmt] at h; simp at h
  | some format =>
    rw [hfmt] at h
    simp only at h
    by_cases he : format = []
    · simp [he] at h
    · simp only [he, if_false] at h
      cases hx : header_expand format w.pc.pagenum with
      | error e =>
        rw [hx] at h
        simp only [Except.bind, Except.error.injEq] at h
        subst h
        exact Or.inl ⟨format, rfl, he, hx⟩
      | ok lr =>
        right
        rw [hx] at h
        simp only [Except.bind] at h
        cases hl : print_text be np lr.1 (fixed_highlight "PageHeader")
            { w with pc := { w.pc with x := w.options.margin_left, y := w.options.margin_top } } with
        | error e =>
          rw [hl] at h
          simp only [Except.error.injEq] at h
          subst h
          exact print_text_unknown I hI be np hnp _ _ _ c0 (hI _ _ (same_core_xy w _ _) h0) hl
        | ok w3 =>
          rw [hl] at h
          simp only at h
          have h3 : I w3 := print_text_keeps I hI be np hnp _ _ _ _ (hI _ _ (same_core_xy w _ _) h0) hl
          exact print_text_unknown I hI be np hnp _ _ _ c0 (hI _ _ (same_core_xy w3 _ _) h3) h

theorem stable_options (o : Options) : Stable (fun w => w.options = o) := by
  intro w w2 h h0
  exact h.1.trans h0

theorem turn_options (o : Options) (w : World) (h : w.options = o) : w.turn.options = o :=
  (turn_rest w).1.trans h

/-- An `unknown header item` error of a page turn comes from the format in force. -/
theorem newpage_unknown (be : Backend) (o : Options) :
    ∀ (fuel : Nat) (w : World) (c : Nat), w.options = o →
      newpage be fuel w = .error (Err.unknown_header_item c) →
      ∃ fmt, o.header_format = some fmt ∧ fmt ≠ [] ∧ items fmt = none := by
  intro fuel
  induction fuel with
  | zero => intro w c _ h; simp [newpage] at h
  | succ fuel ih =>
    intro w c h0 h
    simp only [newpage] at h
    change Except.map _ (print_header be (newpage be fuel) w.turn) = _ at h
    cases hp : print_header be (newpage be fuel) w.turn with
    | ok w3 => rw [hp] at h; simp [Except.map] at h
    | error e =>
      rw [hp] at h
      simp only [Except.map, Except.error.injEq] at h
      subst h
      rcases print_header_unknown (fun w => w.options = o) (stable_options o) be _
        (newpage_keeps _ (stable_options o) (turn_options o) be fuel) w.turn c
        (turn_options o w h0) hp with ⟨fmt, hf, hne, hx⟩ | ⟨w1, h1, hx⟩
      · rw [turn_options o w h0] at hf
        exact ⟨fmt, hf, hne, header_expand_unknown hx⟩
      · exact ih w1 c h1 hx

/-! ## Counting pages and lines -/

theorem stable_pages (p : Int) : Stable (fun w => pages_counted w ∧ p ≤ w.pc.pagenum) := by
  intro w w2 h h0
  unfold pages_counted at h0 ⊢
  rw [h.2.1, h.2.2.2.2.2.2.2.2]
  exact h0

theorem turn_pages (w : World) (h : pages_counted w) : pages_counted w.turn := by
  unfold pages_counted at h ⊢
  rw [turn_pagenum, turn_flushes]
  obtain ⟨h1, h2⟩ := h
  by_cases hz : w.pc.pagenum = 0
  · simp [hz] at h2 ⊢
    omega
  · simp only [ne_eq, hz, not_false_eq_true, if_true]
    have : 1 ≤ w.pc.pagenum := by omega
    refine ⟨by omega, ?_⟩
    push_cast
    rw [h2, max_eq_left (by omega), max_eq_left (by omega)]
    ring

theorem turn_pages_ge (p : Int) (w : World) (h : pages_counted w ∧ p ≤ w.pc.pagenum) :
    pages_counted w.turn ∧ p ≤ w.turn.pc.pagenum := by
  refine ⟨turn_pages w h.1, ?_⟩
  rw [turn_pagenum]
  omega

/-- A page turn keeps the count of pages and moves the page counter up. -/
theorem newpage_pages (be : Backend) (fuel : Nat) (w w2 : World) (h0 : pages_counted w)
    (h : newpage be fuel w = .ok w2) :
    pages_counted w2 ∧ w.pc.pagenum + 1 ≤ w2.pc.pagenum := by
  cases fuel with
  | zero => simp [newpage] at h
  | succ fuel =>
    simp only [newpage] at h
    change Except.map _ (print_header be (newpage be fuel) w.turn) = _ at h
    cases hp : print_header be (newpage be fuel) w.turn with
    | error e => rw [hp] at h; simp [Except.map] at h
    | ok w3 =>
      rw [hp] at h
      simp only [Except.map, Except.ok.injEq] at h
      subst h
      have h3 := print_header_keeps _ (stable_pages (w.pc.pagenum + 1)) be _
        (newpage_keeps _ (stable_pages (w.pc.pagenum + 1)) (turn_pages_ge _) be fuel) _ _
        ⟨turn_pages w h0, by rw [turn_pagenum]⟩ hp
      exact stable_pages _ _ _ (same_core_xy w3 _ _) h3

theorem stable_linenum (k : Int) : Stable (fun w => w.pc.linenum = k) := by
  intro w w2 h h0
  exact h.2.2.1.trans h0

theorem turn_linenum (k : Int) (w : World) (h : w.pc.linenum = k) : w.turn.pc.linenum = k :=
  (turn_rest w).2.1.trans h

theorem newline_linenum (be : Backend) (fuel : Nat) (w w2 : World)
    (h : newline be fuel w = .ok w2) : w2.pc.linenum = w.pc.linenum + 1 := by
  obtain ⟨w1, w3, h1, h3, rfl⟩ := newline_ok h
  have e1 : w1.pc.linenum = w.pc.linenum := by
    by_cases hz : w.pc.linenum = 0
    · simp only [hz, if_true] at h1
      rw [hz]
      exact newpage_keeps _ (stable_linenum 0) (turn_linenum 0) be fuel _ _ hz h1
    · simp only [hz, if_false] at h1
      by_cases hv : w.down.overflows
      · simp only [hv, if_true] at h1
        exact newpage_keeps _ (stable_linenum _) (turn_linenum _) be fuel w.down _ rfl h1
      · simp only [hv, if_false, Except.ok.injEq] at h1
        subst h1
        rfl
  have e3 : w3.pc.linenum = w1.bump.pc.linenum :=
    print_number_keeps _ (stable_linenum _) be _
      (newpage_keeps _ (stable_linenum _) (turn_linenum _) be fuel) _ _ rfl h3
  simp only [e3, World.bump, e1]

/-- A line keeps the count of pages and never lowers the page counter;
afterwards a page is open. -/
theorem newline_pages (be : Backend) (fuel : Nat) (w w2 : World)
    (h0 : pages_counted w) (hl : w.pc.linenum ≠ 0 → 1 ≤ w.pc.pagenum)
    (h : newline be fuel w = .ok w2) :
    pages_counted w2 ∧ 1 ≤ w2.pc.pagenum ∧ w.pc.pagenum ≤ w2.pc.pagenum := by
  obtain ⟨w1, w3, h1, h3, rfl⟩ := newline_ok h
  have e1 : pages_counted w1 ∧ max 1 w.pc.pagenum ≤ w1.pc.pagenum := by
    by_cases hz : w.pc.linenum = 0
    · simp only [hz, if_true] at h1
      have := newpage_pages be fuel _ _ h0 h1
      exact ⟨this.1, by have := h0.1; omega⟩
    · simp only [hz, if_false] at h1
      by_cases hv : w.down.overflows
      · simp only [hv, if_true] at h1
        have := newpage_pages be fuel _ _ (stable_pages 0 _ _ (same_core_down w) ⟨h0, h0.1⟩).1 h1
        exact ⟨this.1, by have := h0.1; have e : w.down.pc.pagenum = w.pc.pagenum := rfl; omega⟩
      · simp only [hv, if_false, Except.ok.injEq] at h1
        subst h1
        have := hl hz
        exact stable_pages _ _ _ (same_core_down w) ⟨h0, by omega⟩
  have e3 := print_number_keeps _ (stable_pages (max 1 w.pc.pagenum)) be _
      (newpage_keeps _ (stable_pages _) (turn_pages_ge _) be fuel) w1.bump _
      (by exact e1) h3
  have e4 : pages_counted w3 ∧ max 1 w.pc.pagenum ≤ w3.pc.pagenum := e3
  refine ⟨stable_pages 0 _ _ (same_core_x w3 _) ⟨e4.1, e4.1.1⟩ |>.1, ?_, ?_⟩
  · have := e4.2; simp only [ge_iff_le]; omega
  · have := e4.2; simp only [ge_iff_le]; omega

theorem command_start_ok {be : Backend} {outfile : List Nat} {w w2 : World}
    (h : command_start be outfile w = .ok w2) :
    w2.options = w.options ∧ w2.pc.pagenum = 0 ∧ w2.pc.linenum = 0 ∧ w2.cr.ops = [] ∧
    ∃ f, select_font be w.options.font_name w.options.font_size 0 0 = .ok f ∧
      w2.cr.font = f ∧
      w2.pc.font_height = be.fe_height f + w.options.linespace ∧
      w2.pc.font_descent = be.fe_descent f + w.options.linespace / 2 ∧
      w2.pc.numberwidth =
        if w.options.number_width > 0 then
          w.options.number_width * be.x_advance f (ascii "0") + LINENR_MARGIN
        else 0 := by
  unfold command_start set_font at h
  cases hk : (if endswith outfile (ascii ".ps") then Except.ok Surface.ps
      else if endswith outfile (ascii ".pdf") then Except.ok Surface.pdf
      else Except.error Err.file_type : Except Err Surface) with
  | error e => rw [hk] at h; simp [Except.bind] at h
  | ok kind =>
    rw [hk] at h
    simp only [Except.bind] at h
    cases hs : select_font be w.options.font_name w.options.font_size 0 0 with
    | error e => rw [hs] at h; simp [Except.map] at h
    | ok f =>
      rw [hs] at h
      simp only [Except.map, Except.ok.injEq] at h
      subst h
      refine ⟨rfl, ?_, ?_, ?_, f, rfl, ?_⟩
      · by_cases hn : w.options.number_width > 0 <;> simp [hn]
      · by_cases hn : w.options.number_width > 0 <;> simp [hn]
      · rfl
      · by_cases hn : w.options.number_width > 0 <;> simp [hn]

theorem print_append (be : Backend) (outfile : List Nat) (fuel : Nat) (a b : List Directive)
    (w : World) :
    print be outfile fuel (a ++ b) w =
      (print be outfile fuel a w).bind (print be outfile fuel b) := by
  induction a generalizing w with
  | nil => rfl
  | cons d ds ih =>
    simp only [List.cons_append, print]
    cases exec be outfile fuel d w with
    | error e => rfl
    | ok w1 => exact ih w1

/-- Effect of a stream of LINE and TEXT directives on the counters. -/
theorem print_lines_and_texts (be : Backend) (outfile : List Nat) (fuel : Nat) :
    ∀ (ds : List Directive) (w w2 : World), lines_and_texts ds = true →
      print be outfile fuel ds w = .ok w2 →
      w2.pc.linenum = w.pc.linenum + ds.count Directive.LINE ∧
      (pages_counted w → (w.pc.linenum ≠ 0 → 1 ≤ w.pc.pagenum) →
        pages_counted w2 ∧ (w2.pc.linenum ≠ 0 → 1 ≤ w2.pc.pagenum) ∧
        w.pc.pagenum ≤ w2.pc.pagenum ∧
        (Directive.LINE ∈ ds → 1 ≤ w2.pc.pagenum)) := by
  intro ds
  induction ds with
  | nil =>
    intro w w2 _ h
    simp only [print, Except.ok.injEq] at h
    subst h
    exact ⟨by simp, fun a b => ⟨a, b, le_refl _, by simp⟩⟩
  | cons d ds ih =>
    intro w w2 hds h
    simp only [lines_and_texts, List.all_cons, Bool.and_eq_true] at hds
    obtain ⟨hd, hds⟩ := hds
    simp only [print] at h
    cases he : exec be outfile fuel d w with
    | error e => rw [he] at h; simp [Except.bind] at h
    | ok w1 =>
      rw [he] at h
      simp only [Except.bind] at h
      obtain ⟨hl, hp⟩ := ih w1 w2 (by simpa [lines_and_texts] using hds) h
      cases d with
      | LINE =>
        simp only [exec] at he
        have e1 := newline_linenum be fuel w w1 he
        refine ⟨by rw [hl, e1]; simp; ring, ?_⟩
        intro h0 h1
        obtain ⟨p1, q1, r1⟩ := newline_pages be fuel w w1 h0 h1 he
        obtain ⟨a, b, c, _⟩ := hp p1 (fun _ => q1)
        exact ⟨a, b, le_trans r1 c, fun _ => le_trans q1 c⟩
      | TEXT text =>
        simp only [exec] at he
        have e1 : w1.pc.linenum = w.pc.linenum :=
          print_text_keeps _ (stable_linenum _) be _
            (newpage_keeps _ (stable_linenum _) (turn_linenum _) be fuel) _ _ _ _ rfl he
        refine ⟨by rw [hl, e1]; simp [List.count_cons], ?_⟩
        intro h0 h1
        have p1 := print_text_keeps _ (stable_pages w.pc.pagenum) be _
            (newpage_keeps _ (stable_pages _) (turn_pages_ge _) be fuel) _ _ _ _
            ⟨h0, le_refl _⟩ he
        obtain ⟨a, b, c, d⟩ := hp p1.1 (fun hz => by
          have := h1 (by rw [← e1]; exact hz)
          exact le_trans this p1.2)
        refine ⟨a, b, le_trans p1.2 c, fun hm => d ?_⟩
        simpa using hm
      | _ => simp at hd

theorem print_number_off (be : Backend) (np : World → Except Err World) (v : World)
    (h : v.options.number_width ≤ 0) : print_number be np v = .ok v := by
  unfold print_number
  simp [h]

/-! ## The pangocairo backend: properties kept by the engine -/

theorem Pango.print_text_lines_keeps (I : World → Prop) (hI : Stable I)
    (np : World → Except Err World) (hnp : ∀ w w2, I w → np w = .ok w2 → I w2) :
    ∀ (lines : List (List Nat)) (i : Nat) (w w2 : World), I w →
      Pango.print_text_lines np i lines w = .ok w2 → I w2 := by
  intro lines
  induction lines with
  | nil =>
    intro i w w2 h0 h
    simp only [Pango.print_text_lines, Except.ok.injEq] at h
    subst h
    exact h0
  | cons line rest ih =>
    intro i w w2 h0 h
    simp only [Pango.print_text_lines] at h
    have h1 : I (if i ≠ 0 then w.down else w) := by
      by_cases hi : i ≠ 0
      · rw [if_pos hi]; exact hI _ _ (same_core_down w) h0
      · rw [if_neg hi]; exact h0
    change Except.bind (if (if i ≠ 0 then w.down else w).overflows
        then np (if i ≠ 0 then w.down else w) else .ok (if i ≠ 0 then w.down else w)) _ = _ at h
    generalize (if i ≠ 0 then w.down else w) = w1 at h h1
    cases hr : (if w1.overflows then np w1 else .ok w1) with
    | error e => rw [hr] at h; simp [Except.bind] at h
    | ok w3 =>
      rw [hr] at h
      simp only [Except.bind] at h
      have h3 : I w3 := by
        by_cases hv : w1.overflows
        · rw [if_pos hv] at hr
          exact hnp _ _ h1 hr
        · rw [if_neg hv] at hr
          cases hr
          exact h1
      refine ih _ _ _ ?_ h
      exact hI _ _ (same_core_emit_after _ (same_core_emit w3 _ (by simp)) (by simp)) h3

theorem Pango.print_text_keeps_pango (I : World → Prop) (hI : Stable I) (be : PangoBackend)
    (np : World → Except Err World) (hnp : ∀ w w2, I w → np w = .ok w2 → I w2)
    (text : List Nat) (w w2 : World) (h0 : I w)
    (h : Pango.print_text be np text w = .ok w2) : I w2 :=
  Pango.print_text_lines_keeps I hI np hnp _ _ _ _ h0 h

theorem Pango.print_header_keeps_pango (I : World → Prop) (hI : Stable I) (be : PangoBackend)
    (np : World → Except Err World) (hnp : ∀ w w2, I w → np w = .ok w2 → I w2)
    (w w2 : World) (h0 : I w) (h : Pango.print_header be np w = .ok w2) : I w2 := by
  unfold Pango.print_header at h
  cases hfmt : w.options.header_format with
  | none => rw [hfmt] at h; simp at h; subst h; exact h0
  | some format =>
    rw [hfmt] at h
    simp only at h
    by_cases he : format = []
    · simp [he] at h; subst h; exact h0
    · simp only [he, if_false] at h
      cases hx : header_expand format w.pc.pagenum with
      | error e => rw [hx] at h; simp [Except.bind] at h
      | ok lr =>
        rw [hx] at h
        simp only [Except.bind] at h
        cases hl : Pango.print_text be np lr.1
            { w with pc := { w.pc with x := w.options.margin_left, y := w.options.margin_top } } with
        | error e => rw [hl] at h; simp at h
        | ok w3 =>
          rw [hl] at h
          simp only at h
          have h3 : I w3 :=
            Pango.print_text_keeps_pango I hI be np hnp _ _ _ (hI _ _ (same_core_xy w _ _) h0) hl
          exact Pango.print_text_keeps_pango I hI be np hnp _ _ _ (hI _ _ (same_core_xy w3 _ _) h3) h

theorem Pango.newpage_keeps_pango (I : World → Prop) (hI : Stable I) (hturn : ∀ w, I w → I w.turn)
    (be : PangoBackend) :
    ∀ (fuel : Nat) (w w2 : World), I w → Pango.newpage be fuel w = .ok w2 → I w2 := by
  intro fuel
  induction fuel with
  | zero => intro w w2 _ h; simp [Pango.newpage] at h
  | succ fuel ih =>
    intro w w2 h0 h
    simp only [Pango.newpage] at h
    change Except.map _ (Pango.print_header be (Pango.newpage be fuel) w.turn) = _ at h
    cases hp : Pango.print_header be (Pango.newpage be fuel) w.turn with
    | error e => rw [hp] at h; simp [Except.map] at h
    | ok w3 =>
      rw [hp] at h
      simp only [Except.map, Except.ok.injEq] at h
      subst h
      exact hI _ _ (same_core_xy w3 _ _)
        (Pango.print_header_keeps_pango I hI be _ ih _ _ (hturn w h0) hp)

theorem Pango.print_number_keeps_pango (I : World → Prop) (hI : Stable I) (be : PangoBackend)
    (np : World → Except Err World) (hnp : ∀ w w2, I w → np w = .ok w2 → I w2)
    (w w2 : World) (h0 : I w) (h : Pango.print_number be np w = .ok w2) : I w2 := by
  unfold Pango.print_number at h
  by_cases hn : w.options.number_width ≤ 0
  · simp [hn] at h; subst h; exact h0
  · simp only [hn, if_false] at h
    by_cases hb : (decimal_field w.options.number_width.toNat w.pc.linenum).length < NUMBER_BUFSIZE
    · simp only [hb, if_true] at h
      exact Pango.print_text_keeps_pango I hI be np hnp _ _ _ (hI _ _ (same_core_x w _) h0) h
    · simp [hb] at h

/-- How a successful `newline` of the pangocairo backend is put together. -/
theorem Pango.newline_ok_pango {be : PangoBackend} {fuel : Nat} {w w2 : World}
    (h : Pango.newline be fuel w = .ok w2) :
    ∃ w1 w3,
      (if w.pc.linenum = 0 then Pango.newpage be fuel w
       else if w.down.overflows then Pango.newpage be fuel w.down else .ok w.down) = .ok w1 ∧
      Pango.print_number be (Pango.newpage be fuel) w1.bump = .ok w3 ∧
      w2 = { w3 with pc := { w3.pc with x := w3.options.margin_left + w3.pc.numberwidth } } := by
  unfold Pango.newline at h
  change Except.bind (if w.pc.linenum = 0 then Pango.newpage be fuel w
       else if w.down.overflows then Pango.newpage be fuel w.down else .ok w.down) _ = _ at h
  cases h1 : (if w.pc.linenum = 0 then Pango.newpage be fuel w
       else if w.down.overflows then Pango.newpage be fuel w.down else .ok w.down) with
  | error e => rw [h1] at h; simp [Except.bind] at h
  | ok w1 =>
    rw [h1] at h
    simp only [Except.bind] at h
    change Except.map _ (Pango.print_number be (Pango.newpage be fuel) w1.bump) = _ at h
    cases h3 : Pango.print_number be (Pango.newpage be fuel) w1.bump with
    | error e => rw [h3] at h; simp [Except.map] at h
    | ok w3 =>
      rw [h3] at h
      simp only [Except.map, Except.ok.injEq] at h
      exact ⟨w1, w3, rfl, h3, h.symm⟩

theorem Pango.newline_linenum_pango (be : PangoBackend) (fuel : Nat) (w w2 : World)
    (h : Pango.newline be fuel w = .ok w2) : w2.pc.linenum = w.pc.linenum + 1 := by
  obtain ⟨w1, w3, h1, h3, rfl⟩ := Pango.newline_ok_pango h
  have e1 : w1.pc.linenum = w.pc.linenum := by
    by_cases hz : w.pc.linenum = 0
    · simp only [hz, if_true] at h1
      rw [hz]
      exact Pango.newpage_keeps_pango _ (stable_linenum 0) (turn_linenum 0) be fuel _ _ hz h1
    · simp only [hz, if_false] at h1
      by_cases hv : w.down.overflows
      · simp only [hv, if_true] at h1
        exact Pango.newpage_keeps_pango _ (stable_linenum _) (turn_linenum _) be fuel w.down _ rfl h1
      · simp only [hv, if_false, Except.ok.injEq] at h1
        subst h1
        rfl
  have e3 : w3.pc.linenum = w1.bump.pc.linenum :=
    Pango.print_number_keeps_pango _ (stable_linenum _) be _
      (Pango.newpage_keeps_pango _ (stable_linenum _) (turn_linenum _) be fuel) _ _ rfl h3
  simp only [e3, World.bump, e1]

/-! ## The pangocairo backend: text drawn in place -/

theorem Pango.one_line_congr (be : PangoBackend) (w v : World) (text : List Nat)
    (ho : v.options = w.options) (hn : v.pc.numberwidth = w.pc.numberwidth)
    (hy : v.pc.y = w.pc.y) (hf : v.pc.font_height = w.pc.font_height) :
    Pango.one_line be v text = Pango.one_line be w text := by
  simp only [Pango.one_line, World.overflows, ho, hn, hy, hf]

/-- A text of one line that meets no page end is drawn in place: `print_text`
returns, whatever `newpage` would do, and only the drawing calls change. -/
theorem Pango.print_text_one_line (be : PangoBackend) (np : World → Except Err World)
    (text : List Nat) (w : World) (h : Pango.one_line be w text = true) :
    ∃ w2, Pango.print_text be np text w = .ok w2 ∧ same_core w w2 ∧ w2.pc.y = w.pc.y ∧
      w2.pc.x = w.pc.x ∧ drawn_on w.pc.pagenum w w2 := by
  unfold Pango.one_line at h
  unfold Pango.print_text
  generalize be.lines w.options.font_name w.options.font_size
      (w.options.paper_width - w.options.margin_left - w.options.margin_right
        - w.pc.numberwidth) text = lines at h ⊢
  match lines, h with
  | [], _ =>
    exact ⟨w, rfl, same_core_refl w, rfl, rfl, drawn_on_refl _ w⟩
  | [line], h =>
    simp only [Bool.not_eq_true', decide_eq_false_iff_not] at h
    have hv : ¬ (w.pc.y + w.pc.font_height > w.options.paper_height - w.options.margin_bottom) := h
    simp only [Pango.print_text_lines, ne_eq, not_true_eq_false, if_false, hv, Except.bind]
    refine ⟨_, rfl, ?_, rfl, rfl, ?_⟩
    · exact same_core_emit_after _ (same_core_emit w _ (by simp)) (by simp)
    · exact drawn_on_emit_after _ (drawn_on_emit _ w _ (by simp)) (by simp)
  | _ :: _ :: _, h => simp at h

theorem Pango.print_header_fits_pango (be : PangoBackend) (np : World → Except Err World) (w : World)
    (h : Pango.header_fits be w = true) :
    ∃ w2, Pango.print_header be np w = .ok w2 ∧ same_core w w2 ∧
      drawn_on w.pc.pagenum w w2 := by
  unfold Pango.header_fits at h
  unfold Pango.print_header
  cases hfmt : w.options.header_format with
  | none => exact ⟨w, rfl, same_core_refl w, drawn_on_refl _ w⟩
  | some format =>
    rw [hfmt] at h
    simp only at h ⊢
    by_cases he : format = []
    · simp only [he, if_true]
      exact ⟨w, rfl, same_core_refl w, drawn_on_refl _ w⟩
    · simp only [he, if_false] at h ⊢
      cases hx : header_expand format w.pc.pagenum with
      | error e => rw [hx] at h; simp at h
      | ok lr =>
        rw [hx] at h
        simp only [Bool.and_eq_true] at h
        obtain ⟨hl, hr⟩ := h
        simp only [Except.bind]
        obtain ⟨w1, h1, c1, y1, -, d1⟩ := Pango.print_text_one_line be np lr.1
          { w with pc := { w.pc with x := w.options.margin_left, y := w.options.margin_top } } hl
        rw [h1]
        simp only
        have c01 : same_core w w1 := same_core_trans (same_core_xy w _ _) c1
        obtain ⟨w2, h2, c2, -, -, d2⟩ := Pango.print_text_one_line be np lr.2
          { w1 with pc := { w1.pc with
              x := w1.options.paper_width - w1.options.margin_right -
                be.width w1.options.font_name w1.options.font_size lr.2,
              y := w1.options.margin_top } }
          ((Pango.one_line_congr be
              { w with pc := { w.pc with x := w.options.margin_left, y := w.options.margin_top } }
              { w1 with pc := { w1.pc with
                  x := w1.options.paper_width - w1.options.margin_right -
                    be.width w1.options.font_name w1.options.font_size lr.2,
                  y := w1.options.margin_top } }
              lr.2 c01.1 c01.2.2.2.2.2.1 (by simp [c01.1]) c01.2.2.2.1).trans hr)
        refine ⟨w2, h2, same_core_trans c01 (same_core_trans (same_core_xy w1 _ _) c2), ?_⟩
        have e1 : w1.pc.pagenum = w.pc.pagenum := c01.2.1
        simp only [e1] at d2
        exact drawn_on_trans (drawn_on_trans (drawn_on_trans (drawn_on_of_ops_eq _ rfl) d1)
          (drawn_on_of_ops_eq _ rfl)) d2

/-- A page turn of the pangocairo backend whose header is drawn in place: it
returns after one header, whatever the budget. -/
theorem Pango.newpage_fits_pango (be : PangoBackend) (fuel : Nat) (w : World)
    (h : Pango.header_fits be w.turn = true) :
    ∃ w2, Pango.newpage be (fuel + 1) w = .ok w2 ∧ same_core w.turn w2 ∧
      w2.pc.x = w.options.margin_left + w.pc.numberwidth ∧
      w2.pc.y = w.options.margin_top + w.pc.font_height * (int_add 1 w.options.header_extraline) ∧
      drawn_on (w.pc.pagenum + 1) w w2 := by
  obtain ⟨ho, hl, hfh, hnw, -, -, -⟩ := turn_rest w
  obtain ⟨w1, h1, c1, d1⟩ := Pango.print_header_fits_pango be (Pango.newpage be fuel) w.turn h
  simp only [Pango.newpage]
  change ∃ w2, Except.map _ (Pango.print_header be (Pango.newpage be fuel) w.turn) = _ ∧ _
  rw [h1]
  simp only [Except.map]
  refine ⟨_, rfl, same_core_trans c1 (same_core_xy w1 _ _), ?_, ?_, ?_⟩
  · simp [c1.1, c1.2.2.2.2.2.1, ho, hnw]
  · simp [c1.1, c1.2.2.2.1, ho, hfh]
  · rw [turn_pagenum] at d1
    exact drawn_on_trans (drawn_on_trans (turn_drawn_on _ w) d1) (drawn_on_of_ops_eq _ rfl)

theorem Pango.print_number_fits_pango (be : PangoBackend) (np : World → Except Err World) (w : World)
    (h : Pango.number_fits be w = true) :
    ∃ w2, Pango.print_number be np w = .ok w2 ∧ same_core w w2 ∧ w2.pc.y = w.pc.y ∧
      drawn_on w.pc.pagenum w w2 := by
  unfold Pango.number_fits at h
  unfold Pango.print_number
  by_cases hn : w.options.number_width ≤ 0
  · simp only [hn, if_true]
    exact ⟨w, rfl, same_core_refl w, rfl, drawn_on_refl _ w⟩
  · simp only [hn, if_false, Bool.and_eq_true, decide_eq_true_eq] at h ⊢
    obtain ⟨hb, hfit⟩ := h
    simp only [hb, if_true]
    obtain ⟨w2, h2, c2, y2, -, d2⟩ := Pango.print_text_one_line be np
      (decimal_field w.options.number_width.toNat w.pc.linenum)
      { w with pc := { w.pc with
          x := w.options.margin_left + w.pc.numberwidth - LINENR_MARGIN -
            be.width w.options.font_name w.options.font_size
              (decimal_field w.options.number_width.toNat w.pc.linenum) } }
      ((Pango.one_line_congr be w
          { w with pc := { w.pc with
              x := w.options.margin_left + w.pc.numberwidth - LINENR_MARGIN -
                be.width w.options.font_name w.options.font_size
                  (decimal_field w.options.number_width.toNat w.pc.linenum) } }
          _ rfl rfl rfl rfl).trans hfit)
    exact ⟨w2, h2, same_core_trans (same_core_x w _) c2, y2,
      drawn_on_trans (drawn_on_of_ops_eq _ rfl) d2⟩

/-! ## The pangocairo backend: errors of the header loop -/

theorem Pango.print_text_lines_unknown (I : World → Prop) (hI : Stable I)
    (np : World → Except Err World) (hnp : ∀ w w2, I w → np w = .ok w2 → I w2) (c0 : Nat) :
    ∀ (lines : List (List Nat)) (i : Nat) (w : World), I w →
      Pango.print_text_lines np i lines w = .error (Err.unknown_header_item c0) →
      ∃ w1, I w1 ∧ np w1 = .error (Err.unknown_header_item c0) := by
  intro lines
  induction lines with
  | nil =>
    intro i w _ h
    simp [Pango.print_text_lines] at h
  | cons line rest ih =>
    intro i w h0 h
    simp only [Pango.print_text_lines] at h
    have h1 : I (if i ≠ 0 then w.down else w) := by
      by_cases hi : i ≠ 0
      · rw [if_pos hi]; exact hI _ _ (same_core_down w) h0
      · rw [if_neg hi]; exact h0
    change Except.bind (if (if i ≠ 0 then w.down else w).overflows
        then np (if i ≠ 0 then w.down else w) else .ok (if i ≠ 0 then w.down else w)) _ = _ at h
    generalize (if i ≠ 0 then w.down else w) = w1 at h h1
    cases hr : (if w1.overflows then np w1 else .ok w1) with
    | error e =>
      rw [hr] at h
      simp only [Except.bind, Except.error.injEq] at h
      subst h
      by_cases hv : w1.overflows
      · rw [if_pos hv] at hr
        exact ⟨w1, h1, hr⟩
      · rw [if_neg hv] at hr
        cases hr
    | ok w3 =>
      rw [hr] at h
      simp only [Except.bind] at h
      have h3 : I w3 := by
        by_cases hv : w1.overflows
        · rw [if_pos hv] at hr
          exact hnp _ _ h1 hr
        · rw [if_neg hv] at hr
          cases hr
          exact h1
      refine ih _ _ ?_ h
      exact hI _ _ (same_core_emit_after _ (same_core_emit w3 _ (by simp)) (by simp)) h3

theorem Pango.print_header_unknown_pango (I : World → Prop) (hI : Stable I) (be : PangoBackend)
    (np : World → Except Err World) (hnp : ∀ w w2, I w → np w = .ok w2 → I w2)
    (w : World) (c0 : Nat) (h0 : I w)
    (h : Pango.print_header be np w = .error (Err.unknown_header_item c0)) :
    (∃ fmt, w.options.header_format = some fmt ∧ fmt ≠ [] ∧
      header_expand fmt w.pc.pagenum = .error (Err.unknown_header_item c0)) ∨
    ∃ w1, I w1 ∧ np w1 = .error (Err.unknown_header_item c0) := by
  unfold Pango.print_header at h
  cases hfmt : w.options.header_format with
  | none => rw [hfmt] at h; simp at h
  | some format =>
    rw [hfmt] at h
    simp only at h
    by_cases he : format = []
    · simp [he] at h
    · simp only [he, if_false] at h
      cases hx : header_expand format w.pc.pagenum with
      | error e =>
        rw [hx] at h
        simp only [Except.bind, Except.error.injEq] at h
        subst h
        exact Or.inl ⟨format, rfl, he, hx⟩
      | ok lr =>
        right
        rw [hx] at h
        simp only [Except.bind] at h
        cases hl : Pango.print_text be np lr.1
            { w with pc := { w.pc with x := w.options.margin_left, y := w.options.margin_top } } with
        | error e =>
          rw [hl] at h
          simp only [Except.error.injEq] at h
          subst h
          exact Pango.print_text_lines_unknown I hI np hnp c0 _ _ _
            (hI _ _ (same_core_xy w _ _) h0) hl
        | ok w3 =>
          rw [hl] at h
          simp only at h
          have h3 : I w3 :=
            Pango.print_text_keeps_pango I hI be np hnp _ _ _ (hI _ _ (same_core_xy w _ _) h0) hl
          exact Pango.print_text_lines_unknown I hI np hnp c0 _ _ _
            (hI _ _ (same_core_xy w3 _ _) h3) h

/-- An `unknown header item` error of a page turn of the pangocairo backend
comes from the format in force. -/
theorem Pango.newpage_unknown_pango (be : PangoBackend) (o : Options) :
    ∀ (fuel : Nat) (w : World) (c : Nat), w.options = o →
      Pango.newpage be fuel w = .error (Err.unknown_header_item c) →
      ∃ fmt, o.header_format = some fmt ∧ fmt ≠ [] ∧ items fmt = none := by
  intro fuel
  induction fuel with
  | zero => intro w c _ h; simp [Pango.newpage] at h
  | succ fuel ih =>
    intro w c h0 h
    simp only [Pango.newpage] at h
    change Except.map _ (Pango.print_header be (Pango.newpage be fuel) w.turn) = _ at h
    cases hp : Pango.print_header be (Pango.newpage be fuel) w.turn with
    | ok w3 => rw [hp] at h; simp [Except.map] at h
    | error e =>
      rw [hp] at h
      simp only [Except.map, Except.error.injEq] at h
      subst h
      rcases Pango.print_header_unknown_pango (fun w => w.options = o) (stable_options o) be _
        (Pango.newpage_keeps_pango _ (stable_options o) (turn_options o) be fuel) w.turn c
        (turn_options o w h0) hp with ⟨fmt, hf, hne, hx⟩ | ⟨w1, h1, hx⟩
      · rw [turn_options o w h0] at hf
        exact ⟨fmt, hf, hne, header_expand_unknown hx⟩
      · exact ih w1 c h1 hx

/-! ## The pangocairo backend: lines and pages -/

theorem Pango.header_fits_congr (be : PangoBackend) (w v : World)
    (ho : v.options = w.options) (hp : v.pc.pagenum = w.pc.pagenum)
    (hn : v.pc.numberwidth = w.pc.numberwidth)
    (hf : v.pc.font_height = w.pc.font_height) :
    Pango.header_fits be v = Pango.header_fits be w := by
  unfold Pango.header_fits Pango.one_line World.overflows
  simp only [ho, hp, hn, hf]

theorem Pango.print_number_off_pango (be : PangoBackend) (np : World → Except Err World) (v : World)
    (h : v.options.number_width ≤ 0) : Pango.print_number be np v = .ok v := by
  unfold Pango.print_number
  simp [h]

/-- In the pangocairo backend, with numbering off and a header that is drawn
in place, a line feed returns. -/
theorem Pango.newline_returns_pango (be : PangoBackend) (fuel : Nat) (w : World)
    (hn : w.options.number_width ≤ 0)
    (hh : Pango.header_fits be w.turn = true) :
    ∃ w2, Pango.newline be (fuel + 1) w = .ok w2 := by
  have hplace : ∃ w1, (if w.pc.linenum = 0 then Pango.newpage be (fuel + 1) w
       else if w.down.overflows then Pango.newpage be (fuel + 1) w.down else .ok w.down)
        = .ok w1 ∧ w1.options = w.options := by
    by_cases hz : w.pc.linenum = 0
    · obtain ⟨w1, h1, c1, -⟩ := Pango.newpage_fits_pango be fuel w hh
      exact ⟨w1, by simp only [hz, if_true]; exact h1, c1.1.trans (turn_rest w).1⟩
    · by_cases hv : w.down.overflows
      · obtain ⟨w1, h1, c1, -⟩ := Pango.newpage_fits_pango be fuel w.down
          ((Pango.header_fits_congr be w.turn w.down.turn
            ((turn_rest w.down).1.trans (turn_rest w).1.symm)
            (by rw [turn_pagenum, turn_pagenum]; rfl)
            ((turn_rest w.down).2.2.2.1.trans (turn_rest w).2.2.2.1.symm)
            ((turn_rest w.down).2.2.1.trans (turn_rest w).2.2.1.symm)).trans hh)
        exact ⟨w1, by simp only [hz, if_false, hv, if_true]; exact h1,
          c1.1.trans (turn_rest w.down).1⟩
      · exact ⟨w.down, by simp only [hz, if_false, hv], rfl⟩
  obtain ⟨w1, h1, ho⟩ := hplace
  have h3 : Pango.print_number be (Pango.newpage be (fuel + 1)) w1.bump = .ok w1.bump :=
    Pango.print_number_off_pango be _ w1.bump (by show w1.options.number_width ≤ 0; rw [ho]; exact hn)
  refine ⟨{ w1.bump with pc := { w1.bump.pc with
      x := w1.bump.options.margin_left + w1.bump.pc.numberwidth } }, ?_⟩
  unfold Pango.newline
  change Except.bind (if w.pc.linenum = 0 then Pango.newpage be (fuel + 1) w
       else if w.down.overflows then Pango.newpage be (fuel + 1) w.down else .ok w.down) _ = _
  rw [h1]
  simp only [Except.bind]
  change Except.map _ (Pango.print_number be (Pango.newpage be (fuel + 1)) w1.bump) = _
  rw [h3]
  rfl

theorem Pango.command_start_ok_pango {be : PangoBackend} {outfile : List Nat} {w w2 : World}
    (h : Pango.command_start be outfile w = .ok w2) :
    w2.options = w.options ∧ w2.pc.pagenum = 0 ∧ w2.pc.linenum = 0 ∧ w2.cr.ops = [] ∧
    w2.pc.numberwidth =
      if w.options.number_width > 0 then
        w.options.number_width *
          (be.width w.options.font_name w.options.font_size (ascii "MW") / 2) + LINENR_MARGIN
      else 0 := by
  unfold Pango.command_start at h
  cases hk : (if endswith outfile (ascii ".ps") then Except.ok Surface.ps
      else if endswith outfile (ascii ".pdf") then Except.ok Surface.pdf
      else Except.error Err.file_type : Except Err Surface) with
  | error e => rw [hk] at h; simp [Except.map] at h
  | ok kind =>
    rw [hk] at h
    simp only [Except.map, Except.ok.injEq] at h
    subst h
    refine ⟨rfl, ?_, ?_, rfl, ?_⟩ <;>
      by_cases hn : w.options.number_width > 0 <;> simp [hn]

theorem Pango.command_line_linenum (be : PangoBackend) (fuel : Nat) (text : List Nat)
    (w w2 : World) (h : Pango.command_line be fuel text w = .ok w2) :
    w2.pc.linenum = w.pc.linenum + 1 := by
  unfold Pango.command_line at h
  cases h1 : Pango.newline be fuel w with
  | error e => rw [h1] at h; simp [Except.bind] at h
  | ok w1 =>
    rw [h1] at h
    simp only [Except.bind] at h
    have e1 := Pango.newline_linenum_pango be fuel w w1 h1
    have e2 : w2.pc.linenum = w1.pc.linenum :=
      Pango.print_text_keeps_pango _ (stable_linenum _) be _
        (Pango.newpage_keeps_pango _ (stable_linenum _) (turn_linenum _) be fuel) _ _ _ rfl h
    rw [e2, e1]

/-- Effect of a stream of LINE directives of the pangocairo backend on the
line counter. -/
theorem Pango.print_lines_only (be : PangoBackend) (outfile : List Nat) (fuel : Nat) :
    ∀ (ds : List Pango.Directive) (w w2 : World), Pango.lines_only ds = true →
      Pango.print be outfile fuel ds w = .ok w2 →
      w2.pc.linenum = w.pc.linenum + ds.length := by
  intro ds
  induction ds with
  | nil =>
    intro w w2 _ h
    simp only [Pango.print, Except.ok.injEq] at h
    subst h
    simp
  | cons d ds ih =>
    intro w w2 hds h
    simp only [Pango.lines_only, List.all_cons, Bool.and_eq_true] at hds
    obtain ⟨hd, hds⟩ := hds
    simp only [Pango.print] at h
    cases he : Pango.exec be outfile fuel d w with
    | error e => rw [he] at h; simp [Except.bind] at h
    | ok w1 =>
      rw [he] at h
      simp only [Except.bind] at h
      have hl := ih w1 w2 (by simpa [Pango.lines_only] using hds) h
      cases d with
      | LINE text =>
        simp only [Pango.exec] at he
        rw [hl, Pango.command_line_linenum be fuel text w w1 he]
        simp only [List.length_cons]
        push_cast
        ring
      | _ => simp at hd

/-! ## Header template: the claims -/

/-- Supporting fact for C1: for a format whose items are well formed, that has
one `%=` and whose texts stay inside the arrays, the left text is the text of
the items before the `%=` and the right text is the text of the items behind it. -/
theorem header_expand_single_split (p : Int) (fmt : List Nat) (a c : List Item)
    (hi : items fmt = some (a ++ Item.split :: c))
    (ha : Item.split ∉ a) (hc : Item.split ∉ c)
    (hcap : (render p (a ++ Item.split :: c)).length < HEADER_BUFSIZE) :
    header_expand fmt p = .ok (render p a, render p c) := by
  rw [header_expand_items p fmt _ hi hcap, before_first_split_append a c ha,
    after_last_split_append a c hc]

/-- Supporting fact for C1: a format without `%=` whose text stays inside the
array goes to the left text as a whole, and the right text is empty. -/
theorem header_expand_no_split (p : Int) (fmt : List Nat) (its : List Item)
    (hi : items fmt = some its) (hs : Item.split ∉ its)
    (hcap : (render p its).length < HEADER_BUFSIZE) :
    header_expand fmt p = .ok (render p its, []) := by
  rw [header_expand_items p fmt _ hi hcap]
  have h1 : before_first_split its = its := by
    unfold before_first_split
    rw [List.takeWhile_eq_self_iff]
    intro x hx
    simp only [ne_eq, decide_not, Bool.not_eq_true', decide_eq_false_iff_not]
    rintro rfl
    exact hs hx
  have h2 : ∀ l : List Item, Item.split ∉ l → after_last_split l = [] := by
    intro l
    induction l with
    | nil => intro _; rfl
    | cons x xs ih =>
      intro h
      have hx : x ≠ Item.split := fun e => h (by simp [e])
      have hxs : Item.split ∉ xs := fun e => h (by simp [e])
      simp [after_last_split, hx, hxs]
  rw [h1, h2 its hs, render_nil]

/-- C1: the format "left %N %= right %N" at page number 3 gives the left text
"left 3 " and the right text " right 3", as the claim says; but a format of
4096 letters `a`, in which no `%` occurs, is not copied to the left text: the
loop of `print_header` writes past the 1024 bytes of the array `left`, and a
run of either backend that reaches the first page turn with this header stops
there. -/
theorem header_expand_overflows_left_array :
    header_expand (ascii "left %N %= right %N") 3 = .ok (ascii "left 3 ", ascii " right 3") ∧
    items (List.replicate 4096 97) = some (List.replicate 4096 (Item.lit 97)) ∧
    header_expand (List.replicate 4096 97) 1 = .error Err.buffer_overflow ∧
    print mono (ascii "out.pdf") 1
      [.FONT (ascii "Mono") 10, .HEADER (List.replicate 4096 97) 0, .START, .LINE] World.init
      = .error Err.buffer_overflow ∧
    Pango.print pango_mono (ascii "out.pdf") 1
      [.FONT (ascii "Mono") 10, .HEADER (List.replicate 4096 97) 0, .START, .LINE []]
      World.init
      = .error Err.buffer_overflow := by
  refine ⟨by decide!, by decide!, by decide!, by decide!, by decide!⟩

/-- C3, as stated, fails: the format that consists of the byte 0x80 has no `%`
at all, and yet `print_header` does not complete: `print_text` stops
with `invalid utf8` on the left text. -/
theorem print_header_fails_without_bad_item :
    items [0x80] = some [Item.lit 0x80] ∧
    print_header mono (newpage mono 1)
      { World.init with options := { sample_options with header_format := some [0x80] } }
      = .error Err.invalid_utf8 := by
  refine ⟨by decide, by decide!⟩

/-- C3, amended: with no format or an empty one `print_header`, in either
backend, returns at once and changes nothing.  With a format whose texts stay
inside the arrays it fails with `unknown header item` if and only if the
format is not empty and some `%` in it, read item by item from the left, is
not followed by `%`, `N` or `=`; for every other such format the loop over
the format completes and yields the two texts.  Drawing them can still fail
or go on for ever. -/
theorem print_header_unknown_item (be : Backend) (pbe : PangoBackend) (fuel : Nat)
    (w : World) :
    ((w.options.header_format = none ∨ w.options.header_format = some []) →
      print_header be (newpage be fuel) w = .ok w ∧
      Pango.print_header pbe (Pango.newpage pbe fuel) w = .ok w) ∧
    ∀ fmt, w.options.header_format = some fmt →
      header_expand fmt w.pc.pagenum ≠ .error Err.buffer_overflow →
      ((∃ c, print_header be (newpage be fuel) w = .error (Err.unknown_header_item c)) ↔
        (fmt ≠ [] ∧ items fmt = none)) ∧
      ((∃ c, Pango.print_header pbe (Pango.newpage pbe fuel) w
          = .error (Err.unknown_header_item c)) ↔
        (fmt ≠ [] ∧ items fmt = none)) ∧
      (items fmt ≠ none → ∃ lr, header_expand fmt w.pc.pagenum = .ok lr) := by
  refine ⟨?_, ?_⟩
  · rintro (h | h) <;> simp [print_header, Pango.print_header, h]
  · intro fmt hf hcap
    refine ⟨⟨?_, ?_⟩, ⟨?_, ?_⟩, fun hgood => header_expand_of_good hgood hcap⟩
    · rintro ⟨c, h⟩
      rcases print_header_unknown (fun v => v.options = w.options) (stable_options _) be _
        (newpage_keeps _ (stable_options _) (turn_options _) be fuel) w c rfl h with
        ⟨fmt2, hf2, hne, hx⟩ | ⟨w1, h1, hx⟩
      · rw [hf] at hf2
        cases hf2
        exact ⟨hne, header_expand_unknown hx⟩
      · obtain ⟨fmt2, hf2, hne, hbad⟩ := newpage_unknown be w.options fuel w1 c h1 hx
        rw [hf] at hf2
        cases hf2
        exact ⟨hne, hbad⟩
    · rintro ⟨hne, hbad⟩
      obtain ⟨c, hc⟩ := header_expand_of_bad hbad hcap
      refine ⟨c, ?_⟩
      simp [print_header, hf, hne, hc, Except.bind]
    · rintro ⟨c, h⟩
      rcases Pango.print_header_unknown_pango (fun v => v.options = w.options) (stable_options _) pbe _
        (Pango.newpage_keeps_pango _ (stable_options _) (turn_options _) pbe fuel) w c rfl h with
        ⟨fmt2, hf2, hne, hx⟩ | ⟨w1, h1, hx⟩
      · rw [hf] at hf2
        cases hf2
        exact ⟨hne, header_expand_unknown hx⟩
      · obtain ⟨fmt2, hf2, hne, hbad⟩ := Pango.newpage_unknown_pango pbe w.options fuel w1 c h1 hx
        rw [hf] at hf2
        cases hf2
        exact ⟨hne, hbad⟩
    · rintro ⟨hne, hbad⟩
      obtain ⟨c, hc⟩ := header_expand_of_bad hbad hcap
      refine ⟨c, ?_⟩
      simp [Pango.print_header, hf, hne, hc, Except.bind]

/-- Witness of C3, amended: the format "a%x" fails with `unknown header item`
for the byte `x` in both backends, the format "a%N" is read to its end, and
without a format `print_header` returns the state it was given. -/
theorem print_header_unknown_item_witness :
    (((∃ c, print_header mono (newpage mono 1)
        { World.init with options := { sample_options with header_format := some (ascii "a%x") } }
        = .error (Err.unknown_header_item c)) ↔
      (ascii "a%x" ≠ [] ∧ items (ascii "a%x") = none)) ∧
     ((∃ c, Pango.print_header pango_mono (Pango.newpage pango_mono 1)
        { World.init with options := { sample_options with header_format := some (ascii "a%x") } }
        = .error (Err.unknown_header_item c)) ↔
      (ascii "a%x" ≠ [] ∧ items (ascii "a%x") = none)) ∧
    (items (ascii "a%x") ≠ none → ∃ lr, header_expand (ascii "a%x") 0 = .ok lr)) ∧
    print_header mono (newpage mono 1)
        { World.init with options := { sample_options with header_format := some (ascii "a%x") } }
        = .error (Err.unknown_header_item 120) ∧
    Pango.print_header pango_mono (Pango.newpage pango_mono 1)
        { World.init with options := { sample_options with header_format := some (ascii "a%x") } }
        = .error (Err.unknown_header_item 120) ∧
    (∃ lr, header_expand (ascii "a%N") 0 = .ok lr) ∧
    (print_header mono (newpage mono 1) { World.init with options := sample_options }
      = .ok { World.init with options := sample_options } ∧
     Pango.print_header pango_mono (Pango.newpage pango_mono 1)
        { World.init with options := sample_options }
      = .ok { World.init with options := sample_options }) :=
  ⟨(print_header_unknown_item mono pango_mono 1
    { World.init with options := { sample_options with header_format := some (ascii "a%x") } }).2
    (ascii "a%x") rfl (by decide),
   by decide!,
   by decide!,
   ((print_header_unknown_item mono pango_mono 1
    { World.init with options := { sample_options with header_format := some (ascii "a%N") } }).2
    (ascii "a%N") rfl (by decide)).2.2 (by decide),
   (print_header_unknown_item mono pango_mono 1 { World.init with options := sample_options }).1
    (Or.inl rfl)⟩

/-- A run that is not an error has a final state. -/
theorem exists_ok {x : Except Err World} (h : x.toBool = true) : ∃ w, x = .ok w := by
  cases x with
  | error e => simp [Except.toBool] at h
  | ok w => exact ⟨w, rfl⟩

/-! ## Pages and lines: the claims -/

/-- C4, as stated, fails: the stream START, END, and the stream START,
TEXT "ab", END, emit one page each while `pc.pagenum` ends at 0. -/
theorem pages_emitted_without_page_turn :
    (print mono (ascii "out.pdf") 1 [.START, .END]
      { World.init with options := { World.init.options with
          paper_width := 200, paper_height := 200, font_name := some (ascii "Mono") } }).map
      (fun w => (w.flushes, w.pc.pagenum)) = .ok (1, 0) ∧
    (print mono (ascii "out.pdf") 1 [.START, .TEXT (ascii "ab"), .END]
      { World.init with options := { World.init.options with
          paper_width := 200, paper_height := 200, font_name := some (ascii "Mono") } }).map
      (fun w => (w.flushes, w.pc.pagenum)) = .ok (1, 0) := by
  refine ⟨by decide!, by decide!⟩

/-- C4, amended: for a stream START, LINE and TEXT directives, END that runs
to its end, the number of pages emitted is the final page counter if that is
at least 1, which is so whenever the stream has a LINE directive, and it is
one page if the page counter is still 0. -/
theorem pages_emitted (be : Backend) (outfile : List Nat) (fuel : Nat)
    (ds : List Directive) (w0 w2 : World) (hds : lines_and_texts ds = true)
    (h : print be outfile fuel (Directive.START :: (ds ++ [Directive.END])) w0 = .ok w2) :
    (w2.flushes : Int) = max w2.pc.pagenum 1 ∧
    (Directive.LINE ∈ ds → (w2.flushes : Int) = w2.pc.pagenum) := by
  simp only [print, exec] at h
  cases hs : command_start be outfile w0 with
  | error e => rw [hs] at h; simp [Except.bind] at h
  | ok w1 =>
    rw [hs] at h
    simp only [Except.bind] at h
    rw [print_append] at h
    cases hr : print be outfile fuel ds w1 with
    | error e => rw [hr] at h; simp [Except.bind] at h
    | ok w3 =>
      rw [hr] at h
      simp only [Except.bind, print, exec, Except.ok.injEq] at h
      subst h
      obtain ⟨-, hp0, hl0, hops, -⟩ := command_start_ok hs
      have hc1 : pages_counted w1 := by
        unfold pages_counted World.flushes
        rw [hp0, hops]
        simp
      obtain ⟨hpc, -, -, hline⟩ := (print_lines_and_texts be outfile fuel ds w1 w3 hds hr).2
        hc1 (fun hz => absurd hl0 hz)
      have hf : (command_end w3).flushes = w3.flushes + 1 := by
        unfold command_end
        exact flushes_emit_show_page w3
      have hpn : (command_end w3).pc.pagenum = w3.pc.pagenum := rfl
      rw [hf, hpn]
      obtain ⟨hnn, hfl⟩ := hpc
      push_cast
      rw [hfl]
      refine ⟨?_, fun hm => ?_⟩
      · rcases le_or_lt 1 w3.pc.pagenum with h1 | h1
        · rw [max_eq_left (by omega), max_eq_left h1]; ring
        · rw [max_eq_right (by omega), max_eq_right (by omega)]; ring
      · have h1 := hline hm
        rw [max_eq_left (by omega)]; ring

/-- Witness of C4, amended: START, five LINE directives with a TEXT, END on
a page of 200 by 40 with lines of height 12 runs to its end, emits three pages
and ends with page counter 3. -/
theorem pages_emitted_witness :
    ∃ w2,
      print mono (ascii "out.pdf") 1
        [.START, .LINE, .TEXT (ascii "ab"), .LINE, .LINE, .LINE, .LINE, .END]
        { World.init with options := { World.init.options with
            paper_width := 200, paper_height := 40, font_name := some (ascii "Mono") } }
        = .ok w2 ∧
      ((w2.flushes : Int) = max w2.pc.pagenum 1 ∧
        (Directive.LINE ∈ [Directive.LINE, .TEXT (ascii "ab"), .LINE, .LINE, .LINE, .LINE] →
          (w2.flushes : Int) = w2.pc.pagenum)) ∧
      (print mono (ascii "out.pdf") 1
        [.START, .LINE, .TEXT (ascii "ab"), .LINE, .LINE, .LINE, .LINE, .END]
        { World.init with options := { World.init.options with
            paper_width := 200, paper_height := 40, font_name := some (ascii "Mono") } }).map
        (fun w => (w.flushes, w.pc.pagenum)) = .ok (3, 3) :=
  (exists_ok (x := print mono (ascii "out.pdf") 1
        [.START, .LINE, .TEXT (ascii "ab"), .LINE, .LINE, .LINE, .LINE, .END]
        { World.init with options := { World.init.options with
            paper_width := 200, paper_height := 40, font_name := some (ascii "Mono") } })
      (by decide!)).elim
    fun w2 h => ⟨w2, h,
      pages_emitted mono (ascii "out.pdf") 1
        [.LINE, .TEXT (ascii "ab"), .LINE, .LINE, .LINE, .LINE] _ w2 (by decide) h,
      by decide!⟩

/-- With numbering off and a header that is drawn without wrapping, a line
feed returns. -/
theorem newline_returns (be : Backend) (fuel : Nat) (w : World)
    (hn : w.options.number_width ≤ 0)
    (hh : header_fits be w.options (w.pc.pagenum + 1) = true) :
    ∃ w2, newline be (fuel + 1) w = .ok w2 := by
  have hplace : ∃ w1, (if w.pc.linenum = 0 then newpage be (fuel + 1) w
       else if w.down.overflows then newpage be (fuel + 1) w.down else .ok w.down) = .ok w1 ∧
       w1.options = w.options := by
    by_cases hz : w.pc.linenum = 0
    · obtain ⟨w1, h1, c1, -⟩ := newpage_fits be fuel w hh
      exact ⟨w1, by simp only [hz, if_true]; exact h1, c1.1.trans (turn_rest w).1⟩
    · by_cases hv : w.down.overflows
      · obtain ⟨w1, h1, c1, -⟩ := newpage_fits be fuel w.down hh
        exact ⟨w1, by simp only [hz, if_false, hv, if_true]; exact h1,
          c1.1.trans (turn_rest w.down).1⟩
      · exact ⟨w.down, by simp only [hz, if_false, hv], rfl⟩
  obtain ⟨w1, h1, ho⟩ := hplace
  have h3 : print_number be (newpage be (fuel + 1)) w1.bump = .ok w1.bump :=
    print_number_off be _ w1.bump (by show w1.options.number_width ≤ 0; rw [ho]; exact hn)
  refine ⟨{ w1.bump with pc := { w1.bump.pc with
      x := w1.bump.options.margin_left + w1.bump.pc.numberwidth } }, ?_⟩
  unfold newline
  change Except.bind (if w.pc.linenum = 0 then newpage be (fuel + 1) w
       else if w.down.overflows then newpage be (fuel + 1) w.down else .ok w.down) _ = _
  rw [h1]
  simp only [Except.bind]
  change Except.map _ (print_number be (newpage be (fuel + 1)) w1.bump) = _
  rw [h3]
  rfl

/-- C5: START sets the line counter to 0, every LINE directive that returns
has raised it by exactly 1, with or without a page turn, TEXT (`print_text`)
and a page turn leave it alone; so after START and a stream of LINE and TEXT
directives the line counter is the number of LINE directives of the stream.
A LINE directive does return when numbering is off and the header of the
next page is drawn without wrapping.  The first six parts are the cairo
backend, the last six the pangocairo backend, whose LINE carries the text. -/
theorem linenum_counts_lines (be : Backend) (pbe : PangoBackend) (outfile : List Nat)
    (fuel : Nat) :
    ((∀ w w2, command_start be outfile w = .ok w2 → w2.pc.linenum = 0) ∧
     (∀ w w2, newline be fuel w = .ok w2 → w2.pc.linenum = w.pc.linenum + 1) ∧
     (∀ text hi w w2, print_text be (newpage be fuel) text hi w = .ok w2 →
       w2.pc.linenum = w.pc.linenum) ∧
     (∀ w w2, newpage be fuel w = .ok w2 → w2.pc.linenum = w.pc.linenum) ∧
     (∀ ds w0 w2, lines_and_texts ds = true →
       print be outfile fuel (Directive.START :: ds) w0 = .ok w2 →
       w2.pc.linenum = ds.count Directive.LINE) ∧
     (∀ w, w.options.number_width ≤ 0 →
       header_fits be w.options (w.pc.pagenum + 1) = true →
       ∃ w2, newline be (fuel + 1) w = .ok w2 ∧ w2.pc.linenum = w.pc.linenum + 1)) ∧
    ((∀ w w2, Pango.command_start pbe outfile w = .ok w2 → w2.pc.linenum = 0) ∧
     (∀ w w2, Pango.newline pbe fuel w = .ok w2 → w2.pc.linenum = w.pc.linenum + 1) ∧
     (∀ text w w2, Pango.print_text pbe (Pango.newpage pbe fuel) text w = .ok w2 →
       w2.pc.linenum = w.pc.linenum) ∧
     (∀ w w2, Pango.newpage pbe fuel w = .ok w2 → w2.pc.linenum = w.pc.linenum) ∧
     (∀ ds w0 w2, Pango.lines_only ds = true →
       Pango.print pbe outfile fuel (Pango.Directive.START :: ds) w0 = .ok w2 →
       w2.pc.linenum = ds.length) ∧
     (∀ w, w.options.number_width ≤ 0 → Pango.header_fits pbe w.turn = true →
       ∃ w2, Pango.newline pbe (fuel + 1) w = .ok w2 ∧
         w2.pc.linenum = w.pc.linenum + 1)) := by
  refine ⟨⟨fun w w2 h => (command_start_ok h).2.2.1, newline_linenum be fuel, ?_, ?_, ?_, ?_⟩,
    ⟨fun w w2 h => (Pango.command_start_ok_pango h).2.2.1, Pango.newline_linenum_pango pbe fuel,
      ?_, ?_, ?_, ?_⟩⟩
  · intro text hi w w2 h
    exact print_text_keeps _ (stable_linenum _) be _
      (newpage_keeps _ (stable_linenum _) (turn_linenum _) be fuel) _ _ _ _ rfl h
  · intro w w2 h
    exact newpage_keeps _ (stable_linenum _) (turn_linenum _) be fuel _ _ rfl h
  · intro ds w0 w2 hds h
    simp only [print, exec] at h
    cases hs : command_start be outfile w0 with
    | error e => rw [hs] at h; simp [Except.bind] at h
    | ok w1 =>
      rw [hs] at h
      simp only [Except.bind] at h
      rw [(print_lines_and_texts be outfile fuel ds w1 w2 hds h).1, (command_start_ok hs).2.2.1]
      simp
  · intro w hn hh
    obtain ⟨w2, h2⟩ := newline_returns be fuel w hn hh
    exact ⟨w2, h2, newline_linenum be (fuel + 1) w w2 h2⟩
  · intro text w w2 h
    exact Pango.print_text_keeps_pango _ (stable_linenum _) pbe _
      (Pango.newpage_keeps_pango _ (stable_linenum _) (turn_linenum _) pbe fuel) _ _ _ rfl h
  · intro w w2 h
    exact Pango.newpage_keeps_pango _ (stable_linenum _) (turn_linenum _) pbe fuel _ _ rfl h
  · intro ds w0 w2 hds h
    simp only [Pango.print, Pango.exec] at h
    cases hs : Pango.command_start pbe outfile w0 with
    | error e => rw [hs] at h; simp [Except.bind] at h
    | ok w1 =>
      rw [hs] at h
      simp only [Except.bind] at h
      rw [Pango.print_lines_only pbe outfile fuel ds w1 w2 hds h, (Pango.command_start_ok_pango hs).2.2.1]
      simp
  · intro w hn hh
    obtain ⟨w2, h2⟩ := Pango.newline_returns_pango pbe fuel w hn hh
    exact ⟨w2, h2, Pango.newline_linenum_pango pbe (fuel + 1) w w2 h2⟩

/-- Witness of C5: on a page of 200 by 40, START and five LINE directives,
two of which turn the page, run to their end in both backends and leave the
line counter at 5 and the page counter at 3; and each step of the claim at a
state in the middle of a document. -/
theorem linenum_counts_lines_witness :
    (∃ w2,
      print mono (ascii "out.pdf") 1
        [.START, .LINE, .TEXT (ascii "ab"), .LINE, .LINE, .LINE, .LINE]
        { World.init with options := { World.init.options with
            paper_width := 200, paper_height := 40, font_name := some (ascii "Mono") } }
        = .ok w2 ∧
      w2.pc.linenum =
        [Directive.LINE, .TEXT (ascii "ab"), .LINE, .LINE, .LINE, .LINE].count Directive.LINE ∧
      (print mono (ascii "out.pdf") 1
        [.START, .LINE, .TEXT (ascii "ab"), .LINE, .LINE, .LINE, .LINE]
        { World.init with options := { World.init.options with
            paper_width := 200, paper_height := 40, font_name := some (ascii "Mono") } }).map
        (fun w => (w.pc.linenum, w.pc.pagenum)) = .ok (5, 3)) ∧
    (∃ w2, command_start mono (ascii "out.pdf") sample_open_page = .ok w2 ∧
      w2.pc.linenum = 0) ∧
    (∃ w2, newline mono 1 sample_open_page = .ok w2 ∧ w2.pc.linenum = 4 + 1) ∧
    (∃ w2, print_text mono (newpage mono 1) (ascii "ab") sample_open_page.pc.hi
        sample_open_page = .ok w2 ∧ w2.pc.linenum = 4) ∧
    (∃ w2, newpage mono 1 sample_open_page = .ok w2 ∧ w2.pc.linenum = 4) ∧
    (∃ w2, newline mono 1 { World.init with options := sample_options } = .ok w2 ∧
      w2.pc.linenum = 0 + 1) ∧
    (∃ w2,
      Pango.print pango_mono (ascii "out.pdf") 1
        [.START, .LINE (ascii "ab"), .LINE [], .LINE [], .LINE [], .LINE []]
        { World.init with options := { World.init.options with
            paper_width := 200, paper_height := 40, font_name := some (ascii "Mono") } }
        = .ok w2 ∧
      w2.pc.linenum = ([.LINE (ascii "ab"), .LINE [], .LINE [], .LINE [], .LINE []] :
        List Pango.Directive).length ∧
      (Pango.print pango_mono (ascii "out.pdf") 1
        [.START, .LINE (ascii "ab"), .LINE [], .LINE [], .LINE [], .LINE []]
        { World.init with options := { World.init.options with
            paper_width := 200, paper_height := 40, font_name := some (ascii "Mono") } }).map
        (fun w => (w.pc.linenum, w.pc.pagenum)) = .ok (5, 3)) ∧
    (∃ w2, Pango.command_start pango_mono (ascii "out.pdf") sample_open_page = .ok w2 ∧
      w2.pc.linenum = 0) ∧
    (∃ w2, Pango.newline pango_mono 1 sample_open_page = .ok w2 ∧ w2.pc.linenum = 4 + 1) ∧
    (∃ w2, Pango.print_text pango_mono (Pango.newpage pango_mono 1) (ascii "ab")
        sample_open_page = .ok w2 ∧ w2.pc.linenum = 4) ∧
    (∃ w2, Pango.newpage pango_mono 1 sample_open_page = .ok w2 ∧ w2.pc.linenum = 4) ∧
    (∃ w2, Pango.newline pango_mono 1 { World.init with options := sample_options } = .ok w2 ∧
      w2.pc.linenum = 0 + 1) :=
  ⟨(exists_ok (x := print mono (ascii "out.pdf") 1
        [.START, .LINE, .TEXT (ascii "ab"), .LINE, .LINE, .LINE, .LINE]
        { World.init with options := { World.init.options with
            paper_width := 200, paper_height := 40, font_name := some (ascii "Mono") } })
      (by decide!)).elim
    fun w2 h => ⟨w2, h,
      (linenum_counts_lines mono pango_mono (ascii "out.pdf") 1).1.2.2.2.2.1
        [.LINE, .TEXT (ascii "ab"), .LINE, .LINE, .LINE, .LINE] _ w2 (by decide) h,
      by decide!⟩,
   (exists_ok (x := command_start mono (ascii "out.pdf") sample_open_page) (by decide!)).elim
    fun w2 h => ⟨w2, h, (linenum_counts_lines mono pango_mono (ascii "out.pdf") 1).1.1 _ w2 h⟩,
   (exists_ok (x := newline mono 1 sample_open_page) (by decide!)).elim
    fun w2 h => ⟨w2, h, (linenum_counts_lines mono pango_mono (ascii "out.pdf") 1).1.2.1 _ w2 h⟩,
   (exists_ok (x := print_text mono (newpage mono 1) (ascii "ab") sample_open_page.pc.hi
        sample_open_page) (by decide!)).elim
    fun w2 h => ⟨w2, h,
      (linenum_counts_lines mono pango_mono (ascii "out.pdf") 1).1.2.2.1 _ _ _ w2 h⟩,
   (exists_ok (x := newpage mono 1 sample_open_page) (by decide!)).elim
    fun w2 h => ⟨w2, h,
      (linenum_counts_lines mono pango_mono (ascii "out.pdf") 1).1.2.2.2.1 _ w2 h⟩,
   (linenum_counts_lines mono pango_mono (ascii "out.pdf") 0).1.2.2.2.2.2
      { World.init with options := sample_options } (by decide) (by decide!),
   (exists_ok (x := Pango.print pango_mono (ascii "out.pdf") 1
        [.START, .LINE (ascii "ab"), .LINE [], .LINE [], .LINE [], .LINE []]
        { World.init with options := { World.init.options with
            paper_width := 200, paper_height := 40, font_name := some (ascii "Mono") } })
      (by decide!)).elim
    fun w2 h => ⟨w2, h,
      (linenum_counts_lines mono pango_mono (ascii "out.pdf") 1).2.2.2.2.2.1
        [.LINE (ascii "ab"), .LINE [], .LINE [], .LINE [], .LINE []] _ w2 (by decide) h,
      by decide!⟩,
   (exists_ok (x := Pango.command_start pango_mono (ascii "out.pdf") sample_open_page)
      (by decide!)).elim
    fun w2 h => ⟨w2, h, (linenum_counts_lines mono pango_mono (ascii "out.pdf") 1).2.1 _ w2 h⟩,
   (exists_ok (x := Pango.newline pango_mono 1 sample_open_page) (by decide!)).elim
    fun w2 h => ⟨w2, h, (linenum_counts_lines mono pango_mono (ascii "out.pdf") 1).2.2.1 _ w2 h⟩,
   (exists_ok (x := Pango.print_text pango_mono (Pango.newpage pango_mono 1) (ascii "ab")
        sample_open_page) (by decide!)).elim
    fun w2 h => ⟨w2, h,
      (linenum_counts_lines mono pango_mono (ascii "out.pdf") 1).2.2.2.1 _ _ w2 h⟩,
   (exists_ok (x := Pango.newpage pango_mono 1 sample_open_page) (by decide!)).elim
    fun w2 h => ⟨w2, h,
      (linenum_counts_lines mono pango_mono (ascii "out.pdf") 1).2.2.2.2.1 _ w2 h⟩,
   (linenum_counts_lines mono pango_mono (ascii "out.pdf") 0).2.2.2.2.2.2
      { World.init with options := sample_options } (by decide) (by decide!)⟩

/-! ## Page turn and line feed: the claims -/

theorem stable_layout (w : World) :
    Stable (fun v => v.options = w.options ∧ v.pc.numberwidth = w.pc.numberwidth ∧
      v.pc.font_height = w.pc.font_height) := by
  intro a b h h0
  exact ⟨h.1.trans h0.1, h.2.2.2.2.2.1.trans h0.2.1, h.2.2.2.1.trans h0.2.2⟩

theorem turn_layout (w : World) (v : World)
    (h : v.options = w.options ∧ v.pc.numberwidth = w.pc.numberwidth ∧
      v.pc.font_height = w.pc.font_height) :
    v.turn.options = w.options ∧ v.turn.pc.numberwidth = w.pc.numberwidth ∧
      v.turn.pc.font_height = w.pc.font_height := by
  obtain ⟨a, -, b, c, -⟩ := turn_rest v
  exact ⟨a.trans h.1, c.trans h.2.1, b.trans h.2.2⟩

/-- Where a page turn leaves the cursor. -/
theorem newpage_cursor (be : Backend) (fuel : Nat) (w w2 : World)
    (h : newpage be fuel w = .ok w2) :
    w2.pc.x = w.options.margin_left + w.pc.numberwidth ∧
    w2.pc.y = w.options.margin_top + w.pc.font_height * (int_add 1 w.options.header_extraline) := by
  cases fuel with
  | zero => simp [newpage] at h
  | succ fuel =>
    simp only [newpage] at h
    change Except.map _ (print_header be (newpage be fuel) w.turn) = _ at h
    cases hp : print_header be (newpage be fuel) w.turn with
    | error e => rw [hp] at h; simp [Except.map] at h
    | ok w3 =>
      rw [hp] at h
      simp only [Except.map, Except.ok.injEq] at h
      subst h
      obtain ⟨a, b, c⟩ := print_header_keeps _ (stable_layout w) be _
        (newpage_keeps _ (stable_layout w) (turn_layout w) be fuel) _ _
        (turn_layout w w ⟨rfl, rfl, rfl⟩) hp
      simp [a, b, c]

/-- Where a page turn of the pangocairo backend leaves the cursor. -/
theorem Pango.newpage_cursor_pango (be : PangoBackend) (fuel : Nat) (w w2 : World)
    (h : Pango.newpage be fuel w = .ok w2) :
    w2.pc.x = w.options.margin_left + w.pc.numberwidth ∧
    w2.pc.y = w.options.margin_top + w.pc.font_height * (int_add 1 w.options.header_extraline) := by
  cases fuel with
  | zero => simp [Pango.newpage] at h
  | succ fuel =>
    simp only [Pango.newpage] at h
    change Except.map _ (Pango.print_header be (Pango.newpage be fuel) w.turn) = _ at h
    cases hp : Pango.print_header be (Pango.newpage be fuel) w.turn with
    | error e => rw [hp] at h; simp [Except.map] at h
    | ok w3 =>
      rw [hp] at h
      simp only [Except.map, Except.ok.injEq] at h
      subst h
      obtain ⟨a, b, c⟩ := Pango.print_header_keeps_pango _ (stable_layout w) be _
        (Pango.newpage_keeps_pango _ (stable_layout w) (turn_layout w) be fuel) _ _
        (turn_layout w w ⟨rfl, rfl, rfl⟩) hp
      simp [a, b, c]

/-- C7, as stated, fails: with a proportional font in which "1" is too wide
for the page and "2" is not, the header of page 1 wraps and turns the page
again; `newpage`, entered with page counter 0 and nothing flushed, returns
with page counter 2 and one page flushed.  And the sum 1 + header_extraline
is an `int`: after HEADER "" 2147483647, with margins of 10 and a line height
of 12, the first page turn leaves y = 10 + 12 * (-2147483648). -/
theorem newpage_turns_twice :
    (print wide_one (ascii "out.pdf") 2
      [.PAPER 20 20, .HEADER (ascii "%N") 0, .FONT (ascii "Sans") 10, .START] World.init).bind
      (fun w => (newpage wide_one 2 w).map
        (fun v => (w.pc.pagenum, w.flushes, v.pc.pagenum, v.flushes, drawn_text v.cr.ops)))
      = .ok (0, 0, 2, 1, [ascii "2", ascii "1"]) ∧
    (print mono (ascii "out.pdf") 2
      [.PAPER 200 200, .MARGIN 10 10 10 10, .HEADER [] 2147483647, .FONT (ascii "Mono") 10,
       .START, .LINE] World.init).map (fun v => (v.pc.pagenum, v.pc.font_height, v.pc.y))
      = .ok (1, 12, -25769803766) := by
  refine ⟨by decide!, by decide!⟩

/-- C7, amended: whenever `newpage` returns, in either backend, the cursor is
at (margin_left + gutter width, margin_top + line height * (1 + header_extraline)),
where 1 + header_extraline is the sum in the machine's `int`, which is the sum
itself as long as header_extraline is below 2147483647;
if the header of the new page is drawn without wrapping and without a page
turn of its own, in particular if there is none, `newpage` does return, the
page counter is one greater than on entry, and the previous page has been
flushed, once, if and only if the page counter was not 0 on entry.  The first
two parts are the cairo backend, the last two the pangocairo backend. -/
theorem newpage_postcondition (be : Backend) (pbe : PangoBackend) (fuel : Nat) (w : World) :
    (∀ w2, newpage be fuel w = .ok w2 →
      w2.pc.x = w.options.margin_left + w.pc.numberwidth ∧
      w2.pc.y = w.options.margin_top + w.pc.font_height * (int_add 1 w.options.header_extraline)) ∧
    (header_fits be w.options (w.pc.pagenum + 1) = true →
      ∃ w2, newpage be (fuel + 1) w = .ok w2 ∧
        w2.pc.pagenum = w.pc.pagenum + 1 ∧
        w2.flushes = w.flushes + (if w.pc.pagenum ≠ 0 then 1 else 0)) ∧
    (∀ w2, Pango.newpage pbe fuel w = .ok w2 →
      w2.pc.x = w.options.margin_left + w.pc.numberwidth ∧
      w2.pc.y = w.options.margin_top + w.pc.font_height * (int_add 1 w.options.header_extraline)) ∧
    (Pango.header_fits pbe w.turn = true →
      ∃ w2, Pango.newpage pbe (fuel + 1) w = .ok w2 ∧
        w2.pc.pagenum = w.pc.pagenum + 1 ∧
        w2.flushes = w.flushes + (if w.pc.pagenum ≠ 0 then 1 else 0)) := by
  refine ⟨fun w2 h => newpage_cursor be fuel w w2 h, fun hh => ?_,
    fun w2 h => Pango.newpage_cursor_pango pbe fuel w w2 h, fun hh => ?_⟩
  · obtain ⟨w2, h2, c2, -, -, -⟩ := newpage_fits be fuel w hh
    refine ⟨w2, h2, ?_, ?_⟩
    · rw [c2.2.1, turn_pagenum]
    · rw [c2.2.2.2.2.2.2.2.2, turn_flushes]
  · obtain ⟨w2, h2, c2, -, -, -⟩ := Pango.newpage_fits_pango pbe fuel w hh
    refine ⟨w2, h2, ?_, ?_⟩
    · rw [c2.2.1, turn_pagenum]
    · rw [c2.2.2.2.2.2.2.2.2, turn_flushes]

/-- Witness of C7, amended: on a page of 200 by 200 with the header
"p%N%=x", a page turn entered with page counter 1 returns, in both backends,
with page counter 2, one more page flushed and the cursor at
(10 + 31, 10 + 12 * (1 + 2)), the sum 1 + 2 taken in `int`. -/
theorem newpage_postcondition_witness :
    (∃ w2,
      newpage mono 1 sample_open_page = .ok w2 ∧
      w2.pc.pagenum = 1 + 1 ∧ w2.flushes = 0 + (if (1 : Int) ≠ 0 then 1 else 0) ∧
      w2.pc.x = 10 + 31 ∧ w2.pc.y = 10 + 12 * (int_add 1 2)) ∧
    (∃ w2,
      Pango.newpage pango_mono 1 sample_open_page = .ok w2 ∧
      w2.pc.pagenum = 1 + 1 ∧ w2.flushes = 0 + (if (1 : Int) ≠ 0 then 1 else 0) ∧
      w2.pc.x = 10 + 31 ∧ w2.pc.y = 10 + 12 * (int_add 1 2)) :=
  ⟨((newpage_postcondition mono pango_mono 0 sample_open_page).2.1 (by decide!)).elim
    fun w2 h => ⟨w2, h.1, h.2.1, h.2.2,
      ((newpage_postcondition mono pango_mono 1 _).1 w2 h.1).1,
      ((newpage_postcondition mono pango_mono 1 _).1 w2 h.1).2⟩,
   ((newpage_postcondition mono pango_mono 0 sample_open_page).2.2.2 (by decide!)).elim
    fun w2 h => ⟨w2, h.1, h.2.1, h.2.2,
      ((newpage_postcondition mono pango_mono 1 _).2.2.1 w2 h.1).1,
      ((newpage_postcondition mono pango_mono 1 _).2.2.1 w2 h.1).2⟩⟩

theorem newline_place_layout (be : Backend) (fuel : Nat) (w w1 : World)
    (h1 : (if w.pc.linenum = 0 then newpage be fuel w
       else if w.down.overflows then newpage be fuel w.down else .ok w.down) = .ok w1) :
    w1.options = w.options ∧ w1.pc.numberwidth = w.pc.numberwidth ∧
      w1.pc.font_height = w.pc.font_height := by
  by_cases hz : w.pc.linenum = 0
  · simp only [hz, if_true] at h1
    exact newpage_keeps _ (stable_layout w) (turn_layout w) be fuel _ _ ⟨rfl, rfl, rfl⟩ h1
  · simp only [hz, if_false] at h1
    by_cases hv : w.down.overflows
    · simp only [hv, if_true] at h1
      exact newpage_keeps _ (stable_layout w) (turn_layout w) be fuel w.down _ ⟨rfl, rfl, rfl⟩ h1
    · simp only [hv, if_false, Except.ok.injEq] at h1
      subst h1
      exact ⟨rfl, rfl, rfl⟩

/-- Where a line feed leaves the horizontal position. -/
theorem newline_x (be : Backend) (fuel : Nat) (w w2 : World)
    (h : newline be fuel w = .ok w2) :
    w2.pc.x = w.options.margin_left + w.pc.numberwidth := by
  obtain ⟨w1, w3, h1, h3, rfl⟩ := newline_ok h
  have e1 := newline_place_layout be fuel w w1 h1
  obtain ⟨a, b, -⟩ := print_number_keeps _ (stable_layout w) be _
      (newpage_keeps _ (stable_layout w) (turn_layout w) be fuel) w1.bump _
      (by exact e1) h3
  simp [a, b]

theorem Pango.newline_place_layout_pango (be : PangoBackend) (fuel : Nat) (w w1 : World)
    (h1 : (if w.pc.linenum = 0 then Pango.newpage be fuel w
       else if w.down.overflows then Pango.newpage be fuel w.down else .ok w.down) = .ok w1) :
    w1.options = w.options ∧ w1.pc.numberwidth = w.pc.numberwidth ∧
      w1.pc.font_height = w.pc.font_height := by
  by_cases hz : w.pc.linenum = 0
  · simp only [hz, if_true] at h1
    exact Pango.newpage_keeps_pango _ (stable_layout w) (turn_layout w) be fuel _ _ ⟨rfl, rfl, rfl⟩ h1
  · simp only [hz, if_false] at h1
    by_cases hv : w.down.overflows
    · simp only [hv, if_true] at h1
      exact Pango.newpage_keeps_pango _ (stable_layout w) (turn_layout w) be fuel w.down _
        ⟨rfl, rfl, rfl⟩ h1
    · simp only [hv, if_false, Except.ok.injEq] at h1
      subst h1
      exact ⟨rfl, rfl, rfl⟩

/-- Where a line feed of the pangocairo backend leaves the horizontal position. -/
theorem Pango.newline_x_pango (be : PangoBackend) (fuel : Nat) (w w2 : World)
    (h : Pango.newline be fuel w = .ok w2) :
    w2.pc.x = w.options.margin_left + w.pc.numberwidth := by
  obtain ⟨w1, w3, h1, h3, rfl⟩ := Pango.newline_ok_pango h
  have e1 := Pango.newline_place_layout_pango be fuel w w1 h1
  obtain ⟨a, b, -⟩ := Pango.print_number_keeps_pango _ (stable_layout w) be _
      (Pango.newpage_keeps_pango _ (stable_layout w) (turn_layout w) be fuel) w1.bump _
      (by exact e1) h3
  simp [a, b]

/-- C6, as stated, fails: without a header, with NUMBER 3 and a page of 10 by
30, the first LINE after START ends with page counter 3 and two pages
flushed: the line number wraps in `print_text` and turns the page twice, and
its three characters land on three pages. -/
theorem first_line_reaches_page_three :
    header_fits mono
      { World.init.options with
        paper_width := 10, paper_height := 30, number_width := 3,
        font_name := some (ascii "Mono"), font_size := 10 } 1 = true ∧
    (print mono (ascii "out.pdf") 2
      [.NUMBER 3, .PAPER 10 30, .FONT (ascii "Mono") 10, .START, .LINE] World.init).map
      (fun w => (w.pc.pagenum, w.pc.linenum, w.flushes, drawn_pages w.cr.ops))
      = .ok (3, 1, 2, [1, 2, 3]) := by
  refine ⟨by decide!, by decide!⟩

/-- C6, amended: in a state with page counter 0 and line counter 0, as START
leaves it, if the header of page 1 is drawn without wrapping and the line
number of line 1 is drawn without wrapping (or numbering is off), `newline`
returns with page counter 1 and line counter 1, flushes no page, and every
glyph it draws is drawn while `pc.pagenum` is 1. -/
theorem first_line_opens_page_one (be : Backend) (fuel : Nat) (w : World)
    (hp : w.pc.pagenum = 0) (hl : w.pc.linenum = 0)
    (hh : header_fits be w.options 1 = true)
    (hn : ∀ w1, newpage be (fuel + 1) w = .ok w1 → number_fits be w1.bump = true) :
    ∃ w2, newline be (fuel + 1) w = .ok w2 ∧ w2.pc.pagenum = 1 ∧ w2.pc.linenum = 1 ∧
      w2.flushes = w.flushes ∧ drawn_on 1 w w2 := by
  obtain ⟨w1, h1, c1, -, -, d1⟩ := newpage_fits be fuel w (by rw [hp]; exact hh)
  obtain ⟨w3, h3, c3, -, d3⟩ := print_number_fits be (newpage be (fuel + 1)) w1.bump (hn w1 h1)
  have hp1 : w1.pc.pagenum = 1 := by rw [c1.2.1, turn_pagenum, hp]; rfl
  have hf1 : w1.flushes = w.flushes := by
    rw [c1.2.2.2.2.2.2.2.2, turn_flushes, hp]; simp
  have hl1 : w1.pc.linenum = 0 := by rw [c1.2.2.1, (turn_rest w).2.1, hl]
  refine ⟨{ w3 with pc := { w3.pc with x := w3.options.margin_left + w3.pc.numberwidth } },
    ?_, ?_, ?_, ?_, ?_⟩
  · unfold newline
    simp only [hl, if_true]
    rw [h1]
    simp only [Except.bind]
    change Except.map _ (print_number be (newpage be (fuel + 1)) w1.bump) = _
    rw [h3]
    rfl
  · show w3.pc.pagenum = 1
    rw [c3.2.1]
    exact hp1
  · show w3.pc.linenum = 1
    rw [c3.2.2.1]
    simp [World.bump, hl1]
  · show w3.flushes = w.flushes
    rw [c3.2.2.2.2.2.2.2.2]
    exact hf1
  · rw [hp] at d1
    have e : w1.bump.pc.pagenum = 1 := hp1
    rw [e] at d3
    exact drawn_on_trans (drawn_on_trans (drawn_on_trans d1 (drawn_on_of_ops_eq _ rfl)) d3)
      (drawn_on_of_ops_eq _ rfl)

/-- Witness of C6, amended: after START with the header "p%N%=x" and
NUMBER 3 on a page of 200 by 200, the first LINE returns with page counter 1
and line counter 1, and nothing is flushed. -/
theorem first_line_opens_page_one_witness :
    command_start mono (ascii "out.pdf")
      { World.init with options := sample_started.options } = .ok sample_started ∧
    ∃ w2, newline mono 1 sample_started = .ok w2 ∧ w2.pc.pagenum = 1 ∧ w2.pc.linenum = 1 ∧
      w2.flushes = sample_started.flushes ∧ drawn_on 1 sample_started w2 :=
  ⟨by decide!,
   first_line_opens_page_one mono 0 sample_started rfl rfl (by decide!)
    (fun w1 h => by
      have e : (newpage mono 1 sample_started).map (fun v => number_fits mono v.bump)
          = .ok true := by decide!
      rw [h] at e
      simpa [Except.map] using e)⟩

/-- C8, as stated, fails: with NUMBER 30 on a page of 200 by 200 the gutter
is wider than the page.  After START and one LINE the line counter is 1 and
y is 82; the next LINE does not meet the vertical-fit test (82 + 12 + 12 is
not above 190) and turns no page, yet it leaves y at 154, not at 82 + 12:
the line number wraps five times in `print_text`. -/
theorem newline_number_wraps :
    (print mono (ascii "out.pdf") 1
      [.NUMBER 30, .PAPER 200 200, .MARGIN 10 10 10 10, .FONT (ascii "Mono") 10, .START, .LINE]
      World.init).map
      (fun w => (w.pc.linenum, w.pc.pagenum, w.pc.y, w.pc.font_height))
      = .ok (1, 1, 82, 12) ∧
    (print mono (ascii "out.pdf") 1
      [.NUMBER 30, .PAPER 200 200, .MARGIN 10 10 10 10, .FONT (ascii "Mono") 10, .START, .LINE]
      World.init).bind
      (fun w => (newline mono 1 w).map (fun v => (v.pc.pagenum, v.flushes, v.pc.y)))
      = .ok (1, 0, 154) := by
  refine ⟨by decide!, by decide!⟩

/-- C8, amended: in a state with line counter not 0, whenever `newline`
returns, x is margin_left + gutter width.  If the position advanced by one
line height does not satisfy y + line_height > paper_height - margin_bottom
and the line number is drawn without wrapping (or numbering is off),
`newline` returns, turns no page, leaves the page counter as it was and y
exactly one line height further.  If the advanced position satisfies the
test, the header of the next page is drawn without wrapping and so is the
line number, `newline` returns after one page turn: the page counter is one
greater and y is margin_top + line_height * (1 + header_extraline), the sum
1 + header_extraline taken in the machine's `int`.  The first three parts are
the cairo backend, the last three the pangocairo backend. -/
theorem newline_vertical_fit (be : Backend) (pbe : PangoBackend) (fuel : Nat) (w : World)
    (hl : w.pc.linenum ≠ 0) :
    ((∀ w2, newline be fuel w = .ok w2 →
      w2.pc.x = w.options.margin_left + w.pc.numberwidth) ∧
    (¬ (w.pc.y + w.pc.font_height + w.pc.font_height >
          w.options.paper_height - w.options.margin_bottom) →
      number_fits be w.down.bump = true →
      ∃ w2, newline be fuel w = .ok w2 ∧ w2.pc.pagenum = w.pc.pagenum ∧
        w2.flushes = w.flushes ∧ w2.pc.y = w.pc.y + w.pc.font_height ∧
        w2.pc.x = w.options.margin_left + w.pc.numberwidth) ∧
    (w.pc.y + w.pc.font_height + w.pc.font_height >
          w.options.paper_height - w.options.margin_bottom →
      header_fits be w.options (w.pc.pagenum + 1) = true →
      (∀ w1, newpage be (fuel + 1) w.down = .ok w1 → number_fits be w1.bump = true) →
      ∃ w2, newline be (fuel + 1) w = .ok w2 ∧ w2.pc.pagenum = w.pc.pagenum + 1 ∧
        w2.flushes = w.flushes + (if w.pc.pagenum ≠ 0 then 1 else 0) ∧
        w2.pc.y = w.options.margin_top + w.pc.font_height * (int_add 1 w.options.header_extraline) ∧
        w2.pc.x = w.options.margin_left + w.pc.numberwidth)) ∧
    ((∀ w2, Pango.newline pbe fuel w = .ok w2 →
      w2.pc.x = w.options.margin_left + w.pc.numberwidth) ∧
    (¬ (w.pc.y + w.pc.font_height + w.pc.font_height >
          w.options.paper_height - w.options.margin_bottom) →
      Pango.number_fits pbe w.down.bump = true →
      ∃ w2, Pango.newline pbe fuel w = .ok w2 ∧ w2.pc.pagenum = w.pc.pagenum ∧
        w2.flushes = w.flushes ∧ w2.pc.y = w.pc.y + w.pc.font_height ∧
        w2.pc.x = w.options.margin_left + w.pc.numberwidth) ∧
    (w.pc.y + w.pc.font_height + w.pc.font_height >
          w.options.paper_height - w.options.margin_bottom →
      Pango.header_fits pbe w.down.turn = true →
      (∀ w1, Pango.newpage pbe (fuel + 1) w.down = .ok w1 →
        Pango.number_fits pbe w1.bump = true) →
      ∃ w2, Pango.newline pbe (fuel + 1) w = .ok w2 ∧ w2.pc.pagenum = w.pc.pagenum + 1 ∧
        w2.flushes = w.flushes + (if w.pc.pagenum ≠ 0 then 1 else 0) ∧
        w2.pc.y = w.options.margin_top + w.pc.font_height * (int_add 1 w.options.header_extraline) ∧
        w2.pc.x = w.options.margin_left + w.pc.numberwidth)) := by
  refine ⟨⟨fun w2 h => newline_x be fuel w w2 h, ?_, ?_⟩,
    ⟨fun w2 h => Pango.newline_x_pango pbe fuel w w2 h, ?_, ?_⟩⟩
  · intro hv hn
    have hv2 : ¬ w.down.overflows := hv
    obtain ⟨w3, h3, c3, y3, d3⟩ := print_number_fits be (newpage be fuel) w.down.bump hn
    have hrun : newline be fuel w =
        .ok { w3 with pc := { w3.pc with x := w3.options.margin_left + w3.pc.numberwidth } } := by
      unfold newline
      simp only [hl, if_false]
      change Except.bind (if w.down.overflows then newpage be fuel w.down else .ok w.down) _ = _
      simp only [hv2, if_false, Except.bind]
      change Except.map _ (print_number be (newpage be fuel) w.down.bump) = _
      rw [h3]
      rfl
    refine ⟨_, hrun, ?_, ?_, ?_, newline_x be fuel w _ hrun⟩
    · show w3.pc.pagenum = w.pc.pagenum
      rw [c3.2.1]; rfl
    · show w3.flushes = w.flushes
      rw [c3.2.2.2.2.2.2.2.2]; rfl
    · show w3.pc.y = w.pc.y + w.pc.font_height
      rw [y3]; rfl
  · intro hv hh hn
    have hv2 : w.down.overflows := hv
    obtain ⟨w1, h1, c1, -, y1, -⟩ := newpage_fits be fuel w.down hh
    obtain ⟨w3, h3, c3, y3, -⟩ := print_number_fits be (newpage be (fuel + 1)) w1.bump (hn w1 h1)
    have hrun : newline be (fuel + 1) w =
        .ok { w3 with pc := { w3.pc with x := w3.options.margin_left + w3.pc.numberwidth } } := by
      unfold newline
      simp only [hl, if_false]
      change Except.bind (if w.down.overflows then newpage be (fuel + 1) w.down else .ok w.down) _ = _
      simp only [hv2, if_true]
      rw [h1]
      simp only [Except.bind]
      change Except.map _ (print_number be (newpage be (fuel + 1)) w1.bump) = _
      rw [h3]
      rfl
    refine ⟨_, hrun, ?_, ?_, ?_, newline_x be (fuel + 1) w _ hrun⟩
    · show w3.pc.pagenum = w.pc.pagenum + 1
      rw [c3.2.1]
      show w1.pc.pagenum = _
      rw [c1.2.1, turn_pagenum]; rfl
    · show w3.flushes = _
      rw [c3.2.2.2.2.2.2.2.2]
      show w1.flushes = _
      rw [c1.2.2.2.2.2.2.2.2, turn_flushes]; rfl
    · show w3.pc.y = _
      rw [y3]
      show w1.pc.y = _
      rw [y1]; rfl
  · intro hv hn
    have hv2 : ¬ w.down.overflows := hv
    obtain ⟨w3, h3, c3, y3, d3⟩ :=
      Pango.print_number_fits_pango pbe (Pango.newpage pbe fuel) w.down.bump hn
    have hrun : Pango.newline pbe fuel w =
        .ok { w3 with pc := { w3.pc with x := w3.options.margin_left + w3.pc.numberwidth } } := by
      unfold Pango.newline
      simp only [hl, if_false]
      change Except.bind
        (if w.down.overflows then Pango.newpage pbe fuel w.down else .ok w.down) _ = _
      simp only [hv2, if_false, Except.bind]
      change Except.map _ (Pango.print_number pbe (Pango.newpage pbe fuel) w.down.bump) = _
      rw [h3]
      rfl
    refine ⟨_, hrun, ?_, ?_, ?_, Pango.newline_x_pango pbe fuel w _ hrun⟩
    · show w3.pc.pagenum = w.pc.pagenum
      rw [c3.2.1]; rfl
    · show w3.flushes = w.flushes
      rw [c3.2.2.2.2.2.2.2.2]; rfl
    · show w3.pc.y = w.pc.y + w.pc.font_height
      rw [y3]; rfl
  · intro hv hh hn
    have hv2 : w.down.overflows := hv
    obtain ⟨w1, h1, c1, -, y1, -⟩ := Pango.newpage_fits_pango pbe fuel w.down hh
    obtain ⟨w3, h3, c3, y3, -⟩ :=
      Pango.print_number_fits_pango pbe (Pango.newpage pbe (fuel + 1)) w1.bump (hn w1 h1)
    have hrun : Pango.newline pbe (fuel + 1) w =
        .ok { w3 with pc := { w3.pc with x := w3.options.margin_left + w3.pc.numberwidth } } := by
      unfold Pango.newline
      simp only [hl, if_false]
      change Except.bind
        (if w.down.overflows then Pango.newpage pbe (fuel + 1) w.down else .ok w.down) _ = _
      simp only [hv2, if_true]
      rw [h1]
      simp only [Except.bind]
      change Except.map _ (Pango.print_number pbe (Pango.newpage pbe (fuel + 1)) w1.bump) = _
      rw [h3]
      rfl
    refine ⟨_, hrun, ?_, ?_, ?_, Pango.newline_x_pango pbe (fuel + 1) w _ hrun⟩
    · show w3.pc.pagenum = w.pc.pagenum + 1
      rw [c3.2.1]
      show w1.pc.pagenum = _
      rw [c1.2.1, turn_pagenum]; rfl
    · show w3.flushes = _
      rw [c3.2.2.2.2.2.2.2.2]
      show w1.flushes = _
      rw [c1.2.2.2.2.2.2.2.2, turn_flushes]; rfl
    · show w3.pc.y = _
      rw [y3]
      show w1.pc.y = _
      rw [y1]; rfl

/-- Witness of C8, amended: in the middle of page 1 the next line is one line
height further down and no page is turned; near the bottom of the page the
next line is the first one of page 2; both start at the right edge of the
gutter; in both backends. -/
theorem newline_vertical_fit_witness :
    ((∃ w2, newline mono 1 sample_open_page = .ok w2 ∧
      w2.pc.pagenum = sample_open_page.pc.pagenum ∧
      w2.flushes = sample_open_page.flushes ∧
      w2.pc.y = sample_open_page.pc.y + sample_open_page.pc.font_height ∧
      w2.pc.x = sample_open_page.options.margin_left + sample_open_page.pc.numberwidth) ∧
    (∃ w2, newline mono 1
        { sample_open_page with pc := { sample_open_page.pc with y := 170 } } = .ok w2 ∧
      w2.pc.pagenum = 1 + 1 ∧
      w2.flushes = 0 + (if (1 : Int) ≠ 0 then 1 else 0) ∧
      w2.pc.y = sample_open_page.options.margin_top +
        sample_open_page.pc.font_height * (int_add 1 sample_open_page.options.header_extraline) ∧
      w2.pc.x = sample_open_page.options.margin_left + sample_open_page.pc.numberwidth) ∧
    (∃ w2, newline mono 2 sample_open_page = .ok w2 ∧
      w2.pc.x = sample_open_page.options.margin_left + sample_open_page.pc.numberwidth) ∧
    (newline mono 1 sample_open_page).map (fun v => (v.pc.pagenum, v.pc.y)) = .ok (1, 82) ∧
    (newline mono 1
        { sample_open_page with pc := { sample_open_page.pc with y := 170 } }).map
      (fun v => (v.pc.pagenum, v.pc.y)) = .ok (2, 46)) ∧
    ((∃ w2, Pango.newline pango_mono 1 sample_open_page = .ok w2 ∧
      w2.pc.pagenum = sample_open_page.pc.pagenum ∧
      w2.flushes = sample_open_page.flushes ∧
      w2.pc.y = sample_open_page.pc.y + sample_open_page.pc.font_height ∧
      w2.pc.x = sample_open_page.options.margin_left + sample_open_page.pc.numberwidth) ∧
    (∃ w2, Pango.newline pango_mono 1
        { sample_open_page with pc := { sample_open_page.pc with y := 170 } } = .ok w2 ∧
      w2.pc.pagenum = 1 + 1 ∧
      w2.flushes = 0 + (if (1 : Int) ≠ 0 then 1 else 0) ∧
      w2.pc.y = sample_open_page.options.margin_top +
        sample_open_page.pc.font_height * (int_add 1 sample_open_page.options.header_extraline) ∧
      w2.pc.x = sample_open_page.options.margin_left + sample_open_page.pc.numberwidth) ∧
    (∃ w2, Pango.newline pango_mono 2 sample_open_page = .ok w2 ∧
      w2.pc.x = sample_open_page.options.margin_left + sample_open_page.pc.numberwidth) ∧
    (Pango.newline pango_mono 1 sample_open_page).map (fun v => (v.pc.pagenum, v.pc.y))
      = .ok (1, 82) ∧
    (Pango.newline pango_mono 1
        { sample_open_page with pc := { sample_open_page.pc with y := 170 } }).map
      (fun v => (v.pc.pagenum, v.pc.y)) = .ok (2, 46)) :=
  ⟨⟨(newline_vertical_fit mono pango_mono 1 sample_open_page (by decide)).1.2.1
      (by decide!) (by decide!),
   (newline_vertical_fit mono pango_mono 0
      { sample_open_page with pc := { sample_open_page.pc with y := 170 } } (by decide)).1.2.2
      (by decide!) (by decide!)
      (fun w1 h => by
        have e : (newpage mono 1
            (World.down { sample_open_page with pc := { sample_open_page.pc with y := 170 } })).map
            (fun v => number_fits mono v.bump) = .ok true := by decide!
        rw [h] at e
        simpa [Except.map] using e),
   (exists_ok (x := newline mono 2 sample_open_page) (by decide!)).elim
    fun w2 h => ⟨w2, h,
      (newline_vertical_fit mono pango_mono 2 sample_open_page (by decide)).1.1 w2 h⟩,
   by decide!, by decide!⟩,
   ⟨(newline_vertical_fit mono pango_mono 1 sample_open_page (by decide)).2.2.1
      (by decide!) (by decide!),
   (newline_vertical_fit mono pango_mono 0
      { sample_open_page with pc := { sample_open_page.pc with y := 170 } } (by decide)).2.2.2
      (by decide!) (by decide!)
      (fun w1 h => by
        have e : (Pango.newpage pango_mono 1
            (World.down { sample_open_page with pc := { sample_open_page.pc with y := 170 } })).map
            (fun v => Pango.number_fits pango_mono v.bump) = .ok true := by decide!
        rw [h] at e
        simpa [Except.map] using e),
   (exists_ok (x := Pango.newline pango_mono 2 sample_open_page) (by decide!)).elim
    fun w2 h => ⟨w2, h,
      (newline_vertical_fit mono pango_mono 2 sample_open_page (by decide)).2.1 w2 h⟩,
   by decide!, by decide!⟩⟩

/-! ## Gutter: the claims -/

/-- C9: START computes the gutter width `pc.numberwidth` as
number_width * (advance of "0" in the font it has set) + 10 if number_width > 0,
and as 0 otherwise; in the second case the start of a line,
margin_left + gutter width, is margin_left, and `print_number` draws nothing
and changes nothing.  START returns whenever the output file name ends in
.ps or .pdf and the font can be selected. -/
theorem gutter_width (be : Backend) (outfile : List Nat) (w : World) :
    (∀ f, (endswith outfile (ascii ".ps") = true ∨ endswith outfile (ascii ".pdf") = true) →
      select_font be w.options.font_name w.options.font_size 0 0 = .ok f →
      ∃ w2, command_start be outfile w = .ok w2) ∧
    (∀ w2, command_start be outfile w = .ok w2 →
      (w.options.number_width > 0 →
        w2.pc.numberwidth =
          w.options.number_width * be.x_advance w2.cr.font (ascii "0") + 10) ∧
      (w.options.number_width ≤ 0 →
        w2.pc.numberwidth = 0 ∧
        w2.options.margin_left + w2.pc.numberwidth = w2.options.margin_left ∧
        ∀ np, print_number be np w2 = .ok w2)) := by
  refine ⟨?_, ?_⟩
  · intro f hend hf
    unfold command_start set_font
    rw [hf]
    rcases hend with h | h
    · simp [h, Except.bind, Except.map]
    · by_cases h1 : endswith outfile (ascii ".ps") = true <;> simp [h, h1, Except.bind, Except.map]
  · intro w2 h
    obtain ⟨ho, -, -, -, f, -, hfont, -, -, hnw⟩ := command_start_ok h
    refine ⟨fun hpos => ?_, fun hneg => ?_⟩
    · rw [hnw, if_pos hpos, hfont]
      simp [LINENR_MARGIN]
    · have hz : w2.pc.numberwidth = 0 := by
        rw [hnw, if_neg (not_lt.mpr hneg)]
      refine ⟨hz, by rw [hz, add_zero], fun np => print_number_off be np w2 (by rw [ho]; exact hneg)⟩

/-- Witness of C9: START with NUMBER 3 and an advance of 7 gives a gutter of
3 * 7 + 10; START with NUMBER 0 gives a gutter of 0. -/
theorem gutter_width_witness :
    (∃ w2, command_start mono (ascii "out.pdf")
        { World.init with options := { sample_options with number_width := 3 } } = .ok w2 ∧
      w2.pc.numberwidth = (3 : Int) * mono.x_advance w2.cr.font (ascii "0") + 10 ∧
      w2.pc.numberwidth = 31) ∧
    (∃ w2, command_start mono (ascii "out.ps")
        { World.init with options := sample_options } = .ok w2 ∧
      w2.pc.numberwidth = 0 ∧
      w2.options.margin_left + w2.pc.numberwidth = w2.options.margin_left ∧
      ∀ np, print_number mono np w2 = .ok w2) :=
  ⟨((gutter_width mono (ascii "out.pdf")
        { World.init with options := { sample_options with number_width := 3 } }).1
      _ (Or.inr (by decide)) (by decide : select_font mono _ _ 0 0 =
        .ok (FontSel.toy (ascii "Mono") 10 false false))).elim
      fun w2 h => ⟨w2, h,
        ((gutter_width mono (ascii "out.pdf") _).2 w2 h).1 (by decide),
        by
          have e : (command_start mono (ascii "out.pdf")
            { World.init with options := { sample_options with number_width := 3 } }).map
              (fun v => v.pc.numberwidth) = .ok 31 := by decide!
          rw [h] at e
          simpa [Except.map] using e⟩,
   ((gutter_width mono (ascii "out.ps") { World.init with options := sample_options }).1
      _ (Or.inl (by decide)) (by decide : select_font mono _ _ 0 0 =
        .ok (FontSel.toy (ascii "Mono") 10 false false))).elim
      fun w2 h => ⟨w2, h,
        ((gutter_width mono (ascii "out.ps") _).2 w2 h).2 (by decide)⟩⟩

theorem decimal_length_le (n : Int) (e : Nat) (h0 : 0 ≤ n) (he : 0 < e) (h : n < 10 ^ e) :
    (decimal n).length ≤ e := by
  unfold decimal
  rw [if_neg (not_lt.mpr h0), List.length_map]
  have hn : n.natAbs < 10 ^ e := by
    have : (n.natAbs : Int) < 10 ^ e := by
      rw [Int.natAbs_of_nonneg h0]; exact h
    exact_mod_cast this
  exact Nat.toDigitsCore_length 10 (by decide) (n.natAbs + 1) n.natAbs e hn he

theorem decimal_field_length (width : Nat) (n : Int) :
    (decimal_field width n).length = max width (decimal n).length := by
  unfold decimal_field
  rw [List.length_append, List.length_replicate]
  omega

/-- C10, as stated, fails: with NUMBER 1 the gutter value of line 10 has two
characters, "1" and "0", which `print_number` draws in both backends; the
field is widened, not cut. -/
theorem gutter_value_longer_than_field :
    decimal_field 1 10 = ascii "10" ∧
    (print mono (ascii "out.pdf") 1
      ([.NUMBER 1, .PAPER 200 200, .MARGIN 10 10 10 10, .FONT (ascii "Mono") 10, .START] ++
        List.replicate 10 Directive.LINE) World.init).map
      (fun w => (w.pc.linenum, (drawn_text w.cr.ops).drop 9))
      = .ok (10, [ascii "1", ascii "0"]) ∧
    (Pango.print pango_mono (ascii "out.pdf") 1
      ([.NUMBER 1, .PAPER 200 200, .MARGIN 10 10 10 10, .FONT (ascii "Mono") 10, .START] ++
        List.replicate 10 (Pango.Directive.LINE [])) World.init).map
      (fun w => (w.pc.linenum, (drawn_text w.cr.ops).drop 18))
      = .ok (10, [ascii "10", []]) := by
  refine ⟨by decide, by decide!, by decide!⟩

/-- C10, amended: for a field width w with 0 < w < 256 and a line number n with
0 ≤ n < 10 ^ w, the gutter value that `print_number` hands to `print_text`, in
either backend, is the decimal number n right-justified with blanks in exactly
w characters; with a fixed advance a per character its width is w * a, it is
started at margin_left + gutter width - 10 - w * a, and its width plus the
margin of 10 is the gutter width w * a + 10 that START computes.  For every
width and line number the value has max(w, number of characters of n)
characters. -/
theorem gutter_value_width (be : Backend) (pbe : PangoBackend)
    (np : World → Except Err World) (w : World) (a : ℚ)
    (hw : 0 < w.options.number_width) (hcap : w.options.number_width < 256)
    (hn0 : 0 ≤ w.pc.linenum) (hn : w.pc.linenum < 10 ^ w.options.number_width.toNat)
    (hadv : ∀ f s, be.x_advance f s = a * s.length)
    (hwidth : ∀ n z s, pbe.width n z s = a * s.length) :
    (decimal_field w.options.number_width.toNat w.pc.linenum).length
      = w.options.number_width.toNat ∧
    (∃ k, decimal_field w.options.number_width.toNat w.pc.linenum
      = List.replicate k 32 ++ decimal w.pc.linenum) ∧
    print_number be np w =
      print_text be np (decimal_field w.options.number_width.toNat w.pc.linenum)
        (fixed_highlight "LineNr")
        { w with pc := { w.pc with
            x := w.options.margin_left + w.pc.numberwidth - 10 - w.options.number_width * a } } ∧
    Pango.print_number pbe np w =
      Pango.print_text pbe np (decimal_field w.options.number_width.toNat w.pc.linenum)
        { w with pc := { w.pc with
            x := w.options.margin_left + w.pc.numberwidth - 10 - w.options.number_width * a } } ∧
    be.x_advance w.cr.font (decimal_field w.options.number_width.toNat w.pc.linenum) + 10
      = w.options.number_width * a + 10 ∧
    pbe.width w.options.font_name w.options.font_size
        (decimal_field w.options.number_width.toNat w.pc.linenum) + 10
      = w.options.number_width * a + 10 ∧
    ∀ (width : Nat) (n : Int),
      (decimal_field width n).length = max width (decimal n).length := by
  have hpos : 0 < w.options.number_width.toNat := by omega
  have hlen : (decimal_field w.options.number_width.toNat w.pc.linenum).length
      = w.options.number_width.toNat := by
    rw [decimal_field_length]
    exact max_eq_left (decimal_length_le _ _ hn0 hpos hn)
  have hcast : ((w.options.number_width.toNat : ℕ) : ℚ) = (w.options.number_width : ℚ) := by
    have : ((w.options.number_width.toNat : ℕ) : Int) = w.options.number_width :=
      Int.toNat_of_nonneg (le_of_lt hw)
    exact_mod_cast this
  have hx : be.x_advance w.cr.font (decimal_field w.options.number_width.toNat w.pc.linenum)
      = w.options.number_width * a := by
    rw [hadv, hlen, hcast, mul_comm]
  have hx2 : pbe.width w.options.font_name w.options.font_size
      (decimal_field w.options.number_width.toNat w.pc.linenum)
      = w.options.number_width * a := by
    rw [hwidth, hlen, hcast, mul_comm]
  have hbuf : (decimal_field w.options.number_width.toNat w.pc.linenum).length < NUMBER_BUFSIZE := by
    rw [hlen]
    unfold NUMBER_BUFSIZE
    omega
  refine ⟨hlen, ⟨_, rfl⟩, ?_, ?_, by rw [hx], by rw [hx2], decimal_field_length⟩
  · unfold print_number
    simp only [not_le.mpr hw, if_false, hbuf, if_true, hx, LINENR_MARGIN]
  · unfold Pango.print_number
    simp only [not_le.mpr hw, if_false, hbuf, if_true, hx2, LINENR_MARGIN]

/-- Witness of C10, amended: line 4 in a field of 3 characters is "  4". -/
theorem gutter_value_width_witness :
    (decimal_field sample_open_page.options.number_width.toNat
      sample_open_page.pc.linenum).length = 3 ∧
    decimal_field 3 4 = ascii "  4" ∧
    mono.x_advance sample_open_page.cr.font
      (decimal_field sample_open_page.options.number_width.toNat
        sample_open_page.pc.linenum) + 10 = (3 : Int) * (7 : ℚ) + 10 ∧
    (print_number mono (newpage mono 1) sample_open_page).map
      (fun v => (drawn_text v.cr.ops, v.pc.x)) = .ok ([[32], [32], [52]], 31) ∧
    (Pango.print_number pango_mono (newpage mono 1) sample_open_page).map
      (fun v => drawn_text v.cr.ops) = .ok [ascii "  4"] :=
  ⟨(gutter_value_width mono pango_mono (newpage mono 1) sample_open_page 7 (by decide)
      (by decide) (by decide) (by decide) (fun _ _ => rfl) (fun _ _ _ => rfl)).1,
   by decide,
   (gutter_value_width mono pango_mono (newpage mono 1) sample_open_page 7 (by decide)
      (by decide) (by decide) (by decide) (fun _ _ => rfl) (fun _ _ _ => rfl)).2.2.2.2.1,
   by decide!, by decide!⟩

/-! ## Output format -/

theorem suffix_concat_iff {α : Type} (xs ys : List α) (x y : α) :
    (xs ++ [x]) <:+ (ys ++ [y]) ↔ x = y ∧ xs <:+ ys := by
  rw [← List.reverse_prefix, List.reverse_append, List.reverse_append]
  simp only [List.reverse_singleton, List.singleton_append, List.cons_prefix_cons,
    List.reverse_prefix]

theorem take_succ_concat (l : List Nat) (i : Nat) (h : i < l.length) :
    l.take (i + 1) = l.take i ++ [l.getD i 0] := by
  rw [List.take_succ]
  simp [List.getD, List.getElem?_eq_getElem h]

/-- The loop of `endswith` started behind the first `la` bytes of the haystack
and the first `lb` bytes of the needle ends left of the needle exactly when
the one prefix is a suffix of the other. -/
theorem endswith_loop_spec (haystack needle : List Nat) :
    ∀ (la k lb : Nat), la ≤ haystack.length → lb ≤ needle.length → la < k →
      (endswith_loop haystack needle k ((la : Int) - 1) ((lb : Int) - 1) < 0 ↔
        needle.take lb <:+ haystack.take la) := by
  intro la
  induction la with
  | zero =>
    intro k lb _ hlb hk
    obtain ⟨k, rfl⟩ : ∃ j, k = j + 1 := ⟨k - 1, by omega⟩
    have h0 : ¬ (0 ≤ ((0 : Nat) : Int) - 1 ∧ 0 ≤ (lb : Int) - 1 ∧
        haystack.getD (((0 : Nat) : Int) - 1).toNat 0 = needle.getD ((lb : Int) - 1).toNat 0) := by
      rintro ⟨h, -⟩
      omega
    rw [endswith_loop, if_neg h0]
    simp only [List.take_zero, List.suffix_nil]
    constructor
    · intro h
      have : lb = 0 := by omega
      simp [this]
    · intro h
      have : lb = 0 := by
        have := congrArg List.length h
        simp only [List.length_take, List.length_nil] at this
        omega
      omega
  | succ la ih =>
    intro k lb hla hlb hk
    obtain ⟨k, rfl⟩ : ∃ j, k = j + 1 := ⟨k - 1, by omega⟩
    cases lb with
    | zero =>
      have h0 : ¬ (0 ≤ ((la + 1 : Nat) : Int) - 1 ∧ 0 ≤ ((0 : Nat) : Int) - 1 ∧
          haystack.getD (((la + 1 : Nat) : Int) - 1).toNat 0
            = needle.getD (((0 : Nat) : Int) - 1).toNat 0) := by
        rintro ⟨-, h, -⟩
        omega
      rw [endswith_loop, if_neg h0]
      simp
    | succ lb =>
      have ea : ((la + 1 : Nat) : Int) - 1 = (la : Int) := by push_cast; ring
      have eb : ((lb + 1 : Nat) : Int) - 1 = (lb : Int) := by push_cast; ring
      rw [ea, eb, endswith_loop]
      rw [take_succ_concat haystack la (by omega), take_succ_concat needle lb (by omega),
        suffix_concat_iff]
      by_cases hc : haystack.getD la 0 = needle.getD lb 0
      · have h1 : 0 ≤ (la : Int) ∧ 0 ≤ (lb : Int) ∧
            haystack.getD (la : Int).toNat 0 = needle.getD (lb : Int).toNat 0 := by
          refine ⟨by omega, by omega, ?_⟩
          simpa using hc
        rw [if_pos h1, ih k lb (by omega) (by omega) (by omega)]
        constructor
        · intro h; exact ⟨hc.symm, h⟩
        · intro h; exact h.2
      · have h1 : ¬ (0 ≤ (la : Int) ∧ 0 ≤ (lb : Int) ∧
            haystack.getD (la : Int).toNat 0 = needle.getD (lb : Int).toNat 0) := by
          rintro ⟨-, -, h⟩
          exact hc (by simpa using h)
        rw [if_neg h1]
        constructor
        · intro h; omega
        · intro h; exact absurd h.1.symm hc

/-- The function `endswith` tells whether the needle is a suffix of the haystack. -/
theorem endswith_iff_suffix (haystack needle : List Nat) :
    endswith haystack needle = true ↔ needle <:+ haystack := by
  unfold endswith
  rw [decide_eq_true_iff]
  have h := endswith_loop_spec haystack needle haystack.length (haystack.length + 1)
    needle.length le_rfl le_rfl (by omega)
  simpa using h

theorem select_font_not_file_type (be : Backend) (name : Option (List Nat)) (size : ℚ)
    (bold italic : Int) : select_font be name size bold italic ≠ .error Err.file_type := by
  unfold select_font
  cases name with
  | none => simp
  | some nm =>
    simp only
    split_ifs <;> simp

/-- C16: `endswith` returns true exactly when the needle is a suffix of the
haystack, for every non-empty haystack.  Hence START in the cairo backend
stops with `file type is not supported` exactly when the output file name
ends neither in ".ps" nor in ".pdf"; when it returns, the surface is
PostScript exactly when the name ends in ".ps", and PDF exactly when the name
does not end in ".ps" but ends in ".pdf"; and it does return for such a name
whenever the font can be selected.  START of the pangocairo backend returns
exactly for these names, with the same choice. -/
theorem command_start_output_format (be : Backend) (pbe : PangoBackend) (outfile : List Nat)
    (w : World) :
    (∀ haystack needle : List Nat, haystack ≠ [] →
      (endswith haystack needle = true ↔ needle <:+ haystack)) ∧
    (command_start be outfile w = .error Err.file_type ↔
      ¬ ascii ".ps" <:+ outfile ∧ ¬ ascii ".pdf" <:+ outfile) ∧
    (∀ w2, command_start be outfile w = .ok w2 →
      (w2.cr.surface = some Surface.ps ↔ ascii ".ps" <:+ outfile) ∧
      (w2.cr.surface = some Surface.pdf ↔
        ¬ ascii ".ps" <:+ outfile ∧ ascii ".pdf" <:+ outfile)) ∧
    (∀ f, select_font be w.options.font_name w.options.font_size 0 0 = .ok f →
      (ascii ".ps" <:+ outfile ∨ ascii ".pdf" <:+ outfile) →
      ∃ w2, command_start be outfile w = .ok w2) ∧
    (Pango.command_start pbe outfile w = .error Err.file_type ↔
      ¬ ascii ".ps" <:+ outfile ∧ ¬ ascii ".pdf" <:+ outfile) ∧
    ((ascii ".ps" <:+ outfile ∨ ascii ".pdf" <:+ outfile) →
      ∃ w2, Pango.command_start pbe outfile w = .ok w2 ∧
        (w2.cr.surface = some Surface.ps ↔ ascii ".ps" <:+ outfile) ∧
        (w2.cr.surface = some Surface.pdf ↔
          ¬ ascii ".ps" <:+ outfile ∧ ascii ".pdf" <:+ outfile)) := by
  have hps := endswith_iff_suffix outfile (ascii ".ps")
  have hpdf := endswith_iff_suffix outfile (ascii ".pdf")
  have hnf := select_font_not_file_type be w.options.font_name w.options.font_size 0 0
  refine ⟨fun h n _ => endswith_iff_suffix h n, ?_, ?_, ?_, ?_, ?_⟩
  · rw [← hps, ← hpdf]
    unfold command_start set_font
    cases hf : select_font be w.options.font_name w.options.font_size 0 0 with
    | error e =>
      have he : e ≠ Err.file_type := fun h => hnf (by rw [hf, h])
      by_cases h1 : endswith outfile (ascii ".ps") = true <;>
        by_cases h2 : endswith outfile (ascii ".pdf") = true <;>
        simp [h1, h2, Except.bind, Except.map, he]
    | ok f =>
      by_cases h1 : endswith outfile (ascii ".ps") = true <;>
        by_cases h2 : endswith outfile (ascii ".pdf") = true <;>
        simp [h1, h2, Except.bind, Except.map]
  · intro w2 h
    rw [← hps, ← hpdf]
    unfold command_start set_font at h
    cases hf : select_font be w.options.font_name w.options.font_size 0 0 with
    | error e =>
      rw [hf] at h
      by_cases h1 : endswith outfile (ascii ".ps") = true <;>
        by_cases h2 : endswith outfile (ascii ".pdf") = true <;>
        simp [h1, h2, Except.bind, Except.map] at h
    | ok f =>
      rw [hf] at h
      by_cases h1 : endswith outfile (ascii ".ps") = true <;>
        by_cases h2 : endswith outfile (ascii ".pdf") = true <;>
        simp only [h1, h2, Except.bind, Except.map, if_true, if_false, Bool.false_eq_true,
          Except.ok.injEq] at h <;>
        first
        | (subst h; simp [h1, h2])
        | cases h
  · intro f hf hs
    rw [← hps, ← hpdf] at hs
    unfold command_start set_font
    rw [hf]
    rcases hs with h | h
    · simp [h, Except.bind, Except.map]
    · by_cases h1 : endswith outfile (ascii ".ps") = true <;> simp [h, h1, Except.bind, Except.map]
  · rw [← hps, ← hpdf]
    unfold Pango.command_start
    by_cases h1 : endswith outfile (ascii ".ps") = true <;>
      by_cases h2 : endswith outfile (ascii ".pdf") = true <;>
      simp [h1, h2, Except.map]
  · intro hs
    rw [← hps, ← hpdf] at hs ⊢
    unfold Pango.command_start
    by_cases h1 : endswith outfile (ascii ".ps") = true <;>
      by_cases h2 : endswith outfile (ascii ".pdf") = true <;>
      simp [h1, h2, Except.map] at hs ⊢

/-- Witness of C16: "out.ps" gives PostScript, "a.ps.pdf" gives PDF, and
"out.txt" stops START with `file type is not supported`. -/
theorem command_start_output_format_witness :
    (endswith (ascii "out.ps") (ascii ".ps") = true ↔ ascii ".ps" <:+ ascii "out.ps") ∧
    (∃ w2, command_start mono (ascii "out.ps") { World.init with options := sample_options }
        = .ok w2 ∧ w2.cr.surface = some Surface.ps) ∧
    (∃ w2, command_start mono (ascii "a.ps.pdf") { World.init with options := sample_options }
        = .ok w2 ∧ w2.cr.surface = some Surface.pdf) ∧
    command_start mono (ascii "out.txt") { World.init with options := sample_options }
      = .error Err.file_type ∧
    (∃ w2, Pango.command_start pango_mono (ascii "out.ps")
        { World.init with options := sample_options } = .ok w2 ∧
      w2.cr.surface = some Surface.ps) :=
  ⟨(command_start_output_format mono pango_mono (ascii "out.ps") World.init).1
      (ascii "out.ps") (ascii ".ps") (by decide),
   ((command_start_output_format mono pango_mono (ascii "out.ps")
      { World.init with options := sample_options }).2.2.2.1 _
      (by decide : select_font mono _ _ 0 0 = .ok (FontSel.toy (ascii "Mono") 10 false false))
      (Or.inl (by decide))).elim fun w2 h => ⟨w2, h,
        (((command_start_output_format mono pango_mono (ascii "out.ps")
          { World.init with options := sample_options }).2.2.1 w2 h).1).2 (by decide)⟩,
   ((command_start_output_format mono pango_mono (ascii "a.ps.pdf")
      { World.init with options := sample_options }).2.2.2.1 _
      (by decide : select_font mono _ _ 0 0 = .ok (FontSel.toy (ascii "Mono") 10 false false))
      (Or.inr (by decide))).elim fun w2 h => ⟨w2, h,
        (((command_start_output_format mono pango_mono (ascii "a.ps.pdf")
          { World.init with options := sample_options }).2.2.1 w2 h).2).2
          ⟨by decide, by decide⟩⟩,
   (command_start_output_format mono pango_mono (ascii "out.txt")
      { World.init with options := sample_options }).2.1.2 ⟨by decide, by decide⟩,
   ((command_start_output_format mono pango_mono (ascii "out.ps")
      { World.init with options := sample_options }).2.2.2.2.2 (Or.inl (by decide))).elim
      fun w2 h => ⟨w2, h.1, h.2.1.2 (by decide)⟩⟩

/-! ## String literals -/

theorem skip_space_append (ws rest : List Nat) (h : ∀ c ∈ ws, is_space c = true) :
    skip_space (ws ++ rest) = skip_space rest := by
  unfold skip_space
  induction ws with
  | nil => rfl
  | cons c cs ih =>
    have hc : is_space c = true := h c (by simp)
    simp only [List.cons_append, List.dropWhile_cons, hc, if_true]
    exact ih fun x hx => h x (by simp [hx])

theorem skip_space_cons (c : Nat) (rest : List Nat) (h : is_space c = false) :
    skip_space (c :: rest) = c :: rest := by
  simp [skip_space, List.dropWhile_cons, h]

/-- The stream is a run of white space followed by what `skip_space` leaves,
and that does not begin with white space. -/
theorem skip_space_split (input : List Nat) :
    ∃ ws, input = ws ++ skip_space input ∧ (∀ c ∈ ws, is_space c = true) ∧
      ∀ c rest, skip_space input = c :: rest → is_space c = false := by
  refine ⟨input.takeWhile is_space, ?_, ?_, ?_⟩
  · simp [skip_space]
  · intro c hc
    exact List.mem_takeWhile_imp hc
  · intro c rest h
    unfold skip_space at h
    have := List.head_dropWhile_not is_space input (by rw [h]; simp)
    simpa [h] using this

theorem read_string_loop_quote (rest buf : List Nat) :
    read_string_loop (34 :: rest) buf = .ok (buf.takeWhile (· ≠ 0), rest) := by
  cases rest <;> simp [read_string_loop]

theorem read_string_loop_backslash (d : Nat) (rest buf : List Nat) :
    read_string_loop (92 :: d :: rest) buf = read_string_loop rest (buf ++ [d]) := by
  simp [read_string_loop]

theorem read_string_loop_plain (c : Nat) (rest buf : List Nat) (h1 : c ≠ 34) (h2 : c ≠ 92) :
    read_string_loop (c :: rest) buf = read_string_loop rest (buf ++ [c]) := by
  cases rest <;> simp [read_string_loop, h1, h2]

theorem read_string_loop_escape (s rest : List Nat) :
    ∀ buf, read_string_loop (escape s ++ 34 :: rest) buf
      = .ok ((buf ++ s).takeWhile (· ≠ 0), rest) := by
  induction s with
  | nil =>
    intro buf
    simp [escape, read_string_loop_quote]
  | cons c cs ih =>
    intro buf
    have e : escape (c :: cs) = (if c = 34 ∨ c = 92 then [92, c] else [c]) ++ escape cs := by
      simp [escape]
    rw [e]
    by_cases h : c = 34 ∨ c = 92
    · rw [if_pos h]
      simp only [List.cons_append, List.nil_append]
      rw [read_string_loop_backslash, ih (buf ++ [c])]
      simp
    · rw [if_neg h]
      push_neg at h
      simp only [List.cons_append, List.nil_append]
      rw [read_string_loop_plain c _ _ h.1 h.2, ih (buf ++ [c])]
      simp

theorem read_string_loop_closes :
    ∀ (body buf : List Nat),
      (closes body = true → ∃ r, read_string_loop body buf = .ok r) ∧
      (closes body = false → read_string_loop body buf = .error Err.unexpected_eof) := by
  intro body
  induction body using closes.induct with
  | case1 => intro buf; simp [closes, read_string_loop]
  | case2 rest =>
    intro buf
    have e : closes (34 :: rest) = true := by cases rest <;> simp [closes]
    simp [e, read_string_loop_quote]
  | case3 h => intro buf; simp [closes, read_string_loop]
  | case4 d rest2 h ih =>
    intro buf
    rw [read_string_loop_backslash]
    have e : closes (92 :: d :: rest2) = closes rest2 := by simp [closes]
    rw [e]
    exact ih (buf ++ [d])
  | case5 c rest h1 h2 ih =>
    intro buf
    rw [read_string_loop_plain c rest buf h1 h2]
    have e : closes (c :: rest) = closes rest := by
      cases rest <;> simp [closes, h1, h2]
    rw [e]
    exact ih (buf ++ [c])

/-- C17: a string literal is read back.  For every string `s` without NUL,
`read_string` applied to white space, a double quote, `s` with a backslash
before every double quote and every backslash, and a double quote, returns
`s` and leaves what follows the closing quote.  A backslash makes the next
character a character of the string, whatever it is.  `read_string` stops
with `unexpected EOF` exactly when the stream holds only white space, or
holds a double quote behind white space and ends before a double quote that
no backslash makes literal; it stops with `unexpected character` exactly when
the first character that is not white space is not a double quote; in every
other case it returns a string. -/
theorem read_string_round_trip (input : List Nat) :
    (∀ ws s rest : List Nat, (∀ c ∈ ws, is_space c = true) → 0 ∉ s →
      read_string (ws ++ 34 :: (escape s ++ 34 :: rest)) = .ok (s, rest)) ∧
    (∀ (d : Nat) (rest buf : List Nat),
      read_string_loop (92 :: d :: rest) buf = read_string_loop rest (buf ++ [d])) ∧
    (read_string input = .error Err.unexpected_eof ↔
      (∀ c ∈ input, is_space c = true) ∨
      ∃ ws body, input = ws ++ 34 :: body ∧ (∀ c ∈ ws, is_space c = true) ∧
        closes body = false) ∧
    (∀ c, read_string input = .error (Err.unexpected_character c) ↔
      c ≠ 34 ∧ is_space c = false ∧
      ∃ ws rest, input = ws ++ c :: rest ∧ ∀ x ∈ ws, is_space x = true) ∧
    ((∃ ws body, input = ws ++ 34 :: body ∧ (∀ c ∈ ws, is_space c = true) ∧
        closes body = true) →
      ∃ r, read_string input = .ok r) := by
  have hq : is_space 34 = false := by decide
  refine ⟨?_, fun d rest buf => read_string_loop_backslash d rest buf, ?_, ?_, ?_⟩
  · intro ws s rest hws hs
    unfold read_string
    rw [skip_space_append ws _ hws, skip_space_cons 34 _ hq]
    simp only [read_char, Except.bind, ne_eq, not_true_eq_false, if_false]
    rw [read_string_loop_escape]
    have e : List.takeWhile (fun x => decide (x ≠ 0)) s = s := by
      rw [List.takeWhile_eq_self_iff]
      intro x hx
      have : x ≠ 0 := fun h => hs (h ▸ hx)
      simpa using this
    simp only [List.nil_append]
    rw [e]
  · obtain ⟨ws, hin, hws, hhead⟩ := skip_space_split input
    unfold read_string
    cases hsk : skip_space input with
    | nil =>
      rw [hsk] at hin
      simp only [read_char, Except.bind, true_iff]
      left
      intro c hc
      rw [hin] at hc
      exact hws c (by simpa using hc)
    | cons c rest =>
      rw [hsk] at hin
      have hc : is_space c = false := hhead c rest hsk
      simp only [read_char, Except.bind]
      by_cases h34 : c = 34
      · subst h34
        simp only [ne_eq, not_true_eq_false, if_false]
        constructor
        · intro h
          right
          refine ⟨ws, rest, hin, hws, ?_⟩
          cases hcl : closes rest with
          | false => rfl
          | true =>
            obtain ⟨r, hr⟩ := (read_string_loop_closes rest []).1 hcl
            rw [hr] at h
            cases h
        · rintro (h | ⟨ws2, body, h2, hws2, hcl⟩)
          · have := h 34 (by rw [hin]; simp)
            rw [hq] at this
            cases this
          · have e : skip_space input = 34 :: body := by
              rw [h2, skip_space_append ws2 _ hws2, skip_space_cons 34 _ hq]
            rw [hsk] at e
            cases e
            exact (read_string_loop_closes rest []).2 hcl
      · simp only [ne_eq, h34, not_false_eq_true, if_true]
        constructor
        · intro h
          cases h
        · rintro (h | ⟨ws2, body, h2, hws2, hcl⟩)
          · have := h c (by rw [hin]; simp)
            rw [hc] at this
            cases this
          · have e : skip_space input = 34 :: body := by
              rw [h2, skip_space_append ws2 _ hws2, skip_space_cons 34 _ hq]
            rw [hsk] at e
            cases e
            exact absurd rfl h34
  · intro c
    obtain ⟨ws, hin, hws, hhead⟩ := skip_space_split input
    unfold read_string
    cases hsk : skip_space input with
    | nil =>
      rw [hsk] at hin
      simp only [read_char, Except.bind]
      constructor
      · intro h
        cases h
      · rintro ⟨-, hc, ws2, rest, h2, hws2⟩
        have e : skip_space input = c :: rest := by
          rw [h2, skip_space_append ws2 _ hws2, skip_space_cons c _ hc]
        rw [hsk] at e
        cases e
    | cons c2 rest =>
      rw [hsk] at hin
      have hc2 : is_space c2 = false := hhead c2 rest hsk
      simp only [read_char, Except.bind]
      by_cases h34 : c2 = 34
      · subst h34
        simp only [ne_eq, not_true_eq_false, if_false]
        constructor
        · intro h
          cases hcl : closes rest with
          | false =>
            rw [(read_string_loop_closes rest []).2 hcl] at h
            cases h
          | true =>
            obtain ⟨r, hr⟩ := (read_string_loop_closes rest []).1 hcl
            rw [hr] at h
            cases h
        · rintro ⟨hne, hc, ws2, rest2, h2, hws2⟩
          have e : skip_space input = c :: rest2 := by
            rw [h2, skip_space_append ws2 _ hws2, skip_space_cons c _ hc]
          rw [hsk] at e
          cases e
          exact absurd rfl hne
      · simp only [ne_eq, h34, not_false_eq_true, if_true]
        constructor
        · intro h
          cases h
          exact ⟨h34, hc2, ws, rest, hin, hws⟩
        · rintro ⟨hne, hc, ws2, rest2, h2, hws2⟩
          have e : skip_space input = c :: rest2 := by
            rw [h2, skip_space_append ws2 _ hws2, skip_space_cons c _ hc]
          rw [hsk] at e
          cases e
          rfl
  · rintro ⟨ws, body, hin, hws, hcl⟩
    unfold read_string
    rw [hin, skip_space_append ws _ hws, skip_space_cons 34 _ hq]
    simp only [read_char, Except.bind, ne_eq, not_true_eq_false, if_false]
    exact (read_string_loop_closes body []).1 hcl

/-- Witness of C17: the literal for the string `a"b\` between a blank and the
rest ` 1` of the stream; a literal that a backslash leaves open; a stream that
begins with a letter. -/
theorem read_string_round_trip_witness :
    read_string (ascii " \"a\\\"b\\\\\" 1") = .ok (ascii "a\"b\\", ascii " 1") ∧
    read_string (ascii "\"ab\\\"") = .error Err.unexpected_eof ∧
    read_string (ascii " x\"") = .error (Err.unexpected_character 120) ∧
    (∃ r, read_string (ascii "\"ab\\\\\"") = .ok r) :=
  ⟨(read_string_round_trip []).1 (ascii " ") (ascii "a\"b\\") (ascii " 1")
      (by decide) (by decide),
   (read_string_round_trip (ascii "\"ab\\\"")).2.2.1.2
      (Or.inr ⟨[], ascii "ab\\\"", rfl, by decide, by decide⟩),
   ((read_string_round_trip (ascii " x\"")).2.2.2.1 120).2
      ⟨by decide, by decide, ascii " ", ascii "\"", rfl, by decide⟩,
   (read_string_round_trip (ascii "\"ab\\\\\"")).2.2.2.2
      ⟨[], ascii "ab\\\\\"", rfl, by decide, by decide⟩⟩

/-! ## Colours -/

theorem hex_value_facts {d v : Nat} (h : hex_value d = some v) :
    v ≤ 15 ∧ is_c_space d = false ∧ d ≠ 43 ∧ d ≠ 45 ∧ d ≠ 120 ∧ d ≠ 88 ∧
    (v = 15 ↔ d = 70 ∨ d = 102) := by
  unfold hex_value at h
  unfold is_c_space
  split_ifs at h with h1 h2 h3 <;> simp only [Option.some.injEq, reduceCtorEq] at h <;>
    subst h <;> simp only [decide_eq_false_iff_not] <;> omega

/-- The conversion `%2x` on two hexadecimal digits. -/
theorem scan_hex2_digits {d1 d2 v1 v2 : Nat} (rest : List Nat)
    (h1 : hex_value d1 = some v1) (h2 : hex_value d2 = some v2) :
    scan_hex2 (d1 :: d2 :: rest) = some (((16 * v1 + v2 : Nat) : Int), rest) := by
  obtain ⟨-, s1, a1, b1, -, -, -⟩ := hex_value_facts h1
  obtain ⟨-, -, -, -, x2, y2, -⟩ := hex_value_facts h2
  unfold scan_hex2
  simp [List.dropWhile_cons, s1, a1, b1, h1, h2, x2, y2]

theorem rectangles_append (a b : List Op) :
    rectangles (a ++ b) = rectangles a ++ rectangles b := by
  induction a with
  | nil => rfl
  | cons op ops ih => cases op <;> simp [rectangles, ih]

/-- The rectangles that one character adds: none on a white background, one
at the cursor otherwise. -/
theorem rectangles_draw (hi : Highlight) (buf : List Nat) (adv : ℚ) (w : World) :
    rectangles (print_text_draw hi buf adv w).cr.ops =
      rectangles w.cr.ops ++
        (if is_white hi.bg then [] else [(w.pc.x, w.pc.y, adv, w.pc.font_height)]) := by
  unfold print_text_draw
  by_cases h : is_white hi.bg = true
  · simp [h, World.emit, rectangles_append, rectangles]
  · simp [h, World.emit, rectangles_append, rectangles]

theorem hex_pair_white {v1 v2 : Nat} (h1 : v1 ≤ 15) (h2 : v2 ≤ 15) :
    ((((16 * v1 + v2 : Nat) : Int) : ℚ) / 255 = 1 ↔ v1 = 15 ∧ v2 = 15) ∧
    0 ≤ (((16 * v1 + v2 : Nat) : Int) : ℚ) / 255 ∧
    (((16 * v1 + v2 : Nat) : Int) : ℚ) / 255 ≤ 1 := by
  refine ⟨?_, by positivity, ?_⟩
  · rw [div_eq_one_iff_eq (by norm_num)]
    constructor
    · intro h
      have : (16 * v1 + v2 : Nat) = 255 := by exact_mod_cast h
      omega
    · rintro ⟨rfl, rfl⟩
      norm_num
  · rw [div_le_one (by norm_num)]
    have : (16 * v1 + v2 : Nat) ≤ 255 := by omega
    exact_mod_cast this

/-- C18: for a colour literal of `#` and six hexadecimal digits, behind any
white space, `read_color` returns the three two-digit numbers divided by 255
and leaves what follows the literal; each component lies between 0 and 1;
`is_white` holds for the colour exactly when every digit is `F` or `f`; and
`print_text` paints a background rectangle for a character in a style with
this background exactly when some digit is not `F` or `f`. -/
theorem read_color_normalised (ws rest : List Nat) (d1 d2 d3 d4 d5 d6 v1 v2 v3 v4 v5 v6 : Nat)
    (hws : ∀ c ∈ ws, is_space c = true)
    (h1 : hex_value d1 = some v1) (h2 : hex_value d2 = some v2)
    (h3 : hex_value d3 = some v3) (h4 : hex_value d4 = some v4)
    (h5 : hex_value d5 = some v5) (h6 : hex_value d6 = some v6) :
    read_color (ws ++ 35 :: d1 :: d2 :: d3 :: d4 :: d5 :: d6 :: rest) =
      .ok (⟨(((16 * v1 + v2 : Nat) : Int) : ℚ) / 255, (((16 * v3 + v4 : Nat) : Int) : ℚ) / 255,
            (((16 * v5 + v6 : Nat) : Int) : ℚ) / 255⟩, rest) ∧
    (0 ≤ (((16 * v1 + v2 : Nat) : Int) : ℚ) / 255 ∧ (((16 * v1 + v2 : Nat) : Int) : ℚ) / 255 ≤ 1 ∧
     0 ≤ (((16 * v3 + v4 : Nat) : Int) : ℚ) / 255 ∧ (((16 * v3 + v4 : Nat) : Int) : ℚ) / 255 ≤ 1 ∧
     0 ≤ (((16 * v5 + v6 : Nat) : Int) : ℚ) / 255 ∧ (((16 * v5 + v6 : Nat) : Int) : ℚ) / 255 ≤ 1) ∧
    (is_white ⟨(((16 * v1 + v2 : Nat) : Int) : ℚ) / 255, (((16 * v3 + v4 : Nat) : Int) : ℚ) / 255,
            (((16 * v5 + v6 : Nat) : Int) : ℚ) / 255⟩ = true ↔
      (d1 = 70 ∨ d1 = 102) ∧ (d2 = 70 ∨ d2 = 102) ∧ (d3 = 70 ∨ d3 = 102) ∧
      (d4 = 70 ∨ d4 = 102) ∧ (d5 = 70 ∨ d5 = 102) ∧ (d6 = 70 ∨ d6 = 102)) ∧
    (∀ (hi : Highlight) (buf : List Nat) (adv : ℚ) (w : World),
      hi.bg = ⟨(((16 * v1 + v2 : Nat) : Int) : ℚ) / 255, (((16 * v3 + v4 : Nat) : Int) : ℚ) / 255,
            (((16 * v5 + v6 : Nat) : Int) : ℚ) / 255⟩ →
      (rectangles (print_text_draw hi buf adv w).cr.ops = rectangles w.cr.ops ↔
        (d1 = 70 ∨ d1 = 102) ∧ (d2 = 70 ∨ d2 = 102) ∧ (d3 = 70 ∨ d3 = 102) ∧
        (d4 = 70 ∨ d4 = 102) ∧ (d5 = 70 ∨ d5 = 102) ∧ (d6 = 70 ∨ d6 = 102))) := by
  obtain ⟨b1, -, -, -, -, -, f1⟩ := hex_value_facts h1
  obtain ⟨b2, -, -, -, -, -, f2⟩ := hex_value_facts h2
  obtain ⟨b3, -, -, -, -, -, f3⟩ := hex_value_facts h3
  obtain ⟨b4, -, -, -, -, -, f4⟩ := hex_value_facts h4
  obtain ⟨b5, -, -, -, -, -, f5⟩ := hex_value_facts h5
  obtain ⟨b6, -, -, -, -, -, f6⟩ := hex_value_facts h6
  obtain ⟨w12, p12, q12⟩ := hex_pair_white b1 b2
  obtain ⟨w34, p34, q34⟩ := hex_pair_white b3 b4
  obtain ⟨w56, p56, q56⟩ := hex_pair_white b5 b6
  have hwhite : is_white ⟨(((16 * v1 + v2 : Nat) : Int) : ℚ) / 255,
      (((16 * v3 + v4 : Nat) : Int) : ℚ) / 255, (((16 * v5 + v6 : Nat) : Int) : ℚ) / 255⟩ = true ↔
      (d1 = 70 ∨ d1 = 102) ∧ (d2 = 70 ∨ d2 = 102) ∧ (d3 = 70 ∨ d3 = 102) ∧
      (d4 = 70 ∨ d4 = 102) ∧ (d5 = 70 ∨ d5 = 102) ∧ (d6 = 70 ∨ d6 = 102) := by
    unfold is_white
    rw [decide_eq_true_iff]
    simp only [w12, w34, w56, f1, f2, f3, f4, f5, f6, and_assoc]
  refine ⟨?_, ⟨p12, q12, p34, q34, p56, q56⟩, hwhite, ?_⟩
  · have h35 : is_space 35 = false := by decide
    have hs : skip_space (ws ++ 35 :: d1 :: d2 :: d3 :: d4 :: d5 :: d6 :: rest)
        = 35 :: d1 :: d2 :: d3 :: d4 :: d5 :: d6 :: rest := by
      rw [skip_space_append ws (35 :: d1 :: d2 :: d3 :: d4 :: d5 :: d6 :: rest) hws]
      exact skip_space_cons 35 (d1 :: d2 :: d3 :: d4 :: d5 :: d6 :: rest) h35
    have e1 := scan_hex2_digits (d3 :: d4 :: d5 :: d6 :: rest) h1 h2
    have e2 := scan_hex2_digits (d5 :: d6 :: rest) h3 h4
    have e3 := scan_hex2_digits rest h5 h6
    unfold read_color
    rw [hs]
    simp only [if_true, e1, e2, e3]
  · intro hi buf adv w hbg
    rw [rectangles_draw, hbg, ← hwhite]
    by_cases hw : is_white ⟨(((16 * v1 + v2 : Nat) : Int) : ℚ) / 255,
      (((16 * v3 + v4 : Nat) : Int) : ℚ) / 255, (((16 * v5 + v6 : Nat) : Int) : ℚ) / 255⟩ = true
    · simp [hw]
    · simp [hw]

/-- Witness of C18: the literal `#ff8000` behind a blank is the colour
(1, 128/255, 0), which is not white, and `#FfFFfF` is white. -/
theorem read_color_normalised_witness :
    read_color (ascii " #ff8000 1") = .ok (⟨1, 128 / 255, 0⟩, ascii " 1") ∧
    is_white ⟨1, 128 / 255, 0⟩ = false ∧
    (read_color (ascii "#FfFFfF")).map (fun r => is_white r.1) = .ok true :=
  ⟨by
      have h := (read_color_normalised (ascii " ") (ascii " 1") 102 102 56 48 48 48
        15 15 8 0 0 0 (by decide) (by decide) (by decide) (by decide) (by decide) (by decide)
        (by decide)).1
      have e : (ascii " " ++ 35 :: 102 :: 102 :: 56 :: 48 :: 48 :: 48 :: ascii " 1")
          = ascii " #ff8000 1" := by decide
      rw [e] at h
      rw [h]
      norm_num,
   by
      have h := (read_color_normalised [] [] 102 102 56 48 48 48
        15 15 8 0 0 0 (by decide) (by decide) (by decide) (by decide) (by decide) (by decide)
        (by decide)).2.2.1
      cases hw : is_white ⟨1, 128 / 255, 0⟩ with
      | false => rfl
      | true =>
        have h2 : is_white ⟨(((16 * 15 + 15 : Nat) : Int) : ℚ) / 255,
            (((16 * 8 + 0 : Nat) : Int) : ℚ) / 255, (((16 * 0 + 0 : Nat) : Int) : ℚ) / 255⟩
            = true := by
          norm_num
          exact hw
        have := h.1 h2
        omega,
   by
      have h := read_color_normalised [] [] 70 102 70 70 102 70
        15 15 15 15 15 15 (by decide) (by decide) (by decide) (by decide) (by decide) (by decide)
        (by decide)
      have e : ([] ++ 35 :: 70 :: 102 :: 70 :: 70 :: 102 :: 70 :: ([] : List Nat))
          = ascii "#FfFFfF" := by decide
      rw [e] at h
      rw [h.1]
      simp only [Except.map]
      rw [h.2.2.1.2 (by decide)]⟩

/-! ## One round of the text loop -/

theorem print_text_wrap_stay (np : World → Except Err World) (adv : ℚ) (w : World)
    (h : ¬ w.pc.x + adv > w.options.paper_width - w.options.margin_right) :
    print_text_wrap np adv w = .ok w := by
  unfold print_text_wrap
  rw [if_neg h]

theorem print_text_wrap_line (np : World → Except Err World) (adv : ℚ) (w : World)
    (h : w.pc.x + adv > w.options.paper_width - w.options.margin_right)
    (hv : ¬ w.down.overflows) :
    print_text_wrap np adv w = .ok w.down.to_line_start := by
  unfold print_text_wrap
  rw [if_pos h]
  unfold World.overflows World.down at hv
  simp only [gt_iff_lt] at hv ⊢
  rw [if_neg hv]
  rfl

theorem print_text_wrap_page (np : World → Except Err World) (adv : ℚ) (w : World)
    (h : w.pc.x + adv > w.options.paper_width - w.options.margin_right)
    (hv : w.down.overflows) :
    print_text_wrap np adv w = (np w.down).map World.to_line_start := by
  unfold print_text_wrap
  rw [if_pos h]
  unfold World.overflows World.down at hv
  simp only [gt_iff_lt] at hv ⊢
  rw [if_pos hv]
  rfl

/-- One round of the loop: the wrap test, the character, the rest of the text. -/
theorem print_text_loop_round (be : Backend) (np : World → Except Err World) (hi : Highlight)
    (n : Nat) (c : Nat) (rest : List Nat) (w : World) (len : Nat)
    (hl : utf8len c = .ok len) (hlen : len ≤ (c :: rest).length) :
    print_text_loop be np hi (n + 1) (c :: rest) w =
      (print_text_wrap np (be.x_advance w.cr.font ((c :: rest).take len)) w).bind fun w1 =>
        print_text_loop be np hi n ((c :: rest).drop len)
          (w1.glyph hi ((c :: rest).take len) (be.x_advance w.cr.font ((c :: rest).take len))) := by
  rw [print_text_loop, hl]
  simp only [Except.bind, hlen, if_true]
  rfl

theorem glyph_fields (w : World) (hi : Highlight) (buf : List Nat) (adv : ℚ) :
    (w.glyph hi buf adv).options = w.options ∧ (w.glyph hi buf adv).cr.font = w.cr.font ∧
    (w.glyph hi buf adv).pc = { w.pc with x := w.pc.x + adv } ∧
    (w.glyph hi buf adv).cr.surface = w.cr.surface := by
  unfold World.glyph print_text_draw
  by_cases h : is_white hi.bg = true <;> simp [h, World.emit]

/-- The drawing calls of one round: the background rectangle at the cursor,
as wide as the advance and one line high, unless the background is white;
then the glyph at the cursor. -/
theorem glyph_ops (w : World) (hi : Highlight) (buf : List Nat) (adv : ℚ) :
    (w.glyph hi buf adv).cr.ops =
      w.cr.ops ++
        ((if is_white hi.bg then []
          else [Op.set_source_rgb hi.bg.r hi.bg.g hi.bg.b,
                Op.rectangle w.pc.x w.pc.y adv w.pc.font_height, Op.fill]) ++
         [Op.set_source_rgb hi.fg.r hi.fg.g hi.fg.b,
          Op.move_to w.pc.x (w.pc.y + w.pc.font_height - w.pc.font_descent),
          Op.show_text w.pc.pagenum buf]) := by
  unfold World.glyph print_text_draw
  by_cases h : is_white hi.bg = true <;> simp [h, World.emit]

/-! ## A run that is not wrapped -/

theorem print_text_loop_fits_eq (be : Backend) (np : World → Except Err World) (hi : Highlight) :
    ∀ (n : Nat) (text : List Nat) (w : World),
      fits be w.cr.font (w.options.paper_width - w.options.margin_right) n text w.pc.x = true →
      print_text_loop be np hi n text w = .ok (run_glyphs be hi (characters n text) w) := by
  intro n
  induction n with
  | zero =>
    intro text w h
    cases text with
    | nil => simp [print_text_loop, characters, run_glyphs]
    | cons c rest => simp [fits] at h
  | succ n ih =>
    intro text w h
    cases text with
    | nil => simp [print_text_loop, characters, run_glyphs]
    | cons c rest =>
      simp only [fits] at h
      cases hl : utf8len c with
      | error e => rw [hl] at h; simp at h
      | ok len =>
        rw [hl] at h
        simp only [Bool.and_eq_true, decide_eq_true_eq] at h
        obtain ⟨⟨hx, hlen⟩, hrest⟩ := h
        rw [print_text_loop_round be np hi n c rest w len hl hlen,
          print_text_wrap_stay np _ w (not_lt.mpr hx)]
        simp only [Except.bind, characters, hl, hlen, if_true, run_glyphs]
        obtain ⟨ho, hf, hpc, -⟩ := glyph_fields w hi (List.take len (c :: rest))
          (be.x_advance w.cr.font (List.take len (c :: rest)))
        exact ih _ _ (by rw [hf, ho, hpc]; exact hrest)

theorem pen_positions_append (a b : List Op) :
    pen_positions (a ++ b) = pen_positions a ++ pen_positions b := by
  induction a with
  | nil => rfl
  | cons op ops ih => cases op <;> simp [pen_positions, ih]

theorem drawn_text_append (a b : List Op) :
    drawn_text (a ++ b) = drawn_text a ++ drawn_text b := by
  induction a with
  | nil => rfl
  | cons op ops ih => cases op <;> simp [drawn_text, ih]

/-- What a row of characters drawn side by side leaves: the cursor has moved
right by the sum of the advances, nothing else of the print context has
changed, the rectangles painted lie side by side from the old cursor on (none
on a white background), and so do the pen positions on the base line. -/
theorem run_glyphs_spec (be : Backend) (hi : Highlight) :
    ∀ (chars : List (List Nat)) (w : World),
      (run_glyphs be hi chars w).options = w.options ∧
      (run_glyphs be hi chars w).cr.font = w.cr.font ∧
      (run_glyphs be hi chars w).cr.surface = w.cr.surface ∧
      (run_glyphs be hi chars w).pc =
        { w.pc with x := w.pc.x + (chars.map (be.x_advance w.cr.font)).sum } ∧
      rectangles (run_glyphs be hi chars w).cr.ops =
        rectangles w.cr.ops ++
          (if is_white hi.bg then []
           else boxes (be.x_advance w.cr.font) w.pc.y w.pc.font_height w.pc.x chars) ∧
      pen_positions (run_glyphs be hi chars w).cr.ops =
        pen_positions w.cr.ops ++
          pens (be.x_advance w.cr.font) (w.pc.y + w.pc.font_height - w.pc.font_descent)
            w.pc.x chars ∧
      drawn_text (run_glyphs be hi chars w).cr.ops = drawn_text w.cr.ops ++ chars ∧
      drawn_on w.pc.pagenum w (run_glyphs be hi chars w) ∧
      (run_glyphs be hi chars w).flushes = w.flushes := by
  intro chars
  induction chars with
  | nil =>
    intro w
    refine ⟨rfl, rfl, rfl, by simp [run_glyphs], ?_, by simp [run_glyphs, pens],
      by simp [run_glyphs], drawn_on_refl _ _, rfl⟩
    by_cases h : is_white hi.bg = true <;> simp [run_glyphs, boxes, h]
  | cons buf rest ih =>
    intro w
    obtain ⟨ho, hf, hpc, hs⟩ := glyph_fields w hi buf (be.x_advance w.cr.font buf)
    have hops := glyph_ops w hi buf (be.x_advance w.cr.font buf)
    obtain ⟨i1, i2, i3, i4, i5, i6, i7, i8, i9⟩ :=
      ih (w.glyph hi buf (be.x_advance w.cr.font buf))
    simp only [run_glyphs]
    refine ⟨by rw [i1, ho], by rw [i2, hf], by rw [i3, hs], ?_, ?_, ?_, ?_, ?_, ?_⟩
    · rw [i4, hf, hpc]
      simp [add_assoc]
    · rw [i5, hf, hpc, hops]
      by_cases h : is_white hi.bg = true
      · simp [h, rectangles_append, rectangles]
      · simp [h, rectangles_append, rectangles, boxes]
    · rw [i6, hf, hpc, hops]
      by_cases h : is_white hi.bg = true
      · simp [h, pen_positions_append, pen_positions, pens]
      · simp [h, pen_positions_append, pen_positions, pens]
    · rw [i7, hops]
      by_cases h : is_white hi.bg = true
      · simp [h, drawn_text_append, drawn_text]
      · simp [h, drawn_text_append, drawn_text]
    · have e : (w.glyph hi buf (be.x_advance w.cr.font buf)).pc.pagenum = w.pc.pagenum := by
        rw [hpc]
      rw [e] at i8
      refine drawn_on_trans ⟨_, hops, ?_⟩ i8
      intro q hq
      by_cases h : is_white hi.bg = true
      · simp [h, drawn_pages] at hq
        exact hq
      · simp [h, drawn_pages] at hq
        exact hq
    · rw [i9]
      unfold World.flushes
      rw [hops]
      by_cases h : is_white hi.bg = true <;> simp [h, List.count_append]

/-! ## Wrapping policy: the claim -/

/-- A page turn that returns has counted at least one page. -/
theorem newpage_advances (be : Backend) (fuel : Nat) (w w2 : World)
    (h : newpage be fuel w = .ok w2) : w.pc.pagenum + 1 ≤ w2.pc.pagenum := by
  have hst : Stable (fun v : World => w.pc.pagenum + 1 ≤ v.pc.pagenum) := by
    intro a b hab ha
    show w.pc.pagenum + 1 ≤ b.pc.pagenum
    rw [hab.2.1]
    exact ha
  have hturn : ∀ v : World, w.pc.pagenum + 1 ≤ v.pc.pagenum → w.pc.pagenum + 1 ≤ v.turn.pc.pagenum := by
    intro v hv
    rw [turn_pagenum]
    omega
  cases fuel with
  | zero => simp [newpage] at h
  | succ fuel =>
    simp only [newpage] at h
    change Except.map _ (print_header be (newpage be fuel) w.turn) = _ at h
    cases hp : print_header be (newpage be fuel) w.turn with
    | error e => rw [hp] at h; simp [Except.map] at h
    | ok w3 =>
      rw [hp] at h
      simp only [Except.map, Except.ok.injEq] at h
      have h3 := print_header_keeps _ hst be (newpage be fuel)
        (newpage_keeps _ hst hturn be fuel) w.turn w3 (by rw [turn_pagenum]) hp
      rw [← h]
      exact h3

theorem run_advance_eq (be : Backend) (font : FontSel) (text : List Nat) :
    run_advance be font text = ((characters text.length text).map (be.x_advance font)).sum := rfl

/-- C12: one round of the loop of `print_text` for a character `buf` of
advance `a`.  If x + a does not exceed paper_width - margin_right, the
character is drawn at the cursor as it is.  If it does, y is first increased
by one line height; when the new y + line_height does not exceed
paper_height - margin_bottom, no page is turned and x is set to
margin_left + gutter width; when it does, `newpage` is called, and x is set
to margin_left + gutter width behind it.  In each case the glyph is drawn at
the cursor that results and x is then increased by exactly `a`.  A run in
which no character meets the wrap test returns, moves x by the sum of the
advances of its characters and leaves y, the page counter and everything else
in the print context as they were. -/
theorem print_text_wrapping_policy (be : Backend) (fuel : Nat) (hi : Highlight) (n : Nat)
    (c : Nat) (rest : List Nat) (w : World) (len : Nat) (buf : List Nat) (a : ℚ)
    (hl : utf8len c = .ok len) (hlen : len ≤ (c :: rest).length)
    (hbuf : buf = (c :: rest).take len) (ha : a = be.x_advance w.cr.font buf) :
    (¬ w.pc.x + a > w.options.paper_width - w.options.margin_right →
      print_text_loop be (newpage be fuel) hi (n + 1) (c :: rest) w =
        print_text_loop be (newpage be fuel) hi n ((c :: rest).drop len) (w.glyph hi buf a)) ∧
    (w.pc.x + a > w.options.paper_width - w.options.margin_right →
      ¬ w.pc.y + w.pc.font_height + w.pc.font_height >
          w.options.paper_height - w.options.margin_bottom →
      print_text_loop be (newpage be fuel) hi (n + 1) (c :: rest) w =
        print_text_loop be (newpage be fuel) hi n ((c :: rest).drop len)
          (w.down.to_line_start.glyph hi buf a) ∧
      w.down.to_line_start.pc =
        { w.pc with y := w.pc.y + w.pc.font_height,
                    x := w.options.margin_left + w.pc.numberwidth } ∧
      w.down.to_line_start.cr = w.cr) ∧
    (w.pc.x + a > w.options.paper_width - w.options.margin_right →
      w.pc.y + w.pc.font_height + w.pc.font_height >
          w.options.paper_height - w.options.margin_bottom →
      (∀ e, newpage be fuel w.down = .error e →
        print_text_loop be (newpage be fuel) hi (n + 1) (c :: rest) w = .error e) ∧
      (∀ w1, newpage be fuel w.down = .ok w1 →
        print_text_loop be (newpage be fuel) hi (n + 1) (c :: rest) w =
          print_text_loop be (newpage be fuel) hi n ((c :: rest).drop len)
            (w1.to_line_start.glyph hi buf a) ∧
        w.pc.pagenum + 1 ≤ w1.to_line_start.pc.pagenum ∧
        w1.to_line_start.pc.x = w.options.margin_left + w.pc.numberwidth)) ∧
    (∀ v : World,
      (v.glyph hi buf a).pc = { v.pc with x := v.pc.x + a } ∧
      pen_positions (v.glyph hi buf a).cr.ops =
        pen_positions v.cr.ops ++ [(v.pc.x, v.pc.y + v.pc.font_height - v.pc.font_descent)] ∧
      drawn_text (v.glyph hi buf a).cr.ops = drawn_text v.cr.ops ++ [buf] ∧
      (v.glyph hi buf a).flushes = v.flushes) ∧
    (∀ (text : List Nat) (v : World) (f : FontSel),
      select_font be v.options.font_name v.options.font_size hi.bold hi.italic = .ok f →
      fits be f (v.options.paper_width - v.options.margin_right) text.length text v.pc.x = true →
      ∃ v2, print_text be (newpage be fuel) text hi v = .ok v2 ∧
        v2.pc = { v.pc with x := v.pc.x + run_advance be f text } ∧
        v2.options = v.options ∧ v2.flushes = v.flushes ∧
        drawn_text v2.cr.ops = drawn_text v.cr.ops ++ characters text.length text) := by
  subst hbuf
  subst ha
  have hround := print_text_loop_round be (newpage be fuel) hi n c rest w len hl hlen
  refine ⟨?_, ?_, ?_, ?_, ?_⟩
  · intro h
    rw [hround, print_text_wrap_stay _ _ w h]
    rfl
  · intro h hv
    have hv2 : ¬ w.down.overflows := hv
    rw [hround, print_text_wrap_line _ _ w h hv2]
    exact ⟨rfl, rfl, rfl⟩
  · intro h hv
    have hv2 : w.down.overflows := hv
    rw [hround, print_text_wrap_page _ _ w h hv2]
    refine ⟨?_, ?_⟩
    · intro e he
      rw [he]
      rfl
    · intro w1 h1
      rw [h1]
      refine ⟨rfl, ?_, ?_⟩
      · have := newpage_advances be fuel w.down w1 h1
        exact this
      · have := (newpage_cursor be fuel w.down w1 h1).1
        have ho : w1.options = w.options :=
          newpage_keeps _ (stable_options w.options) (turn_options w.options) be fuel
            w.down w1 rfl h1
        have hl := newpage_keeps _ (stable_layout w) (turn_layout w) be fuel
            w.down w1 ⟨rfl, rfl, rfl⟩ h1
        show w1.options.margin_left + w1.pc.numberwidth = _
        rw [ho, hl.2.1]
  · intro v
    obtain ⟨-, -, hpc, -⟩ := glyph_fields v hi (List.take len (c :: rest))
      (be.x_advance w.cr.font (List.take len (c :: rest)))
    have hops := glyph_ops v hi (List.take len (c :: rest))
      (be.x_advance w.cr.font (List.take len (c :: rest)))
    refine ⟨hpc, ?_, ?_, ?_⟩
    · rw [hops]
      by_cases hw : is_white hi.bg = true <;>
        simp [hw, pen_positions_append, pen_positions]
    · rw [hops]
      by_cases hw : is_white hi.bg = true <;>
        simp [hw, drawn_text_append, drawn_text]
    · unfold World.flushes
      rw [hops]
      by_cases hw : is_white hi.bg = true <;> simp [hw, List.count_append]
  · intro text v f hf hfit
    unfold print_text set_font
    rw [hf]
    simp only [Except.map, Except.bind]
    rw [print_text_loop_fits_eq be (newpage be fuel) hi text.length text _ (by simpa using hfit)]
    obtain ⟨i1, -, -, i4, -, -, i7, -, i9⟩ := run_glyphs_spec be hi
      (characters text.length text) { v with cr := { v.cr with font := f } }
    exact ⟨_, rfl, by rw [i4]; rfl, i1, i9, i7⟩

/-- Witness of C12: on page 1 of the sample document, with an advance of 7,
"a" is drawn in place at x = 41; at x = 185 it is wrapped to the next line at
x = 41; at x = 185 on the last line of the page the page is turned first; and
the run "ab" moves x from 41 by 14. -/
theorem print_text_wrapping_policy_witness :
    (print_text_loop mono (newpage mono 1) World.init.pc.hi 2 (ascii "ab") sample_open_page =
      print_text_loop mono (newpage mono 1) World.init.pc.hi 1 (ascii "b")
        (sample_open_page.glyph World.init.pc.hi (ascii "a") 7)) ∧
    (print_text_loop mono (newpage mono 1) World.init.pc.hi 2 (ascii "ab")
        { sample_open_page with pc := { sample_open_page.pc with x := 185 } } =
      print_text_loop mono (newpage mono 1) World.init.pc.hi 1 (ascii "b")
        (World.glyph (World.to_line_start (World.down
          { sample_open_page with pc := { sample_open_page.pc with x := 185 } }))
          World.init.pc.hi (ascii "a") 7)) ∧
    (∃ w1, newpage mono 1 (World.down
          { sample_open_page with pc := { sample_open_page.pc with x := 185, y := 170 } })
        = .ok w1 ∧
      print_text_loop mono (newpage mono 1) World.init.pc.hi 2 (ascii "ab")
          { sample_open_page with pc := { sample_open_page.pc with x := 185, y := 170 } } =
        print_text_loop mono (newpage mono 1) World.init.pc.hi 1 (ascii "b")
          (w1.to_line_start.glyph World.init.pc.hi (ascii "a") 7) ∧
      (1 : Int) + 1 ≤ w1.to_line_start.pc.pagenum ∧
      w1.to_line_start.pc.x = 10 + 31) ∧
    (∃ v2, print_text mono (newpage mono 1) (ascii "ab") World.init.pc.hi sample_open_page
        = .ok v2 ∧
      v2.pc = { sample_open_page.pc with
        x := 41 + run_advance mono (FontSel.toy (ascii "Mono") 10 false false) (ascii "ab") } ∧
      run_advance mono (FontSel.toy (ascii "Mono") 10 false false) (ascii "ab") = 14) :=
  ⟨(print_text_wrapping_policy mono 1 World.init.pc.hi 1 97 [98] sample_open_page 1 [97] 7
      (by decide) (by decide) (by decide) (by decide!)).1 (by decide!),
   ((print_text_wrapping_policy mono 1 World.init.pc.hi 1 97 [98]
      { sample_open_page with pc := { sample_open_page.pc with x := 185 } } 1 [97] 7
      (by decide) (by decide) (by decide) (by decide!)).2.1 (by decide!) (by decide!)).1,
   (exists_ok (x := newpage mono 1 (World.down
          { sample_open_page with pc := { sample_open_page.pc with x := 185, y := 170 } }))
      (by decide!)).elim fun w1 h1 => ⟨w1, h1,
        (((print_text_wrapping_policy mono 1 World.init.pc.hi 1 97 [98]
          { sample_open_page with pc := { sample_open_page.pc with x := 185, y := 170 } }
          1 [97] 7 (by decide) (by decide) (by decide) (by decide!)).2.2.1
          (by decide!) (by decide!)).2 w1 h1)⟩,
   ((print_text_wrapping_policy mono 1 World.init.pc.hi 1 97 [98] sample_open_page 1 [97] 7
      (by decide) (by decide) (by decide) (by decide!)).2.2.2.2 (ascii "ab") sample_open_page
      (FontSel.toy (ascii "Mono") 10 false false) (by decide) (by decide!)).elim
      fun v2 h => ⟨v2, h.1, h.2.1, by decide!⟩⟩

/-! ## Properties of the drawing calls kept by the text loop -/

theorem utf8len_range {c len : Nat} (h : utf8len c = .ok len) : 1 ≤ len ∧ len ≤ 6 := by
  unfold utf8len at h
  simp only at h
  split_ifs at h <;> simp only [Except.ok.injEq, reduceCtorEq] at h <;> omega

/-- The three ways the wrap test can go. -/
theorem print_text_wrap_cases (np : World → Except Err World) (adv : ℚ) (w w1 : World)
    (h : print_text_wrap np adv w = .ok w1) :
    (¬ w.pc.x + adv > w.options.paper_width - w.options.margin_right ∧ w1 = w) ∨
    (w.pc.x + adv > w.options.paper_width - w.options.margin_right ∧ ¬ w.down.overflows ∧
      w1 = w.down.to_line_start) ∨
    (w.pc.x + adv > w.options.paper_width - w.options.margin_right ∧ w.down.overflows ∧
      ∃ w0, np w.down = .ok w0 ∧ w1 = w0.to_line_start) := by
  by_cases hx : w.pc.x + adv > w.options.paper_width - w.options.margin_right
  · by_cases hv : w.down.overflows
    · rw [print_text_wrap_page np adv w hx hv] at h
      cases h0 : np w.down with
      | error e => rw [h0] at h; simp [Except.map] at h
      | ok w0 =>
        rw [h0] at h
        simp only [Except.map, Except.ok.injEq] at h
        exact Or.inr (Or.inr ⟨hx, hv, w0, rfl, h.symm⟩)
    · rw [print_text_wrap_line np adv w hx hv] at h
      simp only [Except.ok.injEq] at h
      exact Or.inr (Or.inl ⟨hx, hv, h.symm⟩)
  · rw [print_text_wrap_stay np adv w hx] at h
    simp only [Except.ok.injEq] at h
    exact Or.inl ⟨hx, h.symm⟩

theorem advance_nil (be : Backend) (f : FontSel)
    (hadd : ∀ s t, be.x_advance f (s ++ t) = be.x_advance f s + be.x_advance f t) :
    be.x_advance f [] = 0 := by
  have := hadd [] []
  simp only [List.append_nil] at this
  linarith

/-- With advances that add up and are not negative, a text that the loop can
take apart and that ends at or before the limit is not wrapped, and the
advances of its characters add up to the advance of the text. -/
theorem fits_of_additive (be : Backend) (f : FontSel) (limit : ℚ)
    (hadd : ∀ s t, be.x_advance f (s ++ t) = be.x_advance f s + be.x_advance f t)
    (hpos : ∀ s, 0 ≤ be.x_advance f s) :
    ∀ (n : Nat) (text : List Nat) (x : ℚ), well_formed n text = true →
      x + be.x_advance f text ≤ limit →
      fits be f limit n text x = true ∧
      ((characters n text).map (be.x_advance f)).sum = be.x_advance f text := by
  intro n
  induction n with
  | zero =>
    intro text x hwf hx
    cases text with
    | nil => simp [fits, characters, advance_nil be f hadd]
    | cons c rest => simp [well_formed] at hwf
  | succ n ih =>
    intro text x hwf hx
    cases text with
    | nil => simp [fits, characters, advance_nil be f hadd]
    | cons c rest =>
      simp only [well_formed] at hwf
      cases hl : utf8len c with
      | error e => rw [hl] at hwf; simp at hwf
      | ok len =>
        rw [hl] at hwf
        simp only [Bool.and_eq_true, decide_eq_true_eq] at hwf
        obtain ⟨hlen, hrest⟩ := hwf
        have hsplit : be.x_advance f (c :: rest) =
            be.x_advance f (List.take len (c :: rest)) +
              be.x_advance f (List.drop len (c :: rest)) := by
          rw [← hadd, List.take_append_drop]
        have h2 := hpos (List.drop len (c :: rest))
        obtain ⟨i1, i2⟩ := ih (List.drop len (c :: rest))
          (x + be.x_advance f (List.take len (c :: rest))) hrest (by linarith)
        have hlen3 : len ≤ rest.length + 1 := by simpa using hlen
        refine ⟨?_, ?_⟩
        · simp only [fits, hl, Bool.and_eq_true, decide_eq_true_eq]
          exact ⟨⟨by linarith, hlen⟩, i1⟩
        · rw [hsplit]
          simp only [characters, hl, if_pos hlen, List.map_cons, List.sum_cons, i2]

/-- A text whose characters add up to more than what is left of the line, on
a line so low that the next one does not fit: the loop of `print_text`
reaches a call of `newpage`, with the options and the page counter it was
entered with. -/
theorem print_text_loop_reaches_newpage (be : Backend) (np : World → Except Err World)
    (hi : Highlight) (e : Err) (o : Options) (p : Int) (f : FontSel) (fh : ℚ)
    (hnp : ∀ v : World, v.options = o → v.pc.pagenum = p → v.pc.font_height = fh →
      v.cr.font = f → np v = .error e) :
    ∀ (n : Nat) (text : List Nat) (w : World),
      w.options = o → w.pc.pagenum = p → w.pc.font_height = fh → w.cr.font = f →
      well_formed n text = true →
      w.pc.x ≤ o.paper_width - o.margin_right →
      w.pc.x + ((characters n text).map (be.x_advance f)).sum
        > o.paper_width - o.margin_right →
      w.pc.y + fh + fh > o.paper_height - o.margin_bottom →
      print_text_loop be np hi n text w = .error e := by
  intro n
  induction n with
  | zero =>
    intro text w ho hp hh hf hwf hx hwide hv
    cases text with
    | nil =>
      simp only [characters, List.map_nil, List.sum_nil, add_zero] at hwide
      linarith
    | cons c rest => simp [well_formed] at hwf
  | succ n ih =>
    intro text w ho hp hh hf hwf hx hwide hv
    cases text with
    | nil =>
      simp only [characters, List.map_nil, List.sum_nil, add_zero] at hwide
      linarith
    | cons c rest =>
      simp only [well_formed] at hwf
      cases hl : utf8len c with
      | error e2 => rw [hl] at hwf; simp at hwf
      | ok len =>
        rw [hl] at hwf
        simp only [Bool.and_eq_true, decide_eq_true_eq] at hwf
        obtain ⟨hlen, hrest⟩ := hwf
        have hch : characters (n + 1) (c :: rest)
            = (c :: rest).take len :: characters n ((c :: rest).drop len) := by
          simp only [characters, hl, if_pos hlen]
        rw [hch] at hwide
        simp only [List.map_cons, List.sum_cons] at hwide
        rw [print_text_loop_round be np hi n c rest w len hl hlen, hf]
        by_cases hw : w.pc.x + be.x_advance f (List.take len (c :: rest)) >
            w.options.paper_width - w.options.margin_right
        · have hov : w.down.overflows := by
            unfold World.overflows World.down
            simp only [ho, hh]
            exact hv
          rw [print_text_wrap_page np _ w hw hov,
            hnp w.down (by exact ho) (by exact hp) (by exact hh) (by exact hf)]
          rfl
        · rw [print_text_wrap_stay np _ w hw]
          simp only [Except.bind]
          obtain ⟨g1, g2, g3, -⟩ := glyph_fields w hi (List.take len (c :: rest))
            (be.x_advance f (List.take len (c :: rest)))
          rw [ho] at hw
          refine ih _ _ (g1.trans ho) (by rw [g3]; exact hp) (by rw [g3]; exact hh)
            (g2.trans hf) hrest ?_ ?_ ?_
          · rw [g3]
            simp only
            linarith
          · rw [g3]
            simp only
            linarith
          · rw [g3]
            exact hv

/-- The header of the page that is open, with a left text wider than the
printable width and no room for a second line below margin_top: `print_header`
of the cairo backend calls `newpage`, with the options and the page counter
it was entered with. -/
theorem print_header_reaches_newpage (be : Backend) (np : World → Except Err World) (e : Err)
    (w : World) (fmt : List Nat) (lr : List Nat × List Nat) (f : FontSel)
    (hfmt : w.options.header_format = some fmt) (hne : fmt ≠ [])
    (hx : header_expand fmt w.pc.pagenum = .ok lr)
    (hf : select_font be w.options.font_name w.options.font_size 0 0 = .ok f)
    (hwf : well_formed lr.1.length lr.1 = true)
    (hW : 0 ≤ w.options.paper_width - w.options.margin_left - w.options.margin_right)
    (hwide : run_advance be f lr.1 >
      w.options.paper_width - w.options.margin_left - w.options.margin_right)
    (hv : w.options.margin_top + 2 * w.pc.font_height >
      w.options.paper_height - w.options.margin_bottom)
    (hnp : ∀ v : World, v.options = w.options → v.pc.pagenum = w.pc.pagenum →
      v.pc.font_height = w.pc.font_height → v.cr.font = f → np v = .error e) :
    print_header be np w = .error e := by
  unfold print_header
  rw [hfmt]
  simp only [hne, if_false, hx, Except.bind]
  have hleft : print_text be np lr.1 (fixed_highlight "PageHeader")
      { w with pc := { w.pc with x := w.options.margin_left, y := w.options.margin_top } }
      = .error e := by
    unfold print_text set_font
    have hf2 : select_font be w.options.font_name w.options.font_size
        (fixed_highlight "PageHeader").bold (fixed_highlight "PageHeader").italic = .ok f := hf
    simp only
    rw [hf2]
    simp only [Except.map, Except.bind]
    have hwide2 : w.options.margin_left + ((characters lr.1.length lr.1).map
        (be.x_advance f)).sum > w.options.paper_width - w.options.margin_right := by
      rw [← run_advance_eq]
      linarith
    exact print_text_loop_reaches_newpage be np _ e w.options w.pc.pagenum f w.pc.font_height
      hnp _ _ _ rfl rfl rfl rfl hwf (by simp only; linarith) hwide2
      (by simp only; linarith)
  rw [hleft]

/-- The same in the pangocairo backend: the layout of the left text has a
line, and there is no room for a line at margin_top. -/
theorem Pango.print_header_reaches_newpage_pango (pbe : PangoBackend)
    (np : World → Except Err World) (e : Err)
    (w : World) (fmt : List Nat) (lr : List Nat × List Nat)
    (hfmt : w.options.header_format = some fmt) (hne : fmt ≠ [])
    (hx : header_expand fmt w.pc.pagenum = .ok lr)
    (hlines : pbe.lines w.options.font_name w.options.font_size
      (w.options.paper_width - w.options.margin_left - w.options.margin_right
        - w.pc.numberwidth) lr.1 ≠ [])
    (hv : w.options.margin_top + w.pc.font_height >
      w.options.paper_height - w.options.margin_bottom)
    (hnp : ∀ v : World, v.options = w.options → v.pc.pagenum = w.pc.pagenum →
      v.pc.font_height = w.pc.font_height → v.pc.numberwidth = w.pc.numberwidth →
      np v = .error e) :
    Pango.print_header pbe np w = .error e := by
  unfold Pango.print_header
  rw [hfmt]
  simp only [hne, if_false, hx, Except.bind]
  have hleft : Pango.print_text pbe np lr.1
      { w with pc := { w.pc with x := w.options.margin_left, y := w.options.margin_top } }
      = .error e := by
    unfold Pango.print_text
    simp only
    cases hl : pbe.lines w.options.font_name w.options.font_size
      (w.options.paper_width - w.options.margin_left - w.options.margin_right
        - w.pc.numberwidth) lr.1 with
    | nil => exact absurd hl hlines
    | cons line rest =>
      simp only [Pango.print_text_lines, ne_eq, not_true_eq_false, if_false]
      rw [if_pos (by simpa using hv)]
      rw [hnp { w with pc := { w.pc with x := w.options.margin_left, y := w.options.margin_top } }
        rfl rfl rfl rfl]
      rfl
  rw [hleft]

/-- The page turn of the cairo backend does not return within any budget, if
on every page it would open the left text of the header is wider than the
printable width and there is no room for a second line below margin_top. -/
theorem newpage_runs_out (be : Backend) (o : Options) (fmt : List Nat) (f : FontSel) (fh : ℚ)
    (hfmt : o.header_format = some fmt) (hne : fmt ≠ [])
    (hf : select_font be o.font_name o.font_size 0 0 = .ok f)
    (hW : 0 ≤ o.paper_width - o.margin_left - o.margin_right)
    (hv : o.margin_top + 2 * fh > o.paper_height - o.margin_bottom) :
    ∀ (fuel : Nat) (w : World), w.options = o → w.pc.font_height = fh →
      (∀ p : Int, w.pc.pagenum < p → p ≤ w.pc.pagenum + fuel →
        ∃ lr, header_expand fmt p = .ok lr ∧ well_formed lr.1.length lr.1 = true ∧
          run_advance be f lr.1 > o.paper_width - o.margin_left - o.margin_right) →
      newpage be fuel w = .error Err.fuel := by
  intro fuel
  induction fuel with
  | zero => intro w _ _ _; rfl
  | succ fuel ih =>
    intro w ho hh hp
    obtain ⟨t1, -, t3, -, -, -, -⟩ := turn_rest w
    obtain ⟨lr, hx, hwf, hwide⟩ := hp (w.pc.pagenum + 1) (by omega) (by push_cast; omega)
    simp only [newpage]
    change Except.map _ (print_header be (newpage be fuel) w.turn) = _
    rw [print_header_reaches_newpage be (newpage be fuel) Err.fuel w.turn fmt lr f
      (by rw [t1, ho]; exact hfmt) hne (by rw [turn_pagenum]; exact hx)
      (by rw [t1, ho]; exact hf) hwf (by rw [t1, ho]; exact hW)
      (by rw [t1, ho]; exact hwide) (by rw [t1, ho, t3, hh]; exact hv) ?_]
    · rfl
    · intro v vo vp vh _
      refine ih v (vo.trans (t1.trans ho)) (vh.trans (t3.trans hh)) ?_
      intro p hp1 hp2
      rw [vp, turn_pagenum] at hp1 hp2
      exact hp p (by omega) (by push_cast; omega)

/-- The page turn of the pangocairo backend does not return within any
budget, if there is no room for a line at margin_top and the layout of the
left text of the header has a line on every page it would open. -/
theorem Pango.newpage_runs_out_pango (pbe : PangoBackend) (o : Options) (fmt : List Nat)
    (fh nw : ℚ)
    (hfmt : o.header_format = some fmt) (hne : fmt ≠ [])
    (hv : o.margin_top + fh > o.paper_height - o.margin_bottom) :
    ∀ (fuel : Nat) (w : World), w.options = o → w.pc.font_height = fh →
      w.pc.numberwidth = nw →
      (∀ p : Int, w.pc.pagenum < p → p ≤ w.pc.pagenum + fuel →
        ∃ lr, header_expand fmt p = .ok lr ∧
          pbe.lines o.font_name o.font_size
            (o.paper_width - o.margin_left - o.margin_right - nw) lr.1 ≠ []) →
      Pango.newpage pbe fuel w = .error Err.fuel := by
  intro fuel
  induction fuel with
  | zero => intro w _ _ _ _; rfl
  | succ fuel ih =>
    intro w ho hh hn hp
    obtain ⟨t1, -, t3, t4, -, -, -⟩ := turn_rest w
    obtain ⟨lr, hx, hlines⟩ := hp (w.pc.pagenum + 1) (by omega) (by push_cast; omega)
    simp only [Pango.newpage]
    change Except.map _ (Pango.print_header pbe (Pango.newpage pbe fuel) w.turn) = _
    rw [Pango.print_header_reaches_newpage_pango pbe (Pango.newpage pbe fuel) Err.fuel w.turn
      fmt lr (by rw [t1, ho]; exact hfmt) hne (by rw [turn_pagenum]; exact hx)
      (by rw [t1, ho, t4, hn]; exact hlines) (by rw [t1, ho, t3, hh]; exact hv) ?_]
    · rfl
    · intro v vo vp vh vn
      refine ih v (vo.trans (t1.trans ho)) (vh.trans (t3.trans hh)) (vn.trans (t4.trans hn)) ?_
      intro p hp1 hp2
      rw [vp, turn_pagenum] at hp1 hp2
      exact hp p (by omega) (by push_cast; omega)

/-! ## Page turns that return -/

theorem print_text_loop_mono (be : Backend) (np np2 : World → Except Err World) (hi : Highlight)
    (hle : ∀ v v2, np v = .ok v2 → np2 v = .ok v2) :
    ∀ (n : Nat) (text : List Nat) (w w2 : World),
      print_text_loop be np hi n text w = .ok w2 → print_text_loop be np2 hi n text w = .ok w2 := by
  intro n
  induction n with
  | zero =>
    intro text w w2 h
    cases text with
    | nil => simpa [print_text_loop] using h
    | cons c rest => simp [print_text_loop] at h
  | succ n ih =>
    intro text w w2 h
    cases text with
    | nil => simpa [print_text_loop] using h
    | cons c rest =>
      cases hl : utf8len c with
      | error e => simp [print_text_loop, hl, Except.bind] at h
      | ok len =>
        by_cases hlen : len ≤ (c :: rest).length
        · rw [print_text_loop_round be np hi n c rest w len hl hlen] at h
          rw [print_text_loop_round be np2 hi n c rest w len hl hlen]
          cases hw : print_text_wrap np (be.x_advance w.cr.font (List.take len (c :: rest))) w with
          | error e => rw [hw] at h; simp [Except.bind] at h
          | ok w1 =>
            rw [hw] at h
            simp only [Except.bind] at h
            have hw2 : print_text_wrap np2 (be.x_advance w.cr.font (List.take len (c :: rest))) w
                = .ok w1 := by
              rcases print_text_wrap_cases np _ w w1 hw with
                ⟨hx, rfl⟩ | ⟨hx, hv, rfl⟩ | ⟨hx, hv, w0, hn, rfl⟩
              · exact print_text_wrap_stay np2 _ _ hx
              · exact print_text_wrap_line np2 _ _ hx hv
              · rw [print_text_wrap_page np2 _ _ hx hv, hle _ _ hn]
                rfl
            rw [hw2]
            simp only [Except.bind]
            exact ih _ _ _ h
        · simp only [print_text_loop] at h
          rw [hl] at h
          simp only [Except.bind] at h
          cases hw : print_text_wrap np (be.x_advance w.cr.font (List.take len (c :: rest))) w with
          | error e => rw [hw] at h; simp at h
          | ok w1 =>
            rw [hw] at h
            simp only [hlen, if_false] at h
            cases h

theorem print_text_mono (be : Backend) (np np2 : World → Except Err World) (hi : Highlight)
    (hle : ∀ v v2, np v = .ok v2 → np2 v = .ok v2) (text : List Nat) (w w2 : World)
    (h : print_text be np text hi w = .ok w2) : print_text be np2 text hi w = .ok w2 := by
  unfold print_text at h ⊢
  cases hs : set_font be w.options.font_name w.options.font_size hi.bold hi.italic w.cr with
  | error e => rw [hs] at h; simp [Except.bind] at h
  | ok cr =>
    rw [hs] at h
    simp only [Except.bind] at h ⊢
    exact print_text_loop_mono be np np2 hi hle _ _ _ w2 h

/-- A header that is drawn with one way of turning the page is drawn the same
with every way that returns at least where the first one does. -/
theorem print_header_mono (be : Backend) (np np2 : World → Except Err World)
    (hle : ∀ v v2, np v = .ok v2 → np2 v = .ok v2) (w w2 : World)
    (h : print_header be np w = .ok w2) : print_header be np2 w = .ok w2 := by
  unfold print_header at h ⊢
  cases hfmt : w.options.header_format with
  | none => rw [hfmt] at h; exact h
  | some format =>
    rw [hfmt] at h
    simp only at h ⊢
    by_cases he : format = []
    · simp only [he, if_true] at h ⊢
      exact h
    · simp only [he, if_false] at h ⊢
      cases hx : header_expand format w.pc.pagenum with
      | error e => rw [hx] at h; simp [Except.bind] at h
      | ok lr =>
        rw [hx] at h
        simp only [Except.bind] at h ⊢
        cases h1 : print_text be np lr.1 (fixed_highlight "PageHeader")
            { w with pc := { w.pc with x := w.options.margin_left, y := w.options.margin_top } } with
        | error e => rw [h1] at h; simp at h
        | ok w1 =>
          rw [h1] at h
          simp only at h
          rw [print_text_mono be np np2 _ hle _ _ w1 h1]
          simp only
          exact print_text_mono be np np2 _ hle _ _ w2 h

theorem Pango.print_text_lines_mono_pango (np np2 : World → Except Err World)
    (hle : ∀ v v2, np v = .ok v2 → np2 v = .ok v2) :
    ∀ (lines : List (List Nat)) (i : Nat) (w w2 : World),
      Pango.print_text_lines np i lines w = .ok w2 →
      Pango.print_text_lines np2 i lines w = .ok w2 := by
  intro lines
  induction lines with
  | nil => intro i w w2 h; simpa [Pango.print_text_lines] using h
  | cons line rest ih =>
    intro i w w2 h
    simp only [Pango.print_text_lines] at h ⊢
    generalize (if i ≠ 0 then { w with pc := { w.pc with y := w.pc.y + w.pc.font_height } }
      else w) = w1 at h ⊢
    by_cases hv : w1.pc.y + w1.pc.font_height > w1.options.paper_height - w1.options.margin_bottom
    · rw [if_pos hv] at h ⊢
      cases hn : np w1 with
      | error e => rw [hn] at h; simp [Except.bind] at h
      | ok w0 =>
        rw [hn] at h
        rw [hle _ _ hn]
        simp only [Except.bind] at h ⊢
        exact ih _ _ _ h
    · rw [if_neg hv] at h ⊢
      simp only [Except.bind] at h ⊢
      exact ih _ _ _ h

theorem Pango.print_header_mono_pango (pbe : PangoBackend) (np np2 : World → Except Err World)
    (hle : ∀ v v2, np v = .ok v2 → np2 v = .ok v2) (w w2 : World)
    (h : Pango.print_header pbe np w = .ok w2) : Pango.print_header pbe np2 w = .ok w2 := by
  unfold Pango.print_header at h ⊢
  cases hfmt : w.options.header_format with
  | none => rw [hfmt] at h; exact h
  | some format =>
    rw [hfmt] at h
    simp only at h ⊢
    by_cases he : format = []
    · simp only [he, if_true] at h ⊢
      exact h
    · simp only [he, if_false] at h ⊢
      cases hx : header_expand format w.pc.pagenum with
      | error e => rw [hx] at h; simp [Except.bind] at h
      | ok lr =>
        rw [hx] at h
        simp only [Except.bind] at h ⊢
        cases h1 : Pango.print_text pbe np lr.1
            { w with pc := { w.pc with x := w.options.margin_left, y := w.options.margin_top } } with
        | error e => rw [h1] at h; simp at h
        | ok w1 =>
          rw [h1] at h
          simp only at h
          have m1 : Pango.print_text pbe np2 lr.1
              { w with pc := { w.pc with x := w.options.margin_left, y := w.options.margin_top } }
              = .ok w1 := Pango.print_text_lines_mono_pango np np2 hle _ _ _ _ h1
          rw [m1]
          simp only
          exact Pango.print_text_lines_mono_pango np np2 hle _ _ _ _ h

/-! ## Termination of the page turn: the claim -/

/-- C20, as stated, fails for the cairo backend: with a proportional font in
which "1" is 30 wide and "2" is 5 wide, a paper of 20 by 20 and the header
"%N", the left text of the header of the page that is opened is wider than the
printable width and margin_top + 2 * line_height exceeds the printable
height; all the same `newpage` returns, at page 2, whose header fits. -/
theorem newpage_returns_on_a_later_page :
    (print wide_one (ascii "out.pdf") 2
      [.PAPER 20 20, .HEADER (ascii "%N") 0, .FONT (ascii "Sans") 10, .START] World.init).bind
      (fun w => (newpage wide_one 2 w).map fun v =>
        (header_expand (ascii "%N") (w.pc.pagenum + 1),
         decide (wide_one.x_advance w.cr.font (ascii "1") >
           w.options.paper_width - w.options.margin_left - w.options.margin_right),
         decide (w.options.margin_top + 2 * w.pc.font_height >
           w.options.paper_height - w.options.margin_bottom),
         v.pc.pagenum))
      = .ok (.ok (ascii "1", []), true, true, 2) := by
  decide!

/-- C20, amended, for a header format that is not empty.  Cairo backend: if
the printable width is not negative, margin_top + 2 * line_height exceeds
paper_height - margin_bottom, and on every page that the budget allows to
open the left text of the header is well-formed and the advances of its
characters add up to more than paper_width - margin_left - margin_right, then
`print_header` calls `newpage` again with the same options and the page
counter increased by one, and `newpage` uses up every budget: the recursion
has no bound.  Pangocairo backend: the same if margin_top + line_height
exceeds paper_height - margin_bottom and the layout of the left text has a
line on each of these pages.  In both backends, when the header is drawn
without a call of `newpage`, `newpage` returns after this one header, with
the page counter increased by one, whatever the budget. -/
theorem page_turn_termination (be : Backend) (pbe : PangoBackend) (w : World) (fmt : List Nat)
    (hfmt : w.options.header_format = some fmt) (hne : fmt ≠ []) :
    (∀ (f : FontSel) (fuel : Nat),
      select_font be w.options.font_name w.options.font_size 0 0 = .ok f →
      0 ≤ w.options.paper_width - w.options.margin_left - w.options.margin_right →
      w.options.margin_top + 2 * w.pc.font_height >
        w.options.paper_height - w.options.margin_bottom →
      (∀ p : Int, w.pc.pagenum < p → p ≤ w.pc.pagenum + fuel →
        ∃ lr, header_expand fmt p = .ok lr ∧ well_formed lr.1.length lr.1 = true ∧
          run_advance be f lr.1 >
            w.options.paper_width - w.options.margin_left - w.options.margin_right) →
      newpage be fuel w = .error Err.fuel ∧
      (1 ≤ fuel → ∀ (np : World → Except Err World) (e : Err),
        (∀ v : World, v.options = w.options → v.pc.pagenum = w.pc.pagenum + 1 →
          v.pc.font_height = w.pc.font_height → v.cr.font = f → np v = .error e) →
        print_header be np w.turn = .error e)) ∧
    (∀ fuel : Nat,
      w.options.margin_top + w.pc.font_height >
        w.options.paper_height - w.options.margin_bottom →
      (∀ p : Int, w.pc.pagenum < p → p ≤ w.pc.pagenum + fuel →
        ∃ lr, header_expand fmt p = .ok lr ∧
          pbe.lines w.options.font_name w.options.font_size
            (w.options.paper_width - w.options.margin_left - w.options.margin_right
              - w.pc.numberwidth) lr.1 ≠ []) →
      Pango.newpage pbe fuel w = .error Err.fuel) ∧
    (∀ w3, print_header be (newpage be 0) w.turn = .ok w3 →
      w3.pc.pagenum = w.pc.pagenum + 1 ∧
      ∀ fuel, newpage be (fuel + 1) w = .ok
        { w3 with pc := { w3.pc with
            x := w3.options.margin_left + w3.pc.numberwidth,
            y := w3.options.margin_top + w3.pc.font_height * (int_add 1 w3.options.header_extraline) } }) ∧
    (∀ w3, Pango.print_header pbe (Pango.newpage pbe 0) w.turn = .ok w3 →
      w3.pc.pagenum = w.pc.pagenum + 1 ∧
      ∀ fuel, Pango.newpage pbe (fuel + 1) w = .ok
        { w3 with pc := { w3.pc with
            x := w3.options.margin_left + w3.pc.numberwidth,
            y := w3.options.margin_top + w3.pc.font_height * (int_add 1 w3.options.header_extraline) } }) := by
  have hst : Stable (fun v : World => v.pc.pagenum = w.pc.pagenum + 1) := by
    intro a b hab ha
    exact hab.2.1.trans ha
  refine ⟨?_, ?_, ?_, ?_⟩
  · intro f fuel hf hW hv hp
    refine ⟨newpage_runs_out be w.options fmt f w.pc.font_height hfmt hne hf hW hv
      fuel w rfl rfl hp, ?_⟩
    intro h1 np e hnp
    obtain ⟨t1, -, t3, -, -, -, -⟩ := turn_rest w
    obtain ⟨lr, hx, hwf, hwide⟩ := hp (w.pc.pagenum + 1) (by omega) (by omega)
    exact print_header_reaches_newpage be np e w.turn fmt lr f
      (by rw [t1]; exact hfmt) hne (by rw [turn_pagenum]; exact hx)
      (by rw [t1]; exact hf) hwf (by rw [t1]; exact hW)
      (by rw [t1]; exact hwide) (by rw [t1, t3]; exact hv)
      (fun v vo vp vh vf => hnp v (vo.trans t1) (vp.trans (turn_pagenum w)) (vh.trans t3) vf)
  · intro fuel hv hp
    exact Pango.newpage_runs_out_pango pbe w.options fmt w.pc.font_height w.pc.numberwidth
      hfmt hne hv fuel w rfl rfl rfl hp
  · intro w3 h3
    refine ⟨?_, ?_⟩
    · exact print_header_keeps _ hst be (newpage be 0)
        (fun a b _ hab => by simp [newpage] at hab) w.turn w3 (turn_pagenum w) h3
    · intro fuel
      simp only [newpage]
      change Except.map _ (print_header be (newpage be fuel) w.turn) = _
      rw [print_header_mono be (newpage be 0) (newpage be fuel)
        (fun a b hab => by simp [newpage] at hab) w.turn w3 h3]
      rfl
  · intro w3 h3
    refine ⟨?_, ?_⟩
    · exact Pango.print_header_keeps_pango _ hst pbe (Pango.newpage pbe 0)
        (fun a b _ hab => by simp [Pango.newpage] at hab) w.turn w3 (turn_pagenum w) h3
    · intro fuel
      simp only [Pango.newpage]
      change Except.map _ (Pango.print_header pbe (Pango.newpage pbe fuel) w.turn) = _
      rw [Pango.print_header_mono_pango pbe (Pango.newpage pbe 0) (Pango.newpage pbe fuel)
        (fun a b hab => by simp [Pango.newpage] at hab) w.turn w3 h3]
      rfl

/-- Witness of C20, amended: on a paper of 20 by 20 with the header "abc",
7 wide a letter and 12 high a line, the page turn of either backend uses up
a budget of 7 (the pangocairo backend on a paper 10 high); on the sample document, whose header fits, it returns after
one header with any budget. -/
theorem page_turn_termination_witness :
    newpage mono 7 sample_small_page = .error Err.fuel ∧
    Pango.newpage pango_mono 7
      { sample_small_page with options := { sample_small_page.options with paper_height := 10 } }
      = .error Err.fuel ∧
    (∃ w3, print_header mono (newpage mono 0) sample_open_page.turn = .ok w3 ∧
      w3.pc.pagenum = sample_open_page.pc.pagenum + 1 ∧
      ∀ fuel, newpage mono (fuel + 1) sample_open_page = .ok
        { w3 with pc := { w3.pc with
            x := w3.options.margin_left + w3.pc.numberwidth,
            y := w3.options.margin_top +
              w3.pc.font_height * (int_add 1 w3.options.header_extraline) } }) ∧
    (∃ w3, Pango.print_header pango_mono (Pango.newpage pango_mono 0) sample_open_page.turn
        = .ok w3 ∧
      ∀ fuel, Pango.newpage pango_mono (fuel + 1) sample_open_page = .ok
        { w3 with pc := { w3.pc with
            x := w3.options.margin_left + w3.pc.numberwidth,
            y := w3.options.margin_top +
              w3.pc.font_height * (int_add 1 w3.options.header_extraline) } }) :=
  ⟨((page_turn_termination mono pango_mono sample_small_page (ascii "abc") rfl (by decide)).1
      (FontSel.toy (ascii "Mono") 10 false false) 7 (by decide)
      (by decide!) (by decide!)
      (fun p _ _ => ⟨(ascii "abc", []),
        header_expand_no_split p (ascii "abc") [Item.lit 97, Item.lit 98, Item.lit 99]
          (by decide) (by decide) (by simp [render, Item.text, HEADER_BUFSIZE]),
        by decide, by decide!⟩)).1,
   (page_turn_termination mono pango_mono
      { sample_small_page with options := { sample_small_page.options with paper_height := 10 } }
      (ascii "abc") rfl (by decide)).2.1
      7 (by decide!)
      (fun p _ _ => ⟨(ascii "abc", []),
        header_expand_no_split p (ascii "abc") [Item.lit 97, Item.lit 98, Item.lit 99]
          (by decide) (by decide) (by simp [render, Item.text, HEADER_BUFSIZE]),
        by decide!⟩),
   (exists_ok (x := print_header mono (newpage mono 0) sample_open_page.turn)
      (by decide!)).elim fun w3 h3 => ⟨w3, h3,
        (page_turn_termination mono pango_mono sample_open_page (ascii "p%N%=x") rfl
          (by decide)).2.2.1 w3 h3⟩,
   (exists_ok (x := Pango.print_header pango_mono (Pango.newpage pango_mono 0)
        sample_open_page.turn) (by decide!)).elim fun w3 h3 => ⟨w3, h3,
        ((page_turn_termination mono pango_mono sample_open_page (ascii "p%N%=x") rfl
          (by decide)).2.2.2 w3 h3).2⟩⟩

/-! ## A line that is wrapped once -/

/-- A larger bound on the number of rounds changes nothing for a text that fits. -/
theorem fits_fuel (be : Backend) (f : FontSel) (limit : ℚ) :
    ∀ (n : Nat) (text : List Nat) (x : ℚ), fits be f limit n text x = true →
      ∀ j, fits be f limit (n + j) text x = true ∧
        characters (n + j) text = characters n text := by
  intro n
  induction n with
  | zero =>
    intro text x h j
    cases text with
    | nil => cases j <;> simp [fits, characters]
    | cons c rest => simp [fits] at h
  | succ n ih =>
    intro text x h j
    cases text with
    | nil => simp [fits, characters]
    | cons c rest =>
      simp only [fits] at h
      cases hl : utf8len c with
      | error e => rw [hl] at h; simp at h
      | ok len =>
        rw [hl] at h
        simp only [Bool.and_eq_true, decide_eq_true_eq] at h
        obtain ⟨⟨hx, hlen⟩, hrest⟩ := h
        obtain ⟨i1, i2⟩ := ih _ _ hrest j
        have e : n + 1 + j = (n + j) + 1 := by omega
        rw [e]
        refine ⟨?_, ?_⟩
        · simp only [fits, hl, Bool.and_eq_true, decide_eq_true_eq]
          exact ⟨⟨hx, hlen⟩, i1⟩
        · simp only [characters, hl, if_pos hlen, i2]

/-- The loop over a text whose first part fits: the first part is drawn in
place, and the loop goes on with the second part. -/
theorem print_text_loop_append (be : Backend) (np : World → Except Err World) (hi : Highlight) :
    ∀ (n : Nat) (t1 : List Nat) (w : World),
      fits be w.cr.font (w.options.paper_width - w.options.margin_right) n t1 w.pc.x = true →
      ∀ (m : Nat) (t2 : List Nat),
        print_text_loop be np hi (n + m) (t1 ++ t2) w =
          print_text_loop be np hi (n - (characters n t1).length + m) t2
            (run_glyphs be hi (characters n t1) w) := by
  intro n
  induction n with
  | zero =>
    intro t1 w h m t2
    cases t1 with
    | nil => simp [characters, run_glyphs]
    | cons c rest => simp [fits] at h
  | succ n ih =>
    intro t1 w h m t2
    cases t1 with
    | nil => simp [characters, run_glyphs]
    | cons c rest =>
      simp only [fits] at h
      cases hl : utf8len c with
      | error e => rw [hl] at h; simp at h
      | ok len =>
        rw [hl] at h
        simp only [Bool.and_eq_true, decide_eq_true_eq] at h
        obtain ⟨⟨hx, hlen⟩, hrest⟩ := h
        have e : n + 1 + m = (n + m) + 1 := by omega
        have hlen2 : len ≤ (c :: (rest ++ t2)).length := by
          simp only [List.length_cons, List.length_append] at hlen ⊢
          omega
        have htake : List.take len (c :: (rest ++ t2)) = List.take len (c :: rest) := by
          rw [← List.cons_append, List.take_append_of_le_length hlen]
        have hdrop : List.drop len (c :: (rest ++ t2)) = List.drop len (c :: rest) ++ t2 := by
          rw [← List.cons_append, List.drop_append_of_le_length hlen]
        rw [List.cons_append, e, print_text_loop_round be np hi (n + m) c (rest ++ t2) w len hl hlen2,
          htake, hdrop, print_text_wrap_stay np _ w (not_lt.mpr hx)]
        simp only [Except.bind]
        obtain ⟨ho, hf, hpc, -⟩ := glyph_fields w hi (List.take len (c :: rest))
          (be.x_advance w.cr.font (List.take len (c :: rest)))
        rw [ih _ _ (by rw [hf, ho, hpc]; exact hrest) m t2]
        have hch : characters (n + 1) (c :: rest) =
            List.take len (c :: rest) :: characters n (List.drop len (c :: rest)) := by
          simp only [characters, hl, if_pos hlen]
        rw [hch]
        simp only [run_glyphs, List.length_cons]
        have e2 : n + 1 - ((characters n (List.drop len (c :: rest))).length + 1)
            = n - (characters n (List.drop len (c :: rest))).length := by omega
        rw [e2]

theorem characters_length_le : ∀ (n : Nat) (text : List Nat), (characters n text).length ≤ n := by
  intro n
  induction n with
  | zero => intro text; cases text <;> simp [characters]
  | succ n ih =>
    intro text
    cases text with
    | nil => simp [characters]
    | cons c rest =>
      simp only [characters]
      cases hl : utf8len c with
      | error e => simp
      | ok len =>
        simp only
        split_ifs
        · simp only [List.length_cons]
          have := ih (List.drop len (c :: rest))
          omega
        · simp

/-- A page turn without a header. -/
theorem newpage_no_header (be : Backend) (fuel : Nat) (w : World)
    (h : w.options.header_format = none) :
    newpage be (fuel + 1) w = .ok
      { w.turn with pc := { w.turn.pc with
          x := w.options.margin_left + w.pc.numberwidth,
          y := w.options.margin_top + w.pc.font_height * (int_add 1 w.options.header_extraline) } } := by
  obtain ⟨t1, -, t3, t4, -, -, -⟩ := turn_rest w
  simp only [newpage]
  change Except.map _ (print_header be (newpage be fuel) w.turn) = _
  have hp : print_header be (newpage be fuel) w.turn = .ok w.turn := by
    unfold print_header
    rw [t1, h]
  rw [hp]
  simp only [Except.map, t1, t3, t4]

/-- A run whose first part fits on the line and whose second part, begun on
the next line, fits there.  The second part begins with the character `buf2`
that met the wrap test; `back` is the state in which `print_text` goes on
behind the wrap, before it sets x. -/
theorem print_text_wraps_once (be : Backend) (np : World → Except Err World) (hi : Highlight)
    (v : World) (f : FontSel) (t1 : List Nat) (c2 : Nat) (r2 : List Nat) (len2 : Nat)
    (back : World)
    (hf : select_font be v.options.font_name v.options.font_size hi.bold hi.italic = .ok f)
    (h1 : fits be f (v.options.paper_width - v.options.margin_right) t1.length t1 v.pc.x = true)
    (hl2 : utf8len c2 = .ok len2) (hlen2 : len2 ≤ (c2 :: r2).length)
    (h4 : fits be f (v.options.paper_width - v.options.margin_right)
      ((c2 :: r2).drop len2).length ((c2 :: r2).drop len2)
      (v.options.margin_left + v.pc.numberwidth + be.x_advance f ((c2 :: r2).take len2)) = true)
    (hback : print_text_wrap np (be.x_advance f ((c2 :: r2).take len2))
        (run_glyphs be hi (characters t1.length t1) { v with cr := { v.cr with font := f } })
      = .ok back.to_line_start)
    (bo : back.options = v.options) (bf : back.cr.font = f)
    (bn : back.pc.numberwidth = v.pc.numberwidth) :
    print_text be np (t1 ++ c2 :: r2) hi v = .ok
      (run_glyphs be hi (characters ((c2 :: r2).drop len2).length ((c2 :: r2).drop len2))
        (back.to_line_start.glyph hi ((c2 :: r2).take len2)
          (be.x_advance f ((c2 :: r2).take len2)))) := by
  obtain ⟨l1, -⟩ := utf8len_range hl2
  have hk := characters_length_le t1.length t1
  obtain ⟨i1, i2, -, i4, -, -, -, -, -⟩ := run_glyphs_spec be hi (characters t1.length t1)
    { v with cr := { v.cr with font := f } }
  unfold print_text set_font
  rw [hf]
  simp only [Except.map, Except.bind, List.length_append]
  rw [print_text_loop_append be np hi t1.length t1 { v with cr := { v.cr with font := f } }
    (by simpa using h1) (c2 :: r2).length (c2 :: r2)]
  have efuel : t1.length - (characters t1.length t1).length + (c2 :: r2).length =
      (t1.length - (characters t1.length t1).length + r2.length) + 1 := by
    simp only [List.length_cons]
    omega
  rw [efuel, print_text_loop_round be np hi _ c2 r2 _ len2 hl2 hlen2, i2]
  simp only
  rw [hback]
  simp only [Except.bind]
  have hdl : ((c2 :: r2).drop len2).length + (t1.length - (characters t1.length t1).length
      + len2 - 1) = t1.length - (characters t1.length t1).length + r2.length := by
    simp only [List.length_drop, List.length_cons] at hlen2 ⊢
    omega
  obtain ⟨g1, g2, g3, -⟩ := glyph_fields back.to_line_start hi ((c2 :: r2).take len2)
    (be.x_advance f ((c2 :: r2).take len2))
  have hfit : fits be (back.to_line_start.glyph hi ((c2 :: r2).take len2)
        (be.x_advance f ((c2 :: r2).take len2))).cr.font
      ((back.to_line_start.glyph hi ((c2 :: r2).take len2)
        (be.x_advance f ((c2 :: r2).take len2))).options.paper_width -
       (back.to_line_start.glyph hi ((c2 :: r2).take len2)
        (be.x_advance f ((c2 :: r2).take len2))).options.margin_right)
      ((c2 :: r2).drop len2).length ((c2 :: r2).drop len2)
      (back.to_line_start.glyph hi ((c2 :: r2).take len2)
        (be.x_advance f ((c2 :: r2).take len2))).pc.x = true := by
    rw [g1, g2, g3]
    simp only [World.to_line_start, bo, bf, bn]
    exact h4
  obtain ⟨j1, j2⟩ := fits_fuel be _ _ _ _ _ hfit
    (t1.length - (characters t1.length t1).length + len2 - 1)
  rw [hdl] at j1 j2
  rw [print_text_loop_fits_eq be np hi _ _ _ j1, j2]

/-! ## A long line from START to END -/

theorem turn_at_zero (w : World) (h : w.pc.pagenum = 0) :
    w.turn = { w with pc := { w.pc with pagenum := 1 } } := by
  unfold World.turn
  simp [h]

theorem turn_at_one (w : World) (h : w.pc.pagenum = 1) :
    w.turn = { w.emit Op.show_page with pc := { w.pc with pagenum := 2 } } := by
  unfold World.turn
  simp [h, World.emit]

/-- The first LINE of a document without header and without line numbers. -/
theorem newline_first_plain (be : Backend) (fuel : Nat) (w : World)
    (hl : w.pc.linenum = 0) (hp : w.pc.pagenum = 0)
    (hh : w.options.header_format = none) (hn : w.options.number_width ≤ 0) :
    newline be (fuel + 1) w = .ok
      { w with pc := { w.pc with
          pagenum := 1, linenum := 1,
          x := w.options.margin_left + w.pc.numberwidth,
          y := w.options.margin_top + w.pc.font_height * (int_add 1 w.options.header_extraline) } } := by
  unfold newline
  rw [if_pos hl, newpage_no_header be fuel w hh, turn_at_zero w hp]
  simp only [Except.bind]
  rw [print_number_off be _ _ (by exact hn)]
  simp only [Except.map, hl]
  rfl

theorem Pango.newpage_no_header_pango (pbe : PangoBackend) (fuel : Nat) (w : World)
    (h : w.options.header_format = none) :
    Pango.newpage pbe (fuel + 1) w = .ok
      { w.turn with pc := { w.turn.pc with
          x := w.options.margin_left + w.pc.numberwidth,
          y := w.options.margin_top + w.pc.font_height * (int_add 1 w.options.header_extraline) } } := by
  obtain ⟨t1, -, t3, t4, -, -, -⟩ := turn_rest w
  simp only [Pango.newpage]
  change Except.map _ (Pango.print_header pbe (Pango.newpage pbe fuel) w.turn) = _
  have hp : Pango.print_header pbe (Pango.newpage pbe fuel) w.turn = .ok w.turn := by
    unfold Pango.print_header
    rw [t1, h]
  rw [hp]
  simp only [Except.map, t1, t3, t4]

theorem Pango.newline_first_plain_pango (pbe : PangoBackend) (fuel : Nat) (w : World)
    (hl : w.pc.linenum = 0) (hp : w.pc.pagenum = 0)
    (hh : w.options.header_format = none) (hn : w.options.number_width ≤ 0) :
    Pango.newline pbe (fuel + 1) w = .ok
      { w with pc := { w.pc with
          pagenum := 1, linenum := 1,
          x := w.options.margin_left + w.pc.numberwidth,
          y := w.options.margin_top + w.pc.font_height * (int_add 1 w.options.header_extraline) } } := by
  unfold Pango.newline
  rw [if_pos hl, Pango.newpage_no_header_pango pbe fuel w hh, turn_at_zero w hp]
  simp only [Except.bind]
  rw [Pango.print_number_off_pango pbe _ _ (by exact hn)]
  simp only [Except.map, hl]
  rfl

theorem drawn_pages_run_glyphs (be : Backend) (hi : Highlight) :
    ∀ (chars : List (List Nat)) (w : World),
      drawn_pages (run_glyphs be hi chars w).cr.ops =
        drawn_pages w.cr.ops ++ List.replicate chars.length w.pc.pagenum := by
  intro chars
  induction chars with
  | nil => intro w; simp [run_glyphs]
  | cons buf rest ih =>
    intro w
    simp only [run_glyphs]
    rw [ih]
    obtain ⟨-, -, gpc, -⟩ := glyph_fields w hi buf (be.x_advance w.cr.font buf)
    rw [glyph_ops, gpc]
    by_cases h : is_white hi.bg = true <;>
      simp [h, drawn_pages_append, drawn_pages, List.replicate_succ]

theorem turn_ops (w : World) :
    w.turn.cr.ops = w.cr.ops ++ (if w.pc.pagenum ≠ 0 then [Op.show_page] else []) ∧
    w.turn.cr.font = w.cr.font ∧ w.turn.pc.x = w.pc.x ∧ w.turn.pc.y = w.pc.y := by
  unfold World.turn
  by_cases h : w.pc.pagenum ≠ 0 <;> simp [h, World.emit]

/-- A page turn without a header, behind the first page. -/
theorem newpage_plain_facts (be : Backend) (fuel : Nat) (w : World)
    (hh : w.options.header_format = none) (hp : w.pc.pagenum ≠ 0) :
    ∃ B, newpage be (fuel + 1) w = .ok B ∧ B.options = w.options ∧ B.cr.font = w.cr.font ∧
      B.pc.pagenum = w.pc.pagenum + 1 ∧ B.pc.font_height = w.pc.font_height ∧
      B.pc.font_descent = w.pc.font_descent ∧ B.pc.numberwidth = w.pc.numberwidth ∧
      B.pc.y = w.options.margin_top + w.pc.font_height * (int_add 1 w.options.header_extraline) ∧
      B.cr.ops = w.cr.ops ++ [Op.show_page] := by
  obtain ⟨t1, -, t3, t4, t5, -, -⟩ := turn_rest w
  obtain ⟨u1, u2, -, -⟩ := turn_ops w
  refine ⟨_, newpage_no_header be fuel w hh, t1, u2, turn_pagenum w, t3, t5, t4, rfl, ?_⟩
  show w.turn.cr.ops = _
  rw [u1, if_pos hp]

/-- A run of the cairo backend that is wrapped once, in a document without
header: its first part `t1` fits on the line of the cursor, the next
character meets the wrap test, and the rest fits behind it on a fresh line.
If the next line fits on the page the rest is drawn there, at
x = margin_left + gutter width; if not, the page is turned and the rest is
drawn on the first line of the new page, at x = margin_left + gutter width. -/
theorem text_wrapped_once (be : Backend) (fuel : Nat) (hi : Highlight)
    (v : World) (f : FontSel) (t1 : List Nat) (c2 : Nat) (r2 : List Nat) (len2 : Nat)
    (hh : v.options.header_format = none)
    (hf : select_font be v.options.font_name v.options.font_size hi.bold hi.italic = .ok f)
    (h1 : fits be f (v.options.paper_width - v.options.margin_right) t1.length t1 v.pc.x = true)
    (hl2 : utf8len c2 = .ok len2) (hlen2 : len2 ≤ (c2 :: r2).length)
    (h3 : v.pc.x + run_advance be f t1 + be.x_advance f ((c2 :: r2).take len2) >
      v.options.paper_width - v.options.margin_right)
    (h4 : fits be f (v.options.paper_width - v.options.margin_right)
      ((c2 :: r2).drop len2).length ((c2 :: r2).drop len2)
      (v.options.margin_left + v.pc.numberwidth + be.x_advance f ((c2 :: r2).take len2)) = true) :
    (¬ v.pc.y + v.pc.font_height + v.pc.font_height >
        v.options.paper_height - v.options.margin_bottom →
      ∃ v2, print_text be (newpage be (fuel + 1)) (t1 ++ c2 :: r2) hi v = .ok v2 ∧
        v2.options = v.options ∧
        v2.pc.pagenum = v.pc.pagenum ∧ v2.flushes = v.flushes ∧
        pen_positions v2.cr.ops = pen_positions v.cr.ops ++
          (pens (be.x_advance f) (v.pc.y + v.pc.font_height - v.pc.font_descent) v.pc.x
            (characters t1.length t1) ++
           pens (be.x_advance f)
            (v.pc.y + v.pc.font_height + v.pc.font_height - v.pc.font_descent)
            (v.options.margin_left + v.pc.numberwidth)
            ((c2 :: r2).take len2 ::
              characters ((c2 :: r2).drop len2).length ((c2 :: r2).drop len2))) ∧
        drawn_pages v2.cr.ops = drawn_pages v.cr.ops ++
          List.replicate ((characters t1.length t1).length + (1 +
            (characters ((c2 :: r2).drop len2).length ((c2 :: r2).drop len2)).length))
            v.pc.pagenum) ∧
    (v.pc.y + v.pc.font_height + v.pc.font_height >
        v.options.paper_height - v.options.margin_bottom →
      v.pc.pagenum ≠ 0 →
      ∃ v2, print_text be (newpage be (fuel + 1)) (t1 ++ c2 :: r2) hi v = .ok v2 ∧
        v2.options = v.options ∧
        v2.pc.pagenum = v.pc.pagenum + 1 ∧ v2.flushes = v.flushes + 1 ∧
        pen_positions v2.cr.ops = pen_positions v.cr.ops ++
          (pens (be.x_advance f) (v.pc.y + v.pc.font_height - v.pc.font_descent) v.pc.x
            (characters t1.length t1) ++
           pens (be.x_advance f)
            (v.options.margin_top + v.pc.font_height * (int_add 1 v.options.header_extraline)
              + v.pc.font_height - v.pc.font_descent)
            (v.options.margin_left + v.pc.numberwidth)
            ((c2 :: r2).take len2 ::
              characters ((c2 :: r2).drop len2).length ((c2 :: r2).drop len2))) ∧
        drawn_pages v2.cr.ops = drawn_pages v.cr.ops ++
          (List.replicate (characters t1.length t1).length v.pc.pagenum ++
           List.replicate (1 +
            (characters ((c2 :: r2).drop len2).length ((c2 :: r2).drop len2)).length)
            (v.pc.pagenum + 1))) := by
  obtain ⟨i1, i2, -, i4, -, i6, -, -, i9⟩ := run_glyphs_spec be hi (characters t1.length t1)
    { v with cr := { v.cr with font := f } }
  have i10 := drawn_pages_run_glyphs be hi (characters t1.length t1)
    { v with cr := { v.cr with font := f } }
  have hwrap : (run_glyphs be hi (characters t1.length t1)
        { v with cr := { v.cr with font := f } }).pc.x + be.x_advance f ((c2 :: r2).take len2) >
      (run_glyphs be hi (characters t1.length t1)
        { v with cr := { v.cr with font := f } }).options.paper_width -
      (run_glyphs be hi (characters t1.length t1)
        { v with cr := { v.cr with font := f } }).options.margin_right := by
    rw [i1, i4]
    exact h3
  refine ⟨?_, ?_⟩
  · intro hv
    have hnov : ¬ (run_glyphs be hi (characters t1.length t1)
        { v with cr := { v.cr with font := f } }).down.overflows := by
      unfold World.overflows World.down
      simp only [i1, i4]
      exact hv
    have hback := print_text_wrap_line (newpage be (fuel + 1)) _ _ hwrap hnov
    have hres := print_text_wraps_once be (newpage be (fuel + 1)) hi v f t1 c2 r2 len2
      (run_glyphs be hi (characters t1.length t1)
        { v with cr := { v.cr with font := f } }).down hf h1 hl2 hlen2 h4 hback
      (by simp [World.down, i1]) (by simp [World.down, i2]) (by simp [World.down, i4])
    obtain ⟨j1, -, -, j4, -, j6, -, -, j9⟩ := run_glyphs_spec be hi
      (characters ((c2 :: r2).drop len2).length ((c2 :: r2).drop len2))
      ((World.to_line_start (World.down (run_glyphs be hi (characters t1.length t1)
        { v with cr := { v.cr with font := f } }))).glyph hi ((c2 :: r2).take len2)
          (be.x_advance f ((c2 :: r2).take len2)))
    have j10 := drawn_pages_run_glyphs be hi
      (characters ((c2 :: r2).drop len2).length ((c2 :: r2).drop len2))
      ((World.to_line_start (World.down (run_glyphs be hi (characters t1.length t1)
        { v with cr := { v.cr with font := f } }))).glyph hi ((c2 :: r2).take len2)
          (be.x_advance f ((c2 :: r2).take len2)))
    obtain ⟨g1, g2, g3, -⟩ := glyph_fields
      (World.to_line_start (World.down (run_glyphs be hi (characters t1.length t1)
        { v with cr := { v.cr with font := f } }))) hi ((c2 :: r2).take len2)
      (be.x_advance f ((c2 :: r2).take len2))
    have g4 := glyph_ops
      (World.to_line_start (World.down (run_glyphs be hi (characters t1.length t1)
        { v with cr := { v.cr with font := f } }))) hi ((c2 :: r2).take len2)
      (be.x_advance f ((c2 :: r2).take len2))
    refine ⟨_, hres, ?_, ?_, ?_, ?_, ?_⟩
    · rw [j1, g1]
      simp [World.to_line_start, World.down, i1]
    · rw [j4, g3]
      simp [World.to_line_start, World.down, i4]
    · rw [j9]
      unfold World.flushes at i9 ⊢
      rw [g4]
      by_cases hw : is_white hi.bg = true <;>
        simp [hw, World.to_line_start, World.down, List.count_append, i9]
    · rw [j6, g2, g3, g4]
      by_cases hw : is_white hi.bg = true <;>
        simp [hw, World.to_line_start, World.down, pen_positions_append, pen_positions, i6,
          i4, i1, i2, pens]
    · rw [j10, g3, g4]
      by_cases hw : is_white hi.bg = true <;>
        simp [hw, World.to_line_start, World.down, drawn_pages_append, drawn_pages, i10, i4,
          List.replicate_add, List.replicate_succ]
  · intro hv hp
    have hov : (run_glyphs be hi (characters t1.length t1)
        { v with cr := { v.cr with font := f } }).down.overflows := by
      unfold World.overflows World.down
      simp only [i1, i4]
      exact hv
    obtain ⟨B, hB, c1, c2f, c3, c4, c5, c6, c7, c8⟩ := newpage_plain_facts be fuel
      (World.down (run_glyphs be hi (characters t1.length t1)
        { v with cr := { v.cr with font := f } }))
      (by simp [World.down, i1, hh]) (by simp [World.down, i4, hp])
    have hback0 : print_text_wrap (newpage be (fuel + 1)) (be.x_advance f ((c2 :: r2).take len2))
        (run_glyphs be hi (characters t1.length t1) { v with cr := { v.cr with font := f } })
        = .ok B.to_line_start := by
      rw [print_text_wrap_page (newpage be (fuel + 1)) _ _ hwrap hov, hB]
      rfl
    have b1 : B.options = v.options := by rw [c1]; simp [World.down, i1]
    have b2 : B.cr.font = f := by rw [c2f]; simp [World.down, i2]
    have b3 : B.pc.pagenum = v.pc.pagenum + 1 := by rw [c3]; simp [World.down, i4]
    have b4 : B.pc.font_height = v.pc.font_height ∧ B.pc.font_descent = v.pc.font_descent ∧
        B.pc.numberwidth = v.pc.numberwidth := by
      rw [c4, c5, c6]; simp [World.down, i4]
    have b5 : B.pc.y = v.options.margin_top + v.pc.font_height * (int_add 1 v.options.header_extraline) := by
      rw [c7]; simp [World.down, i4, i1]
    have b6 : B.cr.ops = (run_glyphs be hi (characters t1.length t1)
        { v with cr := { v.cr with font := f } }).cr.ops ++ [Op.show_page] := by
      rw [c8]; rfl
    have hres := print_text_wraps_once be (newpage be (fuel + 1)) hi v f t1 c2 r2 len2 B
      hf h1 hl2 hlen2 h4 hback0 b1 b2 b4.2.2
    obtain ⟨j1, -, -, j4, -, j6, -, -, j9⟩ := run_glyphs_spec be hi
      (characters ((c2 :: r2).drop len2).length ((c2 :: r2).drop len2))
      (B.to_line_start.glyph hi ((c2 :: r2).take len2) (be.x_advance f ((c2 :: r2).take len2)))
    have j10 := drawn_pages_run_glyphs be hi
      (characters ((c2 :: r2).drop len2).length ((c2 :: r2).drop len2))
      (B.to_line_start.glyph hi ((c2 :: r2).take len2) (be.x_advance f ((c2 :: r2).take len2)))
    obtain ⟨g1, g2, g3, -⟩ := glyph_fields B.to_line_start hi ((c2 :: r2).take len2)
      (be.x_advance f ((c2 :: r2).take len2))
    have g4 := glyph_ops B.to_line_start hi ((c2 :: r2).take len2)
      (be.x_advance f ((c2 :: r2).take len2))
    refine ⟨_, hres, ?_, ?_, ?_, ?_, ?_⟩
    · rw [j1, g1]
      simp [World.to_line_start, b1]
    · rw [j4, g3]
      simp [World.to_line_start, b3]
    · rw [j9]
      unfold World.flushes at i9 ⊢
      rw [g4]
      by_cases hw : is_white hi.bg = true <;>
        simp [hw, World.to_line_start, List.count_append, i9, b6]
    · rw [j6, g2, g3, g4]
      by_cases hw : is_white hi.bg = true <;>
        simp [hw, World.to_line_start, pen_positions_append, pen_positions, i6,
          i4, i1, i2, pens, b1, b2, b4, b5, b6]
    · rw [j10, g3, g4]
      by_cases hw : is_white hi.bg = true <;>
        simp [hw, World.to_line_start, drawn_pages_append, drawn_pages, i10, i4,
          List.replicate_add, List.replicate_succ, b3, b6]

theorem Pango.newpage_plain_facts_pango (pbe : PangoBackend) (fuel : Nat) (w : World)
    (hh : w.options.header_format = none) (hp : w.pc.pagenum ≠ 0) :
    ∃ B, Pango.newpage pbe (fuel + 1) w = .ok B ∧ B.options = w.options ∧
      B.pc.pagenum = w.pc.pagenum + 1 ∧ B.pc.font_height = w.pc.font_height ∧
      B.pc.font_descent = w.pc.font_descent ∧ B.pc.numberwidth = w.pc.numberwidth ∧
      B.pc.x = w.options.margin_left + w.pc.numberwidth ∧
      B.pc.y = w.options.margin_top + w.pc.font_height * (int_add 1 w.options.header_extraline) ∧
      B.cr.ops = w.cr.ops ++ [Op.show_page] := by
  obtain ⟨t1, -, t3, t4, t5, -, -⟩ := turn_rest w
  obtain ⟨u1, -, -, -⟩ := turn_ops w
  refine ⟨_, Pango.newpage_no_header_pango pbe fuel w hh, t1, turn_pagenum w, t3, t5, t4,
    rfl, rfl, ?_⟩
  show w.turn.cr.ops = _
  rw [u1, if_pos hp]

/-- A text of the pangocairo backend whose layout has two lines, in a
document without header, begun on a line that fits on the page.  If the next
line fits too, the second line is drawn there; if not, the page is turned and
the second line is drawn on the first line of the new page, at
x = margin_left + gutter width. -/
theorem Pango.line_wrapped_once_pango (pbe : PangoBackend) (fuel : Nat) (v : World)
    (text l1 l2 : List Nat)
    (hh : v.options.header_format = none)
    (hlines : pbe.lines v.options.font_name v.options.font_size
      (v.options.paper_width - v.options.margin_left - v.options.margin_right
        - v.pc.numberwidth) text = [l1, l2])
    (hfirst : ¬ v.pc.y + v.pc.font_height > v.options.paper_height - v.options.margin_bottom) :
    (¬ v.pc.y + v.pc.font_height + v.pc.font_height >
        v.options.paper_height - v.options.margin_bottom →
      ∃ v2, Pango.print_text pbe (Pango.newpage pbe (fuel + 1)) text v = .ok v2 ∧
        v2.pc.pagenum = v.pc.pagenum ∧ v2.flushes = v.flushes ∧
        pen_positions v2.cr.ops = pen_positions v.cr.ops ++
          [(v.pc.x, v.pc.y + v.pc.font_height - v.pc.font_descent),
           (v.pc.x, v.pc.y + v.pc.font_height + v.pc.font_height - v.pc.font_descent)] ∧
        drawn_text v2.cr.ops = drawn_text v.cr.ops ++ [l1, l2] ∧
        drawn_pages v2.cr.ops = drawn_pages v.cr.ops ++ [v.pc.pagenum, v.pc.pagenum]) ∧
    (v.pc.y + v.pc.font_height + v.pc.font_height >
        v.options.paper_height - v.options.margin_bottom →
      v.pc.pagenum ≠ 0 →
      ∃ v2, Pango.print_text pbe (Pango.newpage pbe (fuel + 1)) text v = .ok v2 ∧
        v2.pc.pagenum = v.pc.pagenum + 1 ∧ v2.flushes = v.flushes + 1 ∧
        pen_positions v2.cr.ops = pen_positions v.cr.ops ++
          [(v.pc.x, v.pc.y + v.pc.font_height - v.pc.font_descent),
           (v.options.margin_left + v.pc.numberwidth,
            v.options.margin_top + v.pc.font_height * (int_add 1 v.options.header_extraline)
              + v.pc.font_height - v.pc.font_descent)] ∧
        drawn_text v2.cr.ops = drawn_text v.cr.ops ++ [l1, l2] ∧
        drawn_pages v2.cr.ops = drawn_pages v.cr.ops ++ [v.pc.pagenum, v.pc.pagenum + 1]) := by
  refine ⟨?_, ?_⟩
  · intro hv
    refine ⟨((World.down ((v.emit (Op.move_to v.pc.x (v.pc.y + v.pc.font_height
          - v.pc.font_descent))).emit (Op.show_text v.pc.pagenum l1))).emit
        (Op.move_to v.pc.x (v.pc.y + v.pc.font_height + v.pc.font_height
          - v.pc.font_descent))).emit (Op.show_text v.pc.pagenum l2), ?_, ?_, ?_, ?_, ?_, ?_⟩
    · unfold Pango.print_text
      rw [hlines]
      simp only [Pango.print_text_lines, ne_eq, not_true_eq_false, if_false, if_neg hfirst,
        Except.bind]
      rw [if_pos (by decide : ¬ (0 + 1 = 0)), if_neg (by simpa [World.emit] using hv)]
      rfl
    · simp [World.emit, World.down]
    · simp [World.flushes, World.emit, List.count_append, World.down]
    · simp [World.emit, pen_positions_append, pen_positions, World.down]
    · simp [World.emit, drawn_text_append, drawn_text, World.down]
    · simp [World.emit, drawn_pages_append, drawn_pages, World.down]
  · intro hv hp
    obtain ⟨B, hB, c1, c3, c4, c5, c6, c7, c8, c9⟩ := Pango.newpage_plain_facts_pango pbe fuel
      (World.down ((v.emit (Op.move_to v.pc.x (v.pc.y + v.pc.font_height - v.pc.font_descent))).emit
        (Op.show_text v.pc.pagenum l1)))
      (by simp [World.down, World.emit, hh]) (by simp [World.down, World.emit, hp])
    refine ⟨(B.emit (Op.move_to B.pc.x (B.pc.y + B.pc.font_height - B.pc.font_descent))).emit
        (Op.show_text B.pc.pagenum l2), ?_, ?_, ?_, ?_, ?_, ?_⟩
    · unfold Pango.print_text
      rw [hlines]
      simp only [Pango.print_text_lines, ne_eq, not_true_eq_false, if_false, if_neg hfirst,
        Except.bind]
      rw [if_pos (by decide : ¬ (0 + 1 = 0)), if_pos (by simpa [World.emit] using hv)]
      have e : ({ (v.emit (Op.move_to v.pc.x (v.pc.y + v.pc.font_height - v.pc.font_descent))).emit
            (Op.show_text v.pc.pagenum l1) with
          pc := { ((v.emit (Op.move_to v.pc.x (v.pc.y + v.pc.font_height
              - v.pc.font_descent))).emit (Op.show_text v.pc.pagenum l1)).pc with
            y := ((v.emit (Op.move_to v.pc.x (v.pc.y + v.pc.font_height
              - v.pc.font_descent))).emit (Op.show_text v.pc.pagenum l1)).pc.y +
              ((v.emit (Op.move_to v.pc.x (v.pc.y + v.pc.font_height
              - v.pc.font_descent))).emit (Op.show_text v.pc.pagenum l1)).pc.font_height } } : World)
          = World.down ((v.emit (Op.move_to v.pc.x (v.pc.y + v.pc.font_height
              - v.pc.font_descent))).emit (Op.show_text v.pc.pagenum l1)) := rfl
      rw [e, hB]
    · simp [World.emit, c3, World.down]
    · simp [World.flushes, World.emit, List.count_append, c9, World.down]
    · simp [World.emit, pen_positions_append, pen_positions, c9, World.down, c7, c8, c4, c5, c6]
    · simp [World.emit, drawn_text_append, drawn_text, c9, World.down]
    · simp [World.emit, drawn_pages_append, drawn_pages, c9, World.down, c3]

/-! ## The long line: the claim -/

/-- C15, as stated, fails: with a paper of 200 by 200, margins of 10, no
header, no line numbers, an advance of 7 and a line height of 12, a line of
30 letters overflows the printable width of 180, and the document has one
page (page counter 1, one page flushed, by END): the letters behind the 25th
are drawn on the second line of page 1, at x = 10.  The first stream is the
cairo backend, the other two are the pangocairo backend. -/
theorem long_line_stays_on_page_one :
    (print mono (ascii "out.pdf") 1
      [.PAPER 200 200, .MARGIN 10 10 10 10, .FONT (ascii "Mono") 10, .START, .LINE,
       .TEXT (ascii "abcdefghijklmnopqrstuvwxyz0123"), .END] World.init).map
      (fun w => (w.pc.pagenum, w.flushes, drawn_pages w.cr.ops, (pen_positions w.cr.ops).drop 24))
      = .ok (1, 1, List.replicate 30 1,
          [(178, 31), (10, 43), (17, 43), (24, 43), (31, 43), (38, 43)]) ∧
    (Pango.print pango_mono (ascii "out.pdf") 1
      [.PAPER 200 200, .MARGIN 10 10 10 10, .FONT (ascii "Mono") 10, .START,
       .LINE (ascii "abcdefghijklmnopqrstuvwxyz0123"), .END] World.init).map
      (fun w => (w.pc.pagenum, w.flushes, drawn_pages w.cr.ops))
      = .ok (1, 1, [1, 1]) ∧
    (Pango.print pango_mono (ascii "out.pdf") 1
      [.PAPER 200 200, .MARGIN 10 10 10 10, .FONT (ascii "Mono") 10, .START,
       .LINE (ascii "abcdefghijklmnopqrstuvwxyz0123"), .END] World.init).map
      (fun w => (drawn_text w.cr.ops, pen_positions w.cr.ops))
      = .ok ([ascii "abcdefghijklmnopqrstuvwxy", ascii "z0123"], [(10, 25), (10, 37)]) := by
  refine ⟨by decide!, by decide!, by decide!⟩

/-- The cairo backend on START, LINE, TEXT with a text that overflows
the printable width once, END, in a document without header and without line
numbers.  The text is `t1` followed by a character that meets the wrap test
behind `t1` and by the rest, which fits behind it on a fresh line.  If a
second line fits on the page, the stream produces exactly 1 page, and the
overflow portion is drawn on the second line of page 1, from
x = margin_left + gutter width on.  If the page holds the first line but not
a second, the stream produces exactly 2 pages, and the overflow portion is
drawn on the first line of page 2, from x = margin_left + gutter width on. -/
theorem long_line_cairo (be : Backend) (outfile : List Nat) (fuel : Nat) (w0 w1 : World)
    (f : FontSel) (t1 : List Nat) (c2 : Nat) (r2 : List Nat) (len2 : Nat)
    (hs : command_start be outfile w0 = .ok w1)
    (hh : w0.options.header_format = none) (hn : w0.options.number_width ≤ 0)
    (hf : select_font be w0.options.font_name w0.options.font_size w1.pc.hi.bold
      w1.pc.hi.italic = .ok f)
    (h1 : fits be f (w0.options.paper_width - w0.options.margin_right) t1.length t1
      (w0.options.margin_left + w1.pc.numberwidth) = true)
    (hl2 : utf8len c2 = .ok len2) (hlen2 : len2 ≤ (c2 :: r2).length)
    (h3 : w0.options.margin_left + w1.pc.numberwidth + run_advance be f t1 +
        be.x_advance f ((c2 :: r2).take len2) >
      w0.options.paper_width - w0.options.margin_right)
    (h4 : fits be f (w0.options.paper_width - w0.options.margin_right)
      ((c2 :: r2).drop len2).length ((c2 :: r2).drop len2)
      (w0.options.margin_left + w1.pc.numberwidth + be.x_advance f ((c2 :: r2).take len2))
      = true) :
    (¬ w0.options.margin_top + w1.pc.font_height * (int_add 1 w0.options.header_extraline)
        + w1.pc.font_height + w1.pc.font_height >
        w0.options.paper_height - w0.options.margin_bottom →
      ∃ w, print be outfile (fuel + 1) [.START, .LINE, .TEXT (t1 ++ c2 :: r2), .END] w0 = .ok w ∧
        w.pc.pagenum = 1 ∧ w.flushes = 1 ∧
        pen_positions w.cr.ops =
          pens (be.x_advance f)
            (w0.options.margin_top + w1.pc.font_height * (int_add 1 w0.options.header_extraline)
              + w1.pc.font_height - w1.pc.font_descent)
            (w0.options.margin_left + w1.pc.numberwidth) (characters t1.length t1) ++
          pens (be.x_advance f)
            (w0.options.margin_top + w1.pc.font_height * (int_add 1 w0.options.header_extraline)
              + w1.pc.font_height + w1.pc.font_height - w1.pc.font_descent)
            (w0.options.margin_left + w1.pc.numberwidth)
            ((c2 :: r2).take len2 ::
              characters ((c2 :: r2).drop len2).length ((c2 :: r2).drop len2)) ∧
        drawn_pages w.cr.ops =
          List.replicate ((characters t1.length t1).length + (1 +
            (characters ((c2 :: r2).drop len2).length ((c2 :: r2).drop len2)).length)) 1) ∧
    (w0.options.margin_top + w1.pc.font_height * (int_add 1 w0.options.header_extraline)
        + w1.pc.font_height + w1.pc.font_height >
        w0.options.paper_height - w0.options.margin_bottom →
      ∃ w, print be outfile (fuel + 1) [.START, .LINE, .TEXT (t1 ++ c2 :: r2), .END] w0 = .ok w ∧
        w.pc.pagenum = 2 ∧ w.flushes = 2 ∧
        pen_positions w.cr.ops =
          pens (be.x_advance f)
            (w0.options.margin_top + w1.pc.font_height * (int_add 1 w0.options.header_extraline)
              + w1.pc.font_height - w1.pc.font_descent)
            (w0.options.margin_left + w1.pc.numberwidth) (characters t1.length t1) ++
          pens (be.x_advance f)
            (w0.options.margin_top + w1.pc.font_height * (int_add 1 w0.options.header_extraline)
              + w1.pc.font_height - w1.pc.font_descent)
            (w0.options.margin_left + w1.pc.numberwidth)
            ((c2 :: r2).take len2 ::
              characters ((c2 :: r2).drop len2).length ((c2 :: r2).drop len2)) ∧
        drawn_pages w.cr.ops =
          List.replicate (characters t1.length t1).length 1 ++
          List.replicate (1 +
            (characters ((c2 :: r2).drop len2).length ((c2 :: r2).drop len2)).length) 2) := by
  obtain ⟨so, sp, sl, sops, -⟩ := command_start_ok hs
  have hline := newline_first_plain be fuel w1 sl sp (by rw [so]; exact hh) (by rw [so]; exact hn)
  have key := text_wrapped_once be fuel w1.pc.hi
    { w1 with pc := { w1.pc with
        pagenum := 1, linenum := 1,
        x := w1.options.margin_left + w1.pc.numberwidth,
        y := w1.options.margin_top + w1.pc.font_height * (int_add 1 w1.options.header_extraline) } }
    f t1 c2 r2 len2 (by simp only [so]; exact hh) (by simp only [so]; exact hf)
    (by simp only [so]; exact h1) hl2 hlen2 (by simp only [so]; exact h3)
    (by simp only [so]; exact h4)
  have hprint : ∀ v2, print_text be (newpage be (fuel + 1)) (t1 ++ c2 :: r2) w1.pc.hi
      { w1 with pc := { w1.pc with
        pagenum := 1, linenum := 1,
        x := w1.options.margin_left + w1.pc.numberwidth,
        y := w1.options.margin_top + w1.pc.font_height * (int_add 1 w1.options.header_extraline) } }
      = .ok v2 →
      print be outfile (fuel + 1) [.START, .LINE, .TEXT (t1 ++ c2 :: r2), .END] w0
        = .ok (command_end v2) := by
    intro v2 h2
    simp only [print, exec, hs, Except.bind, hline, h2]
  have hend : ∀ v2 : World, (command_end v2).pc = v2.pc ∧
      (command_end v2).flushes = v2.flushes + 1 ∧
      pen_positions (command_end v2).cr.ops = pen_positions v2.cr.ops ∧
      drawn_pages (command_end v2).cr.ops = drawn_pages v2.cr.ops := by
    intro v2
    refine ⟨rfl, ?_, ?_, ?_⟩
    · simp [command_end, World.flushes, World.emit, List.count_append]
    · simp [command_end, World.emit, pen_positions_append, pen_positions]
    · simp [command_end, World.emit, drawn_pages_append, drawn_pages]
  have hfl : (({ w1 with pc := { w1.pc with
        pagenum := 1, linenum := 1,
        x := w1.options.margin_left + w1.pc.numberwidth,
        y := w1.options.margin_top + w1.pc.font_height * (int_add 1 w1.options.header_extraline) } }
        : World)).flushes = 0 := by
    simp [World.flushes, sops]
  refine ⟨?_, ?_⟩
  · intro hv
    obtain ⟨v2, h2, -, k1, k2, k3, k4⟩ := key.1 (by simp only [so]; exact hv)
    obtain ⟨e1, e2, e3, e4⟩ := hend v2
    refine ⟨command_end v2, hprint v2 h2, ?_, ?_, ?_, ?_⟩
    · rw [e1, k1]
    · rw [e2, k2, hfl]
    · rw [e3, k3]
      simp [sops, pen_positions, so]
    · rw [e4, k4]
      simp [sops, drawn_pages]
  · intro hv
    obtain ⟨v2, h2, -, k1, k2, k3, k4⟩ := key.2 (by simp only [so]; exact hv) (by simp)
    obtain ⟨e1, e2, e3, e4⟩ := hend v2
    refine ⟨command_end v2, hprint v2 h2, ?_, ?_, ?_, ?_⟩
    · rw [e1, k1]
      norm_num
    · rw [e2, k2, hfl]
    · rw [e3, k3]
      simp [sops, pen_positions, so]
    · rw [e4, k4]
      simp [sops, drawn_pages]

/-- The pangocairo backend on START, LINE with a text whose layout has two
lines, END, in a document without header and without line numbers, when the
first line fits on the page. -/
theorem Pango.long_line_pango (pbe : PangoBackend) (outfile : List Nat) (fuel : Nat)
    (w0 w1 : World) (text l1 l2 : List Nat)
    (hs : Pango.command_start pbe outfile w0 = .ok w1)
    (hh : w0.options.header_format = none) (hn : w0.options.number_width ≤ 0)
    (hlines : pbe.lines w0.options.font_name w0.options.font_size
      (w0.options.paper_width - w0.options.margin_left - w0.options.margin_right
        - w1.pc.numberwidth) text = [l1, l2])
    (hfirst : ¬ w0.options.margin_top + w1.pc.font_height * (int_add 1 w0.options.header_extraline)
        + w1.pc.font_height > w0.options.paper_height - w0.options.margin_bottom) :
    (¬ w0.options.margin_top + w1.pc.font_height * (int_add 1 w0.options.header_extraline)
        + w1.pc.font_height + w1.pc.font_height >
        w0.options.paper_height - w0.options.margin_bottom →
      ∃ w, Pango.print pbe outfile (fuel + 1) [.START, .LINE text, .END] w0 = .ok w ∧
        w.pc.pagenum = 1 ∧ w.flushes = 1 ∧
        drawn_text w.cr.ops = [l1, l2] ∧
        pen_positions w.cr.ops =
          [(w0.options.margin_left + w1.pc.numberwidth,
            w0.options.margin_top + w1.pc.font_height * (int_add 1 w0.options.header_extraline)
              + w1.pc.font_height - w1.pc.font_descent),
           (w0.options.margin_left + w1.pc.numberwidth,
            w0.options.margin_top + w1.pc.font_height * (int_add 1 w0.options.header_extraline)
              + w1.pc.font_height + w1.pc.font_height - w1.pc.font_descent)] ∧
        drawn_pages w.cr.ops = [1, 1]) ∧
    (w0.options.margin_top + w1.pc.font_height * (int_add 1 w0.options.header_extraline)
        + w1.pc.font_height + w1.pc.font_height >
        w0.options.paper_height - w0.options.margin_bottom →
      ∃ w, Pango.print pbe outfile (fuel + 1) [.START, .LINE text, .END] w0 = .ok w ∧
        w.pc.pagenum = 2 ∧ w.flushes = 2 ∧
        drawn_text w.cr.ops = [l1, l2] ∧
        pen_positions w.cr.ops =
          [(w0.options.margin_left + w1.pc.numberwidth,
            w0.options.margin_top + w1.pc.font_height * (int_add 1 w0.options.header_extraline)
              + w1.pc.font_height - w1.pc.font_descent),
           (w0.options.margin_left + w1.pc.numberwidth,
            w0.options.margin_top + w1.pc.font_height * (int_add 1 w0.options.header_extraline)
              + w1.pc.font_height - w1.pc.font_descent)] ∧
        drawn_pages w.cr.ops = [1, 2]) := by
  obtain ⟨so, sp, sl, sops, -⟩ := Pango.command_start_ok_pango hs
  have hline := Pango.newline_first_plain_pango pbe fuel w1 sl sp (by rw [so]; exact hh)
    (by rw [so]; exact hn)
  have key := Pango.line_wrapped_once_pango pbe fuel
    { w1 with pc := { w1.pc with
        pagenum := 1, linenum := 1,
        x := w1.options.margin_left + w1.pc.numberwidth,
        y := w1.options.margin_top + w1.pc.font_height * (int_add 1 w1.options.header_extraline) } }
    text l1 l2 (by simp only [so]; exact hh) (by simp only [so]; exact hlines)
    (by simp only [so]; exact hfirst)
  have hprint : ∀ v2, Pango.print_text pbe (Pango.newpage pbe (fuel + 1)) text
      { w1 with pc := { w1.pc with
        pagenum := 1, linenum := 1,
        x := w1.options.margin_left + w1.pc.numberwidth,
        y := w1.options.margin_top + w1.pc.font_height * (int_add 1 w1.options.header_extraline) } }
      = .ok v2 →
      Pango.print pbe outfile (fuel + 1) [.START, .LINE text, .END] w0
        = .ok (command_end v2) := by
    intro v2 h2
    simp only [Pango.print, Pango.exec, Pango.command_line, hs, Except.bind, hline, h2]
  have hend : ∀ v2 : World, (command_end v2).pc = v2.pc ∧
      (command_end v2).flushes = v2.flushes + 1 ∧
      pen_positions (command_end v2).cr.ops = pen_positions v2.cr.ops ∧
      drawn_pages (command_end v2).cr.ops = drawn_pages v2.cr.ops ∧
      drawn_text (command_end v2).cr.ops = drawn_text v2.cr.ops := by
    intro v2
    refine ⟨rfl, ?_, ?_, ?_, ?_⟩
    · simp [command_end, World.flushes, World.emit, List.count_append]
    · simp [command_end, World.emit, pen_positions_append, pen_positions]
    · simp [command_end, World.emit, drawn_pages_append, drawn_pages]
    · simp [command_end, World.emit, drawn_text_append, drawn_text]
  have hfl : (({ w1 with pc := { w1.pc with
        pagenum := 1, linenum := 1,
        x := w1.options.margin_left + w1.pc.numberwidth,
        y := w1.options.margin_top + w1.pc.font_height * (int_add 1 w1.options.header_extraline) } }
        : World)).flushes = 0 := by
    simp [World.flushes, sops]
  refine ⟨?_, ?_⟩
  · intro hv
    obtain ⟨v2, h2, k1, k2, k3, k4, k5⟩ := key.1 (by simp only [so]; exact hv)
    obtain ⟨e1, e2, e3, e4, e5⟩ := hend v2
    refine ⟨command_end v2, hprint v2 h2, ?_, ?_, ?_, ?_, ?_⟩
    · rw [e1, k1]
    · rw [e2, k2, hfl]
    · rw [e5, k4]
      simp [sops, drawn_text]
    · rw [e3, k3]
      simp [sops, pen_positions, so]
    · rw [e4, k5]
      simp [sops, drawn_pages]
  · intro hv
    obtain ⟨v2, h2, k1, k2, k3, k4, k5⟩ := key.2 (by simp only [so]; exact hv) (by simp)
    obtain ⟨e1, e2, e3, e4, e5⟩ := hend v2
    refine ⟨command_end v2, hprint v2 h2, ?_, ?_, ?_, ?_, ?_⟩
    · rw [e1, k1]
      norm_num
    · rw [e2, k2, hfl]
    · rw [e5, k4]
      simp [sops, drawn_text]
    · rw [e3, k3]
      simp [sops, pen_positions, so]
    · rw [e4, k5]
      simp [sops, drawn_pages]

/-- C15, amended: a document without header and without line numbers that
consists of START, one line with a text that overflows the printable width
once, and END.  Cairo backend (LINE, then TEXT): the text is `t1`, which fits
on the first line, followed by a character that meets the wrap test behind
`t1` and by the rest, which fits behind that character on a fresh line.
Pangocairo backend (LINE with the text): the layout of the text has the two
lines `l1` and `l2`, and the first line fits on the page.  In both backends:
if a second line fits on the page, the stream produces exactly 1 page (page
counter 1, one page flushed), and the overflow portion is drawn on the second
line of page 1 from x = margin_left + gutter width on; if the page holds the
first line but not a second, the stream produces exactly 2 pages, and the
overflow portion is drawn on the first line of page 2 from
x = margin_left + gutter width on.  The first line of a page is at
y = margin_top + line_height * (1 + header_extraline), the sum taken in the
machine's `int` as `newpage` does. -/
theorem long_line_scenario (outfile : List Nat) (fuel : Nat) (w0 : World)
    (hh : w0.options.header_format = none) (hn : w0.options.number_width ≤ 0) :
    (∀ (be : Backend) (w1 : World) (f : FontSel) (t1 : List Nat) (c2 : Nat) (r2 : List Nat)
        (len2 : Nat),
      command_start be outfile w0 = .ok w1 →
      select_font be w0.options.font_name w0.options.font_size w1.pc.hi.bold
        w1.pc.hi.italic = .ok f →
      fits be f (w0.options.paper_width - w0.options.margin_right) t1.length t1
        (w0.options.margin_left + w1.pc.numberwidth) = true →
      utf8len c2 = .ok len2 → len2 ≤ (c2 :: r2).length →
      w0.options.margin_left + w1.pc.numberwidth + run_advance be f t1 +
          be.x_advance f ((c2 :: r2).take len2) >
        w0.options.paper_width - w0.options.margin_right →
      fits be f (w0.options.paper_width - w0.options.margin_right)
        ((c2 :: r2).drop len2).length ((c2 :: r2).drop len2)
        (w0.options.margin_left + w1.pc.numberwidth + be.x_advance f ((c2 :: r2).take len2))
        = true →
      (¬ w0.options.margin_top + w1.pc.font_height * (int_add 1 w0.options.header_extraline)
          + w1.pc.font_height + w1.pc.font_height >
          w0.options.paper_height - w0.options.margin_bottom →
        ∃ w, print be outfile (fuel + 1) [.START, .LINE, .TEXT (t1 ++ c2 :: r2), .END] w0 = .ok w ∧
          w.pc.pagenum = 1 ∧ w.flushes = 1 ∧
          pen_positions w.cr.ops =
            pens (be.x_advance f)
              (w0.options.margin_top + w1.pc.font_height * (int_add 1 w0.options.header_extraline)
                + w1.pc.font_height - w1.pc.font_descent)
              (w0.options.margin_left + w1.pc.numberwidth) (characters t1.length t1) ++
            pens (be.x_advance f)
              (w0.options.margin_top + w1.pc.font_height * (int_add 1 w0.options.header_extraline)
                + w1.pc.font_height + w1.pc.font_height - w1.pc.font_descent)
              (w0.options.margin_left + w1.pc.numberwidth)
              ((c2 :: r2).take len2 ::
                characters ((c2 :: r2).drop len2).length ((c2 :: r2).drop len2)) ∧
          drawn_pages w.cr.ops =
            List.replicate ((characters t1.length t1).length + (1 +
              (characters ((c2 :: r2).drop len2).length ((c2 :: r2).drop len2)).length)) 1) ∧
      (w0.options.margin_top + w1.pc.font_height * (int_add 1 w0.options.header_extraline)
          + w1.pc.font_height + w1.pc.font_height >
          w0.options.paper_height - w0.options.margin_bottom →
        ∃ w, print be outfile (fuel + 1) [.START, .LINE, .TEXT (t1 ++ c2 :: r2), .END] w0 = .ok w ∧
          w.pc.pagenum = 2 ∧ w.flushes = 2 ∧
          pen_positions w.cr.ops =
            pens (be.x_advance f)
              (w0.options.margin_top + w1.pc.font_height * (int_add 1 w0.options.header_extraline)
                + w1.pc.font_height - w1.pc.font_descent)
              (w0.options.margin_left + w1.pc.numberwidth) (characters t1.length t1) ++
            pens (be.x_advance f)
              (w0.options.margin_top + w1.pc.font_height * (int_add 1 w0.options.header_extraline)
                + w1.pc.font_height - w1.pc.font_descent)
              (w0.options.margin_left + w1.pc.numberwidth)
              ((c2 :: r2).take len2 ::
                characters ((c2 :: r2).drop len2).length ((c2 :: r2).drop len2)) ∧
          drawn_pages w.cr.ops =
            List.replicate (characters t1.length t1).length 1 ++
            List.replicate (1 +
              (characters ((c2 :: r2).drop len2).length ((c2 :: r2).drop len2)).length) 2)) ∧
    (∀ (pbe : PangoBackend) (w1 : World) (text l1 l2 : List Nat),
      Pango.command_start pbe outfile w0 = .ok w1 →
      pbe.lines w0.options.font_name w0.options.font_size
        (w0.options.paper_width - w0.options.margin_left - w0.options.margin_right
          - w1.pc.numberwidth) text = [l1, l2] →
      ¬ w0.options.margin_top + w1.pc.font_height * (int_add 1 w0.options.header_extraline)
          + w1.pc.font_height > w0.options.paper_height - w0.options.margin_bottom →
      (¬ w0.options.margin_top + w1.pc.font_height * (int_add 1 w0.options.header_extraline)
          + w1.pc.font_height + w1.pc.font_height >
          w0.options.paper_height - w0.options.margin_bottom →
        ∃ w, Pango.print pbe outfile (fuel + 1) [.START, .LINE text, .END] w0 = .ok w ∧
          w.pc.pagenum = 1 ∧ w.flushes = 1 ∧
          drawn_text w.cr.ops = [l1, l2] ∧
          pen_positions w.cr.ops =
            [(w0.options.margin_left + w1.pc.numberwidth,
              w0.options.margin_top + w1.pc.font_height * (int_add 1 w0.options.header_extraline)
                + w1.pc.font_height - w1.pc.font_descent),
             (w0.options.margin_left + w1.pc.numberwidth,
              w0.options.margin_top + w1.pc.font_height * (int_add 1 w0.options.header_extraline)
                + w1.pc.font_height + w1.pc.font_height - w1.pc.font_descent)] ∧
          drawn_pages w.cr.ops = [1, 1]) ∧
      (w0.options.margin_top + w1.pc.font_height * (int_add 1 w0.options.header_extraline)
          + w1.pc.font_height + w1.pc.font_height >
          w0.options.paper_height - w0.options.margin_bottom →
        ∃ w, Pango.print pbe outfile (fuel + 1) [.START, .LINE text, .END] w0 = .ok w ∧
          w.pc.pagenum = 2 ∧ w.flushes = 2 ∧
          drawn_text w.cr.ops = [l1, l2] ∧
          pen_positions w.cr.ops =
            [(w0.options.margin_left + w1.pc.numberwidth,
              w0.options.margin_top + w1.pc.font_height * (int_add 1 w0.options.header_extraline)
                + w1.pc.font_height - w1.pc.font_descent),
             (w0.options.margin_left + w1.pc.numberwidth,
              w0.options.margin_top + w1.pc.font_height * (int_add 1 w0.options.header_extraline)
                + w1.pc.font_height - w1.pc.font_descent)] ∧
          drawn_pages w.cr.ops = [1, 2])) :=
  ⟨fun be w1 f t1 c2 r2 len2 hs hf h1 hl2 hlen2 h3 h4 =>
      long_line_cairo be outfile fuel w0 w1 f t1 c2 r2 len2 hs hh hn hf h1 hl2 hlen2 h3 h4,
   fun pbe w1 text l1 l2 hs hlines hfirst =>
      Pango.long_line_pango pbe outfile fuel w0 w1 text l1 l2 hs hh hn hlines hfirst⟩

/-- Witness of C15, amended: a line of 30 letters, 7 wide each, on a paper of
200 by 200 with margins of 10.  With a line height of 12 both backends produce
1 page; with a line height of 70 the cairo backend produces 2 pages, and so
does the pangocairo backend on a paper 46 high. -/
theorem long_line_scenario_witness :
    (∃ w, print mono (ascii "out.pdf") 1
        [.START, .LINE, .TEXT (ascii "abcdefghijklmnopqrstuvwxy" ++ 122 :: ascii "0123"), .END]
        { World.init with options := sample_options } = .ok w ∧
      w.pc.pagenum = 1 ∧ w.flushes = 1) ∧
    (∃ w, print mono (ascii "out.pdf") 1
        [.START, .LINE, .TEXT (ascii "abcdefghijklmnopqrstuvwxy" ++ 122 :: ascii "0123"), .END]
        { World.init with options := { sample_options with linespace := 58 } } = .ok w ∧
      w.pc.pagenum = 2 ∧ w.flushes = 2) ∧
    (∃ w, Pango.print pango_mono (ascii "out.pdf") 1
        [.START, .LINE (ascii "abcdefghijklmnopqrstuvwxyz0123"), .END]
        { World.init with options := sample_options } = .ok w ∧
      w.pc.pagenum = 1 ∧ w.flushes = 1 ∧
      drawn_text w.cr.ops = [ascii "abcdefghijklmnopqrstuvwxy", ascii "z0123"]) ∧
    (∃ w, Pango.print pango_mono (ascii "out.pdf") 1
        [.START, .LINE (ascii "abcdefghijklmnopqrstuvwxyz0123"), .END]
        { World.init with options := { sample_options with paper_height := 46 } } = .ok w ∧
      w.pc.pagenum = 2 ∧ w.flushes = 2 ∧
      drawn_text w.cr.ops = [ascii "abcdefghijklmnopqrstuvwxy", ascii "z0123"]) :=
  ⟨(((long_line_scenario (ascii "out.pdf") 0 { World.init with options := sample_options }
        rfl (by decide)).1 mono sample_plain_started (FontSel.toy (ascii "Mono") 10 false false)
        (ascii "abcdefghijklmnopqrstuvwxy") 122 (ascii "0123") 1
        (by decide!) (by decide) (by decide!) (by decide) (by decide) (by decide!)
        (by decide!)).1 (by decide!)).elim fun w h => ⟨w, h.1, h.2.1, h.2.2.1⟩,
   (((long_line_scenario (ascii "out.pdf") 0
        { World.init with options := { sample_options with linespace := 58 } }
        rfl (by decide)).1 mono sample_tall_started (FontSel.toy (ascii "Mono") 10 false false)
        (ascii "abcdefghijklmnopqrstuvwxy") 122 (ascii "0123") 1
        (by decide!) (by decide) (by decide!) (by decide) (by decide) (by decide!)
        (by decide!)).2 (by decide!)).elim fun w h => ⟨w, h.1, h.2.1, h.2.2.1⟩,
   (((long_line_scenario (ascii "out.pdf") 0 { World.init with options := sample_options }
        rfl (by decide)).2 pango_mono (pango_started sample_options)
        (ascii "abcdefghijklmnopqrstuvwxyz0123") (ascii "abcdefghijklmnopqrstuvwxy")
        (ascii "z0123") (by decide!) (by decide!) (by decide!)).1 (by decide!)).elim
      fun w h => ⟨w, h.1, h.2.1, h.2.2.1, h.2.2.2.1⟩,
   (((long_line_scenario (ascii "out.pdf") 0
        { World.init with options := { sample_options with paper_height := 46 } }
        rfl (by decide)).2 pango_mono
        (pango_started { sample_options with paper_height := 46 })
        (ascii "abcdefghijklmnopqrstuvwxyz0123") (ascii "abcdefghijklmnopqrstuvwxy")
        (ascii "z0123") (by decide!) (by decide!) (by decide!)).2 (by decide!)).elim
      fun w h => ⟨w, h.1, h.2.1, h.2.2.1, h.2.2.2.1⟩⟩

/-! ## The two backends side by side -/

/-- A text put together from characters is taken apart into them again. -/
theorem characters_flatten : ∀ (cs : List (List Nat)), (∀ ch ∈ cs, valid_char ch) →
    ∀ n, cs.flatten.length ≤ n → characters n cs.flatten = cs := by
  intro cs
  induction cs with
  | nil => intro _ n _; cases n <;> simp [characters]
  | cons ch rest ih =>
    intro hv n hn
    obtain ⟨c, tl, rfl, hl⟩ := hv ch (by simp)
    simp only [List.flatten_cons, List.length_append, List.length_cons, List.cons_append] at hn ⊢
    obtain ⟨k, rfl⟩ : ∃ k, n = k + 1 := ⟨n - 1, by omega⟩
    have hlen : (c :: tl).length ≤ (c :: (tl ++ rest.flatten)).length := by simp
    have htake : List.take (c :: tl).length (c :: (tl ++ rest.flatten)) = c :: tl := by
      simp
    have hdrop : List.drop (c :: tl).length (c :: (tl ++ rest.flatten)) = rest.flatten := by
      simp
    simp only [characters, hl, if_pos hlen, htake, hdrop]
    rw [ih (fun x hx => hv x (by simp [hx])) k (by omega)]

theorem on_lines_to_line_start (w : World) : on_lines w.to_line_start = on_lines w := rfl

theorem on_lines_bump (w : World) : on_lines w.bump = on_lines w := rfl

set_option maxRecDepth 100000 in
/-- The value of `utf8len` told by the leading bits of the byte. -/
theorem utf8len_table : ∀ b, b < 256 → utf8len b =
      if b / 128 = 0 then .ok 1
      else if b / 32 = 6 then .ok 2
      else if b / 16 = 14 then .ok 3
      else if b / 8 = 30 then .ok 4
      else if b / 4 = 62 then .ok 5
      else if b / 2 = 126 then .ok 6
      else .error Err.invalid_utf8 := by
  decide

set_option maxRecDepth 100000 in
/-- The bytes that `utf8len` rejects. -/
theorem utf8len_rejects : ∀ b, b < 256 →
    (utf8len b = .error Err.invalid_utf8 ↔ (0x80 ≤ b ∧ b ≤ 0xBF) ∨ b = 0xFE ∨ b = 0xFF) := by
  decide

/-- The encoding of a code point is a character as the loop of `print_text`
takes it: `utf8len` of its lead byte is the number of its bytes. -/
theorem utf8_encode_valid (cp : Nat) (h : cp < 2 ^ 31) : valid_char (utf8_encode cp) := by
  unfold utf8_encode
  split_ifs with h1 h2 h3 h4 h5
  · refine ⟨cp, [], rfl, ?_⟩
    rw [utf8len_table cp (by omega), if_pos (by omega)]
    rfl
  · refine ⟨_, _, rfl, ?_⟩
    rw [utf8len_table _ (by omega), if_neg (by omega), if_pos (by omega)]
    rfl
  · refine ⟨_, _, rfl, ?_⟩
    rw [utf8len_table _ (by omega), if_neg (by omega), if_neg (by omega), if_pos (by omega)]
    rfl
  · refine ⟨_, _, rfl, ?_⟩
    rw [utf8len_table _ (by omega), if_neg (by omega), if_neg (by omega), if_neg (by omega),
      if_pos (by omega)]
    rfl
  · refine ⟨_, _, rfl, ?_⟩
    rw [utf8len_table _ (by omega), if_neg (by omega), if_neg (by omega), if_neg (by omega),
      if_neg (by omega), if_pos (by omega)]
    rfl
  · refine ⟨_, _, rfl, ?_⟩
    rw [utf8len_table _ (by omega), if_neg (by omega), if_neg (by omega), if_neg (by omega),
      if_neg (by omega), if_neg (by omega), if_pos (by omega)]
    rfl

theorem length_le_flatten : ∀ (cs : List (List Nat)), (∀ ch ∈ cs, valid_char ch) →
    cs.length ≤ cs.flatten.length := by
  intro cs
  induction cs with
  | nil => intro _; simp
  | cons ch rest ih =>
    intro hv
    obtain ⟨c, tl, rfl, -⟩ := hv ch (by simp)
    have := ih (fun x hx => hv x (by simp [hx]))
    simp only [List.flatten_cons, List.length_append, List.length_cons]
    omega

/-- The loop of `print_text` over a text that begins with whole characters:
one round for each of them, then the loop over what follows. -/
theorem print_text_loop_characters (be : Backend) (np : World → Except Err World)
    (hi : Highlight) :
    ∀ (cs : List (List Nat)), (∀ ch ∈ cs, valid_char ch) →
      ∀ (n : Nat) (t2 : List Nat) (w : World), cs.length ≤ n →
        print_text_loop be np hi n (cs.flatten ++ t2) w =
          (wrap_run be np hi cs w).bind fun w1 => print_text_loop be np hi (n - cs.length) t2 w1 := by
  intro cs
  induction cs with
  | nil =>
    intro _ n t2 w _
    simp [wrap_run, Except.bind]
  | cons ch rest ih =>
    intro hv n t2 w hn
    obtain ⟨c, tl, rfl, hl⟩ := hv ch (by simp)
    obtain ⟨k, rfl⟩ : ∃ k, n = k + 1 := ⟨n - 1, by simp only [List.length_cons] at hn; omega⟩
    have hlen : (c :: tl).length ≤ (c :: (tl ++ (rest.flatten ++ t2))).length := by simp
    have htake : List.take (c :: tl).length (c :: (tl ++ (rest.flatten ++ t2))) = c :: tl := by
      simp
    have hdrop : List.drop (c :: tl).length (c :: (tl ++ (rest.flatten ++ t2)))
        = rest.flatten ++ t2 := by
      simp
    have e : ((c :: tl) :: rest).flatten ++ t2 = c :: (tl ++ (rest.flatten ++ t2)) := by simp
    rw [e, print_text_loop_round be np hi k c _ w (c :: tl).length hl hlen, htake, hdrop]
    simp only [wrap_run]
    cases hw : print_text_wrap np (be.x_advance w.cr.font (c :: tl)) w with
    | error err => rfl
    | ok w1 =>
      simp only [Except.bind]
      rw [ih (fun x hx => hv x (by simp [hx])) k t2 _ (by simp only [List.length_cons] at hn; omega)]
      have e2 : k + 1 - ((c :: tl) :: rest).length = k - rest.length := by
        simp only [List.length_cons]; omega
      rw [e2]
      rfl

theorem well_formed_flatten : ∀ (cs : List (List Nat)), (∀ ch ∈ cs, valid_char ch) →
    ∀ n, cs.flatten.length ≤ n → well_formed n cs.flatten = true := by
  intro cs
  induction cs with
  | nil => intro _ n _; cases n <;> simp [well_formed]
  | cons ch rest ih =>
    intro hv n hn
    obtain ⟨c, tl, rfl, hl⟩ := hv ch (by simp)
    simp only [List.flatten_cons, List.length_append, List.length_cons, List.cons_append] at hn ⊢
    obtain ⟨k, rfl⟩ : ∃ k, n = k + 1 := ⟨n - 1, by omega⟩
    have hlen : (c :: tl).length ≤ (c :: (tl ++ rest.flatten)).length := by simp
    have hdrop : List.drop (c :: tl).length (c :: (tl ++ rest.flatten)) = rest.flatten := by
      simp
    simp only [well_formed, hl, hdrop, Bool.and_eq_true, decide_eq_true_eq]
    exact ⟨hlen, ih (fun x hx => hv x (by simp [hx])) k (by omega)⟩

theorem print_text_wrap_returns (np : World → Except Err World)
    (hnp : ∀ v, ∃ v2, np v = .ok v2) (adv : ℚ) (w : World) :
    ∃ w1, print_text_wrap np adv w = .ok w1 := by
  by_cases hx : w.pc.x + adv > w.options.paper_width - w.options.margin_right
  · by_cases hv : w.down.overflows
    · obtain ⟨v2, h2⟩ := hnp w.down
      exact ⟨_, by rw [print_text_wrap_page np adv w hx hv, h2]; rfl⟩
    · exact ⟨_, print_text_wrap_line np adv w hx hv⟩
  · exact ⟨_, print_text_wrap_stay np adv w hx⟩

theorem print_text_wrap_error (np : World → Except Err World) (adv : ℚ) (w : World) (e : Err)
    (h : print_text_wrap np adv w = .error e) : ∃ v, np v = .error e := by
  by_cases hx : w.pc.x + adv > w.options.paper_width - w.options.margin_right
  · by_cases hv : w.down.overflows
    · rw [print_text_wrap_page np adv w hx hv] at h
      cases h2 : np w.down with
      | error e2 =>
        rw [h2] at h
        simp only [Except.map, Except.error.injEq] at h
        exact ⟨w.down, by rw [h2, h]⟩
      | ok v2 => rw [h2] at h; simp [Except.map] at h
    · rw [print_text_wrap_line np adv w hx hv] at h
      cases h
  · rw [print_text_wrap_stay np adv w hx] at h
    cases h

/-- The rounds of the loop return when the page turns do. -/
theorem wrap_run_returns (be : Backend) (np : World → Except Err World) (hi : Highlight)
    (hnp : ∀ v, ∃ v2, np v = .ok v2) :
    ∀ (cs : List (List Nat)) (w : World), ∃ w2, wrap_run be np hi cs w = .ok w2 := by
  intro cs
  induction cs with
  | nil => intro w; exact ⟨w, rfl⟩
  | cons ch rest ih =>
    intro w
    obtain ⟨w1, h1⟩ := print_text_wrap_returns np hnp (be.x_advance w.cr.font ch) w
    obtain ⟨w2, h2⟩ := ih (w1.glyph hi ch (be.x_advance w.cr.font ch))
    exact ⟨w2, by simp only [wrap_run, h1, Except.bind]; exact h2⟩

/-- The rounds of the loop fail only where a page turn fails. -/
theorem wrap_run_error (be : Backend) (np : World → Except Err World) (hi : Highlight)
    (e : Err) :
    ∀ (cs : List (List Nat)) (w : World), wrap_run be np hi cs w = .error e →
      ∃ v, np v = .error e := by
  intro cs
  induction cs with
  | nil => intro w h; cases h
  | cons ch rest ih =>
    intro w h
    simp only [wrap_run] at h
    cases h1 : print_text_wrap np (be.x_advance w.cr.font ch) w with
    | error e1 =>
      rw [h1] at h
      simp only [Except.bind, Except.error.injEq] at h
      exact print_text_wrap_error np _ w e (by rw [h1, h])
    | ok w1 =>
      rw [h1] at h
      simp only [Except.bind] at h
      exact ih _ h

theorem drawn_text_glyph (w : World) (hi : Highlight) (buf : List Nat) (adv : ℚ) :
    drawn_text (w.glyph hi buf adv).cr.ops = drawn_text w.cr.ops ++ [buf] := by
  rw [glyph_ops, drawn_text_append]
  by_cases hw : is_white hi.bg = true <;> simp [hw, drawn_text]

/-- The rounds of the loop pass each character to `cairo_show_text` once, in
order, when the page turns draw no text. -/
theorem wrap_run_drawn_text (be : Backend) (np : World → Except Err World) (hi : Highlight)
    (hnp : ∀ v v2, np v = .ok v2 → drawn_text v2.cr.ops = drawn_text v.cr.ops) :
    ∀ (cs : List (List Nat)) (w w2 : World), wrap_run be np hi cs w = .ok w2 →
      drawn_text w2.cr.ops = drawn_text w.cr.ops ++ cs := by
  intro cs
  induction cs with
  | nil =>
    intro w w2 h
    simp only [wrap_run, Except.ok.injEq] at h
    subst h
    simp
  | cons ch rest ih =>
    intro w w2 h
    simp only [wrap_run] at h
    cases h1 : print_text_wrap np (be.x_advance w.cr.font ch) w with
    | error e1 => rw [h1] at h; simp [Except.bind] at h
    | ok w1 =>
      rw [h1] at h
      simp only [Except.bind] at h
      have e1 : drawn_text w1.cr.ops = drawn_text w.cr.ops := by
        rcases print_text_wrap_cases np _ w w1 h1 with ⟨-, rfl⟩ | ⟨-, -, rfl⟩ | ⟨-, -, w0, h0, rfl⟩
        · rfl
        · rfl
        · exact hnp w.down w0 h0
      rw [ih _ w2 h, drawn_text_glyph, e1]
      simp

/-- The round of the loop on a character that the text does not hold to its
end: the wrap test, the drawing, and then the step beyond the terminator. -/
theorem print_text_loop_truncated (be : Backend) (np : World → Except Err World)
    (hi : Highlight) (m : Nat) (c : Nat) (tl : List Nat) (w : World) (len : Nat)
    (hl : utf8len c = .ok len) (hlen : (c :: tl).length < len) :
    print_text_loop be np hi (m + 1) (c :: tl) w =
      (print_text_wrap np (be.x_advance w.cr.font (c :: tl)) w).bind fun _ =>
        .error Err.read_past_end := by
  have htake : List.take len (c :: tl) = c :: tl := List.take_of_length_le (le_of_lt hlen)
  simp only [print_text_loop]
  rw [hl]
  simp only [Except.bind, htake]
  cases print_text_wrap np (be.x_advance w.cr.font (c :: tl)) w with
  | error e => rfl
  | ok w1 =>
    simp only
    rw [if_neg (by omega)]

/-! ## The segmentation of a text into characters: the claim -/

/-- C21, as stated, fails in one point: the loop of `print_text` does not
terminate for every well-formed text.  The text "abc" is the encoding of
three code points.  On a paper of 20 by 20 with the header "abc", an advance
of 7 and a line height of 12, its third letter meets the wrap test, the next
line does not fit on the page, and the page turn that the loop calls does not
return, because the header is wider than the paper: whatever the budget for
the depth of the page turns, the stream uses it up. -/
theorem text_loop_meets_endless_page_turn :
    ascii "abc" = ([97, 98, 99].map utf8_encode).flatten ∧
    ∀ fuel : Nat, print mono (ascii "out.pdf") fuel
      [.PAPER 20 20, .HEADER (ascii "abc") 0, .FONT (ascii "Mono") 10, .START,
       .TEXT (ascii "abc")] World.init = .error Err.fuel := by
  refine ⟨by decide, ?_⟩
  intro fuel
  have hstart : print mono (ascii "out.pdf") fuel
      [.PAPER 20 20, .HEADER (ascii "abc") 0, .FONT (ascii "Mono") 10, .START] World.init
      = .ok sample_small_page := by
    simp only [print, exec, Except.bind]
    decide!
  have hnp : ∀ v : World, v.options = sample_small_page.options → v.pc.pagenum = 0 →
      v.pc.font_height = 12 → v.cr.font = FontSel.toy (ascii "Mono") 10 false false →
      newpage mono fuel v = .error Err.fuel := by
    intro v ho _ hh _
    exact newpage_runs_out mono sample_small_page.options (ascii "abc")
      (FontSel.toy (ascii "Mono") 10 false false) 12 rfl (by decide) (by decide)
      (by decide!) (by decide!) fuel v ho hh
      (fun p _ _ => ⟨(ascii "abc", []),
        header_expand_no_split p (ascii "abc") [Item.lit 97, Item.lit 98, Item.lit 99]
          (by decide) (by decide) (by simp [render, Item.text, HEADER_BUFSIZE]),
        by decide, by decide!⟩)
  have e : [Directive.PAPER 20 20, .HEADER (ascii "abc") 0, .FONT (ascii "Mono") 10, .START,
      .TEXT (ascii "abc")]
      = [Directive.PAPER 20 20, .HEADER (ascii "abc") 0, .FONT (ascii "Mono") 10, .START]
        ++ [.TEXT (ascii "abc")] := rfl
  rw [e, print_append, hstart]
  simp only [Except.bind, print, exec]
  have hs : set_font mono sample_small_page.options.font_name
      sample_small_page.options.font_size sample_small_page.pc.hi.bold
      sample_small_page.pc.hi.italic sample_small_page.cr = .ok sample_small_page.cr := by
    decide!
  unfold print_text
  rw [hs]
  simp only [Except.bind]
  rw [print_text_loop_reaches_newpage mono (newpage mono fuel) sample_small_page.pc.hi Err.fuel
    sample_small_page.options 0 (FontSel.toy (ascii "Mono") 10 false false) 12 hnp
    (ascii "abc").length (ascii "abc") _ rfl rfl rfl rfl (by decide) (by decide!) (by decide!)
    (by decide!)]

/-- C21, amended only in that the loop terminates when the page turns it
calls return.  `utf8len` returns 1, 2, 3, 4, 5 or 6 for a byte of the form
0xxxxxxx, 110xxxxx, 1110xxxx, 11110xxx, 111110xx, 1111110x and fails with
`invalid utf8` for every other byte, that is for 0x80 to 0xBF, 0xFE and 0xFF.
Let the text be the UTF-8 encoding of the code points `cps`, none of them 0.
Then the characters that the loop of `print_text` takes are the encodings of
the code points, in order; the loop never reads beyond the end of the text;
it makes one round per code point, each with the wrap test and the drawing of
that character; it returns whenever `newpage` returns, and fails only where
`newpage` fails; and when `newpage` draws no text, the texts drawn are those
drawn before followed by each encoded code point once, in order.  If the text
is followed by the first `k` bytes of the encoding of a code point that has
more than `k` bytes, the loop never returns, and when `newpage` returns it
ends with the step beyond the terminator. -/
theorem utf8_segmentation (be : Backend) (np : World → Except Err World) (hi : Highlight)
    (w : World) (cps : List Nat) (hcp : ∀ cp ∈ cps, 0 < cp ∧ cp < 2 ^ 31) :
    (∀ b, b < 256 → utf8len b =
      if b / 128 = 0 then .ok 1
      else if b / 32 = 6 then .ok 2
      else if b / 16 = 14 then .ok 3
      else if b / 8 = 30 then .ok 4
      else if b / 4 = 62 then .ok 5
      else if b / 2 = 126 then .ok 6
      else .error Err.invalid_utf8) ∧
    (∀ b, b < 256 →
      (utf8len b = .error Err.invalid_utf8 ↔ (0x80 ≤ b ∧ b ≤ 0xBF) ∨ b = 0xFE ∨ b = 0xFF)) ∧
    characters (cps.map utf8_encode).flatten.length (cps.map utf8_encode).flatten
      = cps.map utf8_encode ∧
    well_formed (cps.map utf8_encode).flatten.length (cps.map utf8_encode).flatten = true ∧
    print_text_loop be np hi (cps.map utf8_encode).flatten.length (cps.map utf8_encode).flatten w
      = wrap_run be np hi (cps.map utf8_encode) w ∧
    ((∀ v, ∃ v2, np v = .ok v2) →
      ∃ w2, print_text_loop be np hi (cps.map utf8_encode).flatten.length
        (cps.map utf8_encode).flatten w = .ok w2) ∧
    (∀ e, print_text_loop be np hi (cps.map utf8_encode).flatten.length
        (cps.map utf8_encode).flatten w = .error e → ∃ v, np v = .error e) ∧
    ((∀ v v2, np v = .ok v2 → drawn_text v2.cr.ops = drawn_text v.cr.ops) →
      ∀ w2, print_text_loop be np hi (cps.map utf8_encode).flatten.length
        (cps.map utf8_encode).flatten w = .ok w2 →
      drawn_text w2.cr.ops = drawn_text w.cr.ops ++ cps.map utf8_encode) ∧
    (∀ cp k, cp < 2 ^ 31 → 0 < k → k < (utf8_encode cp).length →
      (∀ w2, print_text_loop be np hi
        ((cps.map utf8_encode).flatten ++ (utf8_encode cp).take k).length
        ((cps.map utf8_encode).flatten ++ (utf8_encode cp).take k) w ≠ .ok w2) ∧
      ((∀ v, ∃ v2, np v = .ok v2) →
        print_text_loop be np hi
          ((cps.map utf8_encode).flatten ++ (utf8_encode cp).take k).length
          ((cps.map utf8_encode).flatten ++ (utf8_encode cp).take k) w
          = .error Err.read_past_end)) := by
  have hv : ∀ ch ∈ cps.map utf8_encode, valid_char ch := by
    intro ch hch
    obtain ⟨cp, hcp1, rfl⟩ := List.mem_map.mp hch
    exact utf8_encode_valid cp (hcp cp hcp1).2
  have hloop : print_text_loop be np hi (cps.map utf8_encode).flatten.length
      (cps.map utf8_encode).flatten w = wrap_run be np hi (cps.map utf8_encode) w := by
    have h := print_text_loop_characters be np hi (cps.map utf8_encode) hv
      (cps.map utf8_encode).flatten.length [] w (length_le_flatten _ hv)
    rw [List.append_nil] at h
    rw [h]
    cases wrap_run be np hi (cps.map utf8_encode) w with
    | error e => rfl
    | ok w1 => simp [Except.bind, print_text_loop]
  refine ⟨utf8len_table, utf8len_rejects, characters_flatten _ hv _ le_rfl,
    well_formed_flatten _ hv _ le_rfl, hloop, ?_, ?_, ?_, ?_⟩
  · intro hnp
    rw [hloop]
    exact wrap_run_returns be np hi hnp _ w
  · intro e he
    rw [hloop] at he
    exact wrap_run_error be np hi e _ w he
  · intro hnp w2 h2
    rw [hloop] at h2
    exact wrap_run_drawn_text be np hi hnp _ w w2 h2
  · intro cp k hcp2 hk0 hk
    obtain ⟨c, tl, hc, hl⟩ := utf8_encode_valid cp hcp2
    -- the part of the character that the text holds
    obtain ⟨tl2, hpart, hshort⟩ : ∃ tl2, (utf8_encode cp).take k = c :: tl2 ∧
        (c :: tl2).length < (utf8_encode cp).length := by
      obtain ⟨j, rfl⟩ : ∃ j, k = j + 1 := ⟨k - 1, by omega⟩
      refine ⟨tl.take j, by rw [hc]; rfl, ?_⟩
      rw [hc] at hk ⊢
      simp only [List.length_cons, List.length_take] at hk ⊢
      omega
    have hn : (cps.map utf8_encode).length + 1
        ≤ ((cps.map utf8_encode).flatten ++ (utf8_encode cp).take k).length := by
      have := length_le_flatten _ hv
      rw [List.length_append, hpart]
      simp only [List.length_cons]
      omega
    obtain ⟨m, hm⟩ : ∃ m, ((cps.map utf8_encode).flatten ++ (utf8_encode cp).take k).length
        - (cps.map utf8_encode).length = m + 1 := ⟨_, (Nat.succ_pred_eq_of_pos (by omega)).symm⟩
    have h := print_text_loop_characters be np hi (cps.map utf8_encode) hv
      ((cps.map utf8_encode).flatten ++ (utf8_encode cp).take k).length
      ((utf8_encode cp).take k) w (by omega)
    rw [h, hm, hpart]
    constructor
    · intro w2 h2
      cases h1 : wrap_run be np hi (cps.map utf8_encode) w with
      | error e => rw [h1] at h2; cases h2
      | ok w1 =>
        rw [h1] at h2
        simp only [Except.bind] at h2
        rw [print_text_loop_truncated be np hi m c tl2 w1 _ hl hshort] at h2
        cases h3 : print_text_wrap np (be.x_advance w1.cr.font (c :: tl2)) w1 with
        | error e => rw [h3] at h2; cases h2
        | ok w3 => rw [h3] at h2; cases h2
    · intro hnp
      obtain ⟨w1, h1⟩ := wrap_run_returns be np hi hnp (cps.map utf8_encode) w
      rw [h1]
      simp only [Except.bind]
      rw [print_text_loop_truncated be np hi m c tl2 w1 _ hl hshort]
      obtain ⟨w3, h3⟩ := print_text_wrap_returns np hnp (be.x_advance w1.cr.font (c :: tl2)) w1
      rw [h3]
      rfl

/-- C21, amended, on a sample: the text "aé€" followed by an emoji, that is
the code points 0x61, 0xE9, 0x20AC and 0x1F600, with a page turn that draws
no header. -/
theorem utf8_segmentation_witness :
    (∀ cp ∈ [0x61, 0xE9, 0x20AC, 0x1F600], 0 < cp ∧ cp < 2 ^ 31) ∧
    [0x61, 0xE9, 0x20AC, 0x1F600].map utf8_encode
      = [[0x61], [0xC3, 0xA9], [0xE2, 0x82, 0xAC], [0xF0, 0x9F, 0x98, 0x80]] ∧
    characters ([0x61, 0xE9, 0x20AC, 0x1F600].map utf8_encode).flatten.length
      ([0x61, 0xE9, 0x20AC, 0x1F600].map utf8_encode).flatten
      = [0x61, 0xE9, 0x20AC, 0x1F600].map utf8_encode ∧
    (∃ w2, print_text_loop mono (fun v => .ok v.fresh) (fixed_highlight "Normal")
      ([0x61, 0xE9, 0x20AC, 0x1F600].map utf8_encode).flatten.length
      ([0x61, 0xE9, 0x20AC, 0x1F600].map utf8_encode).flatten sample_plain_started = .ok w2) :=
  ⟨by decide, by decide,
   (utf8_segmentation mono (fun v => .ok v.fresh) (fixed_highlight "Normal")
      sample_plain_started [0x61, 0xE9, 0x20AC, 0x1F600] (by decide)).2.2.1,
   (utf8_segmentation mono (fun v => .ok v.fresh) (fixed_highlight "Normal")
      sample_plain_started [0x61, 0xE9, 0x20AC, 0x1F600] (by decide)).2.2.2.2.2.1
      (fun v => ⟨v.fresh, rfl⟩)⟩

end VimPrint
